import Mathlib

/-! Caslock: row locks over a store with per-row conditional writes.

A shallow embedding of `caslock.go`.  The Go code talks to three collaborators:
the gocql session (three CQL statements), the wall clock (`time.Now`,
`time.Sleep`) and the UUID generator (`gocql.TimeUUID`).  They are gathered in
a record `Env σ` of state-passing functions over an arbitrary state `σ`, so
that the control flow of `Acquire`, `acquireLoop`, `lockRow`, `checkRows` and
`Release` is embedded once, for every behaviour of the collaborators.  Every
call to a collaborator is also appended to a trace of `Event`s, which is what
the statements about "operations issued" talk about.

The two `for { ... }` loops of the Go code need not terminate; they are
embedded with fuel, and running out of fuel is a result of its own (`none`),
distinct from every result the Go code can return.

`Log` is `nil` unless the user sets it, and `logf` then returns at once;
logging is not part of the embedding.
-/

namespace Caslock

/-! ## Time

A `time.Duration` is a signed 64-bit count of nanoseconds and is embedded as
an `Int`, with the wrap-around of its arithmetic made explicit.  A `time.Time`
is embedded as the `Int` number of nanoseconds elapsed since the zero `Time`,
without a bound. -/

/-- The value `time.Second`. -/
def Second : Int := 1000000000

/-- The value `time.Millisecond`. -/
def Millisecond : Int := 1000000

/-- Smallest `time.Duration`. -/
def minDuration : Int := -(2 ^ 63)

/-- Largest `time.Duration`. -/
def maxDuration : Int := 2 ^ 63 - 1

/-- Two's-complement wrap-around of signed 64-bit arithmetic. -/
def wrapInt64 (x : Int) : Int := (x + 2 ^ 63) % 2 ^ 64 - 2 ^ 63

/-- The product `d * n` of a `time.Duration` by an integer, as Go computes it. -/
def Duration.mul (d : Int) (n : Int) : Int := wrapInt64 (d * n)

/-- The call `int(d.Seconds())`: `Seconds` is `float64(d / Second) +
float64(d % Second) / 1e9` and the conversion to `int` drops the fraction.  The
embedding computes it on integers, as the quotient of `d` by `Second` rounded
toward zero; this is the value of the Go expression whenever `d` is a whole
number of seconds, and whenever the fraction is not so close to 1 that the
float64 sum rounds up to the next integer. -/
def Duration.secondsInt (d : Int) : Int := Int.tdiv d Second

/-- The method `Time.Add`. -/
def Time.add (t : Int) (d : Int) : Int := t + d

/-- The method `Time.Sub`: the difference, saturated to the range of
`time.Duration`. -/
def Time.sub (t u : Int) : Int :=
  if t - u < minDuration then minDuration
  else if maxDuration < t - u then maxDuration
  else t - u

/-- The package variable `RetryTime`, at its initial value. -/
def RetryTime : Int := 500 * Millisecond

/-! ## Data model -/

/-- A `gocql.UUID`. -/
abbrev UUID := Nat

/-- A row key, the value bound to `id` in the CQL statements. -/
abbrev Row := String

/-- An error reported by the gocql session on a query. -/
structure StoreFailure where
  code : Nat
  deriving DecidableEq, Repr

/-- The values of type `error` that the package produces or passes on. -/
inductive Error where
  /-- The package variable `errTimeout`. -/
  | errTimeout
  /-- The value `errors.New("key not found")` of `checkRows`. -/
  | keyNotFound
  /-- An error returned by the session. -/
  | store (e : StoreFailure)
  deriving DecidableEq, Repr

/-- The struct `Lock`; the field `session` is the `Env` handed to each
function. -/
structure Lock where
  lockID : UUID
  keyspace : String
  table : String
  rowKeys : List Row
  ttl : Int
  timeout : Int
  deriving DecidableEq, Repr

/-- One call to a collaborator, with what it answered. -/
inductive Event where
  /-- A call to `gocql.TimeUUID`. -/
  | mint (id : UUID)
  /-- A call to `time.Now`. -/
  | now (t : Int)
  /-- The conditional write of `lockRow`: the TTL in seconds, the lock id and
  the row sent, and the answer of `ScanCAS`. -/
  | lock (ttl : Int) (id : UUID) (row : Row) (applied : Bool) (err : Option StoreFailure)
  /-- The conditional clear of `Release`. -/
  | clear (row : Row) (id : UUID) (applied : Bool) (err : Option StoreFailure)
  /-- The count query of `checkRows`. -/
  | count (rows : List Row) (n : Int) (err : Option StoreFailure)
  /-- A call to `time.Sleep`. -/
  | sleep (d : Int)
  deriving DecidableEq, Repr

/-- The collaborators of the package, as state-passing functions. -/
structure Env (σ : Type) where
  /-- The function `gocql.TimeUUID`. -/
  timeUUID : σ → UUID × σ
  /-- The function `time.Now`. -/
  now : σ → Int × σ
  /-- The function `time.Sleep`. -/
  sleep : Int → σ → σ
  /-- `UPDATE ks.tbl USING TTL ? SET lock = ? WHERE id = ? IF lock = null`
  run with `ScanCAS`: keyspace, table, TTL, lock id, row. -/
  lockQuery : String → String → Int → UUID → Row → σ → (Bool × Option StoreFailure) × σ
  /-- `UPDATE ks.tbl SET lock = null WHERE id = ? IF lock = ?` run with
  `ScanCAS`: keyspace, table, row, lock id. -/
  releaseQuery : String → String → Row → UUID → σ → (Bool × Option StoreFailure) × σ
  /-- `SELECT COUNT(*) FROM ks.tbl WHERE id in ?` run with `Scan`. -/
  countQuery : String → String → List Row → σ → (Int × Option StoreFailure) × σ

/-- The state threaded through the program: the collaborators' state and the
calls made so far, oldest first. -/
structure St (σ : Type) where
  world : σ
  trace : List Event

variable {σ : Type}

/-! ## The program -/

/-- The call `time.Now()`. -/
def timeNow (env : Env σ) (s : St σ) : Int × St σ :=
  ((env.now s.world).1, ⟨(env.now s.world).2, s.trace ++ [Event.now (env.now s.world).1]⟩)

/-- The call `time.Sleep(d)`. -/
def timeSleep (env : Env σ) (d : Int) (s : St σ) : St σ :=
  ⟨env.sleep d s.world, s.trace ++ [Event.sleep d]⟩

/-- The call `gocql.TimeUUID()`. -/
def timeUUID (env : Env σ) (s : St σ) : UUID × St σ :=
  ((env.timeUUID s.world).1,
    ⟨(env.timeUUID s.world).2, s.trace ++ [Event.mint (env.timeUUID s.world).1]⟩)

/-- The method `Lock.lockRow`. -/
def lockRow (env : Env σ) (l : Lock) (row : Row) (s : St σ) :
    (Bool × Option Error) × St σ :=
  let r := env.lockQuery l.keyspace l.table (Duration.secondsInt l.ttl) l.lockID row s.world
  ((r.1.1, r.1.2.map Error.store),
    ⟨r.2, s.trace ++ [Event.lock (Duration.secondsInt l.ttl) l.lockID row r.1.1 r.1.2]⟩)

/-- The method `Lock.checkRows`. -/
def checkRows (env : Env σ) (l : Lock) (s : St σ) : Option Error × St σ :=
  let r := env.countQuery l.keyspace l.table l.rowKeys s.world
  let s1 : St σ := ⟨r.2, s.trace ++ [Event.count l.rowKeys r.1.1 r.1.2]⟩
  match r.1.2 with
  | some e => (some (Error.store e), s1)
  | none =>
    if r.1.1 ≠ (l.rowKeys.length : Int) then (some Error.keyNotFound, s1)
    else (none, s1)

/-- The loop of `Lock.Release` over the rows still to clear. -/
def releaseRows (env : Env σ) (l : Lock) : List Row → St σ → Option Error × St σ
  | [], s => (none, s)
  | k :: ks, s =>
    let r := env.releaseQuery l.keyspace l.table k l.lockID s.world
    let s1 : St σ := ⟨r.2, s.trace ++ [Event.clear k l.lockID r.1.1 r.1.2]⟩
    match r.1.2 with
    | some e => (some (Error.store e), s1)
    | none => releaseRows env l ks s1

/-- The method `Lock.Release`. -/
def Release (env : Env σ) (l : Lock) (s : St σ) : Option Error × St σ :=
  releaseRows env l l.rowKeys s

/-- The two nested loops of `Lock.acquireLoop`, from the row at index `i` on:
`k :: ks` are the rows still to claim and `maxTime` is the local variable.
One unit of fuel is one pass through the body of the inner `for`.  The result
is `none` when the fuel runs out, `some none` for `return nil` and
`some (some err)` for `return err`. -/
def acquireRows (env : Env σ) (l : Lock) :
    Nat → Nat → List Row → Int → St σ → Option (Option Error) × St σ
  | _, _, [], _, s => (some none, s)
  | 0, _, _ :: _, _, s => (none, s)
  | fuel + 1, i, k :: ks, maxTime, s =>
    let t := timeNow env s
    let maxTime1 : Int := if i = 0 then Time.add t.1 l.ttl else maxTime
    if i ≠ 0 ∧ Time.sub maxTime t.1 < l.timeout then
      (some (some Error.errTimeout), (Release env l t.2).2)
    else
      let r := lockRow env l k t.2
      match r.1.2 with
      | some err => (some (some err), (Release env l r.2).2)
      | none =>
        if r.1.1 then acquireRows env l fuel (i + 1) ks maxTime1 r.2
        else
          let c := checkRows env l r.2
          match c.1 with
          | some err => (some (some err), (Release env l c.2).2)
          | none =>
            acquireRows env l fuel i (k :: ks) maxTime1 (timeSleep env RetryTime c.2)

/-- The method `Lock.acquireLoop`, with `fuel` passes of the inner loop. -/
def acquireLoop (env : Env σ) (fuel : Nat) (l : Lock) (s : St σ) :
    Option (Option Error) × St σ :=
  acquireRows env l fuel 0 l.rowKeys 0 s

/-- The composite literal `&Lock{...}` of `Acquire`. -/
def newLock (id : UUID) (keyspace table : String) (timeout : Int)
    (rowKeys : List Row) : Lock :=
  { lockID := id, keyspace := keyspace, table := table, rowKeys := rowKeys,
    ttl := Duration.mul timeout 2, timeout := timeout }

/-- The loop labelled `loop` of `Acquire`, with at most `attempts` calls of
`acquireLoop`, each with `fuel` passes.  The result is `none` when either fuel
runs out, otherwise the pair `(*Lock, error)` that `Acquire` returns. -/
def acquireAttempts (env : Env σ) (fuel : Nat) (l : Lock) :
    Nat → St σ → Option (Option Lock × Option Error) × St σ
  | 0, s => (none, s)
  | attempts + 1, s =>
    let r := acquireLoop env fuel l s
    match r.1 with
    | none => (none, r.2)
    | some none => (some (some l, none), r.2)
    | some (some err) =>
      if err = Error.errTimeout then acquireAttempts env fuel l attempts r.2
      else (some (none, some err), r.2)

/-- The function `Acquire`. -/
def Acquire (env : Env σ) (attempts fuel : Nat) (keyspace table : String)
    (timeout : Int) (rowKeys : List Row) (s : St σ) :
    Option (Option Lock × Option Error) × St σ :=
  let u := timeUUID env s
  acquireAttempts env fuel (newLock u.1 keyspace table timeout rowKeys) attempts u.2

/-! ## Reading a trace -/

/-- The store failure reported by a conditional write or a count query. -/
def Event.failure : Event → Option StoreFailure
  | Event.lock _ _ _ _ err => err
  | Event.count _ _ err => err
  | _ => none

/-- The store failure reported by a conditional clear. -/
def Event.clearFailure : Event → Option StoreFailure
  | Event.clear _ _ _ err => err
  | _ => none

/-- Whether the event is a conditional clear. -/
def Event.isClear : Event → Bool
  | Event.clear _ _ _ _ => true
  | _ => false

/-- Whether the event is a call to `gocql.TimeUUID`. -/
def Event.isMint : Event → Bool
  | Event.mint _ => true
  | _ => false

/-- The owner id sent with a conditional write or clear. -/
def Event.owner : Event → Option UUID
  | Event.lock _ id _ _ _ => some id
  | Event.clear _ id _ _ => some id
  | _ => none

/-- One step of reading expiry off a trace: the state is the last reading of
the clock and, for each conditional write that was applied, the row and the
earliest moment at which its marker can expire, which is the TTL sent, in
seconds, after the reading of the clock that preceded the write. -/
def expiryStep (acc : Option Int × List (Row × Int)) : Event → Option Int × List (Row × Int)
  | Event.now t => (some t, acc.2)
  | Event.lock ttl _ row applied err =>
    if applied = true ∧ err = none then (acc.1, acc.2 ++ [(row, acc.1.getD 0 + ttl * Second)])
    else acc
  | _ => acc

/-- The last reading of the clock in a trace. -/
def lastReading (tr : List Event) : Option Int :=
  (tr.foldl expiryStep (none, [])).1

/-- The rows written in a trace, each with the earliest moment at which its
marker can expire. -/
def earliestExpiries (tr : List Event) : List (Row × Int) :=
  (tr.foldl expiryStep (none, [])).2

/-- The readings of the clock in a trace, oldest first. -/
def readings (tr : List Event) : List Int :=
  tr.filterMap (fun ev => match ev with | Event.now t => some t | _ => none)

/-- The minimum hold time, on the trace of an attempt: at the last reading of
the clock every marker written has at least `timeout` left before it can
expire. -/
def HoldsFor (timeout : Int) (tr : List Event) : Prop :=
  ∀ t, lastReading tr = some t → ∀ x ∈ earliestExpiries tr, timeout ≤ x.2 - t

/-- The events a run added to the trace it started from. -/
def newEvents (before : St σ) (after : St σ) : List Event :=
  after.trace.drop before.trace.length

/-- The row and owner id of a conditional clear. -/
def Event.cleared : Event → Option (Row × UUID)
  | Event.clear row id _ _ => some (row, id)
  | _ => none

/-- The last call before `acquireLoop` turns to `Release` and returns `err`:
a clock reading for `errTimeout`, a count that differs from the number of row
keys for "key not found", a failed conditional write or count for a store
failure. -/
def AbortsOn (err : Error) (last : Event) : Prop :=
  match err with
  | Error.errTimeout => ∃ t, last = Event.now t
  | Error.keyNotFound => ∃ rows n, last = Event.count rows n none ∧ n ≠ (rows.length : Int)
  | Error.store e => last.failure = some e

/-- The shape of the calls of one run of `acquireLoop` with result `o`:
`body` are the calls of the loop itself and `rel` those of the `Release` it
ends with when it returns an error. -/
def AttemptShape (l : Lock) (o : Option (Option Error)) (body rel : List Event) : Prop :=
  (∀ ev ∈ body, ev.isClear = false ∧ ev.isMint = false ∧
    (ev.owner = none ∨ ev.owner = some l.lockID)) ∧
  (∀ ev ∈ rel, ev.isClear = true ∧ ev.owner = some l.lockID) ∧
  (∀ pre ev post, rel = pre ++ ev :: post → ev.clearFailure ≠ none → post = []) ∧
  match o with
  | some (some err) =>
    ∃ init last, body = init ++ [last] ∧ (∀ ev ∈ init, ev.failure = none) ∧ AbortsOn err last
  | _ => rel = [] ∧ ∀ ev ∈ body, ev.failure = none

/-- How the result of `Acquire` follows from the result `o` of its last call
of `acquireLoop`. -/
def ResultOf (l : Lock) (o : Option (Option Error))
    (res : Option (Option Lock × Option Error)) : Prop :=
  (o = none ∧ res = none) ∨ (o = some none ∧ res = some (some l, none)) ∨
    ∃ err, o = some (some err) ∧ err ≠ Error.errTimeout ∧ res = some (none, some err)

/-! ## A store with per-row conditional writes

The store of sections 5 and 6 of the design: a table of rows, each with a
nullable lock marker, on which the three CQL statements of the package act.
Other clients and the passing of time are scripted: before each query of the
lock the next batch of `others` is applied, each query takes its outcome from
`faults`, and each reading of the clock advances it by the next of `ticks`. -/

/-- What happens to a marker behind the back of the lock. -/
inductive OtherOp where
  /-- Another client's conditional write: applies when the marker is null. -/
  | claim (row : Row) (owner : UUID)
  /-- Another client's conditional clear: applies when the marker is `owner`. -/
  | clear (row : Row) (owner : UUID)
  /-- The TTL of the marker elapses. -/
  | expire (row : Row)
  deriving DecidableEq, Repr

/-- The store, the clock and the UUID generator. -/
structure World where
  /-- The rows of the table. -/
  present : Row → Bool
  /-- The lock marker of each row. -/
  marker : Row → Option UUID
  /-- The wall clock. -/
  clock : Int
  /-- The next UUID that `gocql.TimeUUID` hands out. -/
  nextID : UUID
  /-- By how much the clock advances before each reading. -/
  ticks : List Int
  /-- The failure, if any, that each query meets. -/
  faults : List (Option StoreFailure)
  /-- What other clients and expiry do before each query. -/
  others : List (List OtherOp)

/-- The effect of one `OtherOp` on the markers. -/
def applyOther ( present : Row → Bool) (m : Row → Option UUID) :
    OtherOp → Row → Option UUID
  | OtherOp.claim r o =>
    if present r = true ∧ m r = none then fun x => if x = r then some o else m x else m
  | OtherOp.clear r o =>
    if m r = some o then fun x => if x = r then none else m x else m
  | OtherOp.expire r => fun x => if x = r then none else m x

/-- The start of a query: the next batch of other clients' operations is
applied and the next fault is taken. -/
def World.arrive (w : World) : Option StoreFailure × World :=
  (w.faults.headD none,
    { w with
      marker := (w.others.headD []).foldl (applyOther w.present) w.marker
      others := w.others.tail
      faults := w.faults.tail })

/-- The conditional write `... SET lock = id WHERE id = row IF lock = null`: it
applies when the row is in the table and its marker is null. -/
def World.lockQuery (id : UUID) (row : Row) (w : World) :
    (Bool × Option StoreFailure) × World :=
  let a := w.arrive
  match a.1 with
  | some e => ((false, some e), a.2)
  | none =>
    if a.2.present row = true ∧ a.2.marker row = none then
      ((true, none), { a.2 with marker := fun x => if x = row then some id else a.2.marker x })
    else ((false, none), a.2)

/-- The conditional clear `... SET lock = null WHERE id = row IF lock = id`, as
the store answers it: the applied flag, and a failure only where the script has
one.  What the gocql client makes of the answer to a clear that is not applied,
`ScanCAS()` having no destination for the previous value, is in
`World.releaseScan`. -/
def World.releaseQuery (row : Row) (id : UUID) (w : World) :
    (Bool × Option StoreFailure) × World :=
  let a := w.arrive
  match a.1 with
  | some e => ((false, some e), a.2)
  | none =>
    if a.2.marker row = some id then
      ((true, none), { a.2 with marker := fun x => if x = row then none else a.2.marker x })
    else ((false, none), a.2)

/-- The number of distinct rows of `rows` that are in the table. -/
def countPresent ( present : Row → Bool) : List Row → Nat
  | [] => 0
  | r :: rs => (if present r = true ∧ r ∉ rs then 1 else 0) + countPresent present rs

/-- The query `SELECT COUNT(*) ... WHERE id in rows`. -/
def World.countQuery (rows : List Row) (w : World) : (Int × Option StoreFailure) × World :=
  let a := w.arrive
  match a.1 with
  | some e => ((0, some e), a.2)
  | none => ((countPresent a.2.present rows, none), a.2)

/-- The collaborators over a `World`. -/
def memEnv : Env World where
  timeUUID w := (w.nextID, { w with nextID := w.nextID + 1 })
  now w := (w.clock + w.ticks.headD 0,
    { w with clock := w.clock + w.ticks.headD 0, ticks := w.ticks.tail })
  sleep d w := { w with clock := w.clock + d }
  lockQuery _ _ _ id row w := w.lockQuery id row
  releaseQuery _ _ row id w := w.releaseQuery row id
  countQuery _ _ rows w := w.countQuery rows

/-- Whether the operation takes the marker `o` off the row `r`: the holder's
clear, or the expiry of the marker. -/
def OtherOp.frees (r : Row) (o : UUID) : OtherOp → Bool
  | OtherOp.clear r1 o1 => decide (r1 = r ∧ o1 = o)
  | OtherOp.expire r1 => decide (r1 = r)
  | OtherOp.claim _ _ => false

/-- Whether the operation writes the owner id `o`. -/
def OtherOp.claimsAs (o : UUID) : OtherOp → Bool
  | OtherOp.claim _ o1 => decide (o1 = o)
  | _ => false

/-- Nothing scripted takes the marker `o` off the row `r`. -/
def World.Keeps (w : World) (r : Row) (o : UUID) : Prop :=
  ∀ batch ∈ w.others, ∀ op ∈ batch, op.frees r o = false

instance (w : World) (r : Row) (o : UUID) : Decidable (w.Keeps r o) := by
  unfold World.Keeps
  infer_instance

/-- No other client writes the owner id `o`. -/
def World.NoOtherClaims (w : World) (o : UUID) : Prop :=
  ∀ batch ∈ w.others, ∀ op ∈ batch, op.claimsAs o = false

instance (w : World) (o : UUID) : Decidable (w.NoOtherClaims o) := by
  unfold World.NoOtherClaims
  infer_instance

/-- The store reports no failure. -/
def World.NoFaults (w : World) : Prop := ∀ f ∈ w.faults, f = none

instance (w : World) : Decidable w.NoFaults := by
  unfold World.NoFaults
  infer_instance

/-- The world `w1` comes after `w`: the same table rows and UUID counter, and
what is left of each script. -/
structure World.Later (w w1 : World) : Prop where
  present : w1.present = w.present
  nextID : w1.nextID = w.nextID
  others : ∃ k, w1.others = w.others.drop k
  faults : ∃ k, w1.faults = w.faults.drop k
  ticks : ∃ k, w1.ticks = w.ticks.drop k

/-- A table with the given rows, all unlocked, a clock at 0 and nothing
scripted. -/
def World.quiet (rows : List Row) : World where
  present r := decide (r ∈ rows)
  marker _ := none
  clock := 0
  nextID := 1
  ticks := []
  faults := []
  others := []

/-- A clock script under which `n` attempts in a row over two rows run out of
time when the timeout is one second: in each attempt the second reading comes
two seconds after the first. -/
def slowTicks : Nat → List Int
  | 0 => []
  | n + 1 => 0 :: 2 * Second :: slowTicks n

/-- The rows r1 and r2, unlocked, with the clock script `slowTicks n`. -/
def World.slow (n : Nat) : World :=
  { World.quiet ["r1", "r2"] with ticks := slowTicks n }

/-- The rows r1 and r2 are in the table and unlocked, the store is quiet and
`n` slow attempts are still scripted. -/
structure World.Calm (w : World) (n : Nat) : Prop where
  p1 : w.present "r1" = true
  p2 : w.present "r2" = true
  m1 : w.marker "r1" = none
  m2 : w.marker "r2" = none
  faults : w.faults = []
  others : w.others = []
  ticks : w.ticks = slowTicks n

/-- A state with an empty trace. -/
def St.init (w : σ) : St σ := ⟨w, []⟩

/-- The TTL, in seconds, sent with a conditional write. -/
def Event.sentTTL : Event → Option Int
  | Event.lock ttl _ _ _ _ => some ttl
  | _ => none

/-- The row of a conditional write. -/
def Event.lockedRow : Event → Option Row
  | Event.lock _ _ row _ _ => some row
  | _ => none

/-- Whether the event is the count query of the existence check. -/
def Event.isCount : Event → Bool
  | Event.count _ _ _ => true
  | _ => false

/-- Whether the event is a conditional write that returned without error and
was not applied. -/
def Event.isRejected : Event → Bool
  | Event.lock _ _ _ false none => true
  | _ => false

/-- Whether the event is a conditional write that returned without error and
was applied. -/
def Event.isApplied : Event → Bool
  | Event.lock _ _ _ true none => true
  | _ => false

/-- Which call `b` can come right after the call `a` in a run of
`acquireLoop`: after a reading of the clock, the conditional write or the
first clear of `Release`; after a conditional write, the next reading when it
was applied, the count query when it was rejected, a clear of `Release` when
it failed; after the count query, the sleep of `RetryTime` when the count is
the number of row keys, a clear of `Release` otherwise; after the sleep, the
next reading; after a clear, a clear. -/
def NextCall (l : Lock) (a b : Event) : Prop :=
  match a with
  | Event.now _ =>
    (∃ k ap e, b = Event.lock (Duration.secondsInt l.ttl) l.lockID k ap e) ∨ b.isClear = true
  | Event.lock _ _ _ ap e =>
    if e = none then
      (if ap = true then ∃ t, b = Event.now t else ∃ n f, b = Event.count l.rowKeys n f)
    else b.isClear = true
  | Event.count _ n f =>
    if f = none ∧ n = (l.rowKeys.length : Int) then b = Event.sleep RetryTime
    else b.isClear = true
  | Event.sleep _ => ∃ t, b = Event.now t
  | Event.clear _ _ _ _ => b.isClear = true
  | Event.mint _ => False

/-- The conditional writes of a trace go through the rows `ks` in order: each
write is on the row whose index is the number of writes applied before it, and
the writes applied before it are on the rows before that index, in order. -/
def InOrder (ks : List Row) (T : List Event) : Prop :=
  ∀ pre ev post, T = pre ++ ev :: post → ∀ k, ev.lockedRow = some k →
    ks[pre.countP Event.isApplied]? = some k ∧
    (pre.filter Event.isApplied).filterMap Event.lockedRow =
      ks.take (pre.countP Event.isApplied)

/-- One step of reading the deadline off a trace: the state is the last reading
of the clock and the reading that preceded the first conditional write that
was applied, which is the reading of the last pass on the first row. -/
def deadlineStep (acc : Option Int × Option Int) : Event → Option Int × Option Int
  | Event.now t => (some t, acc.2)
  | Event.lock _ _ _ ap e =>
    if ap = true ∧ e = none ∧ acc.2 = none then (acc.1, acc.1) else acc
  | _ => acc

/-- The reading of the clock taken at the last pass on the first row, once the
write on the first row has been applied. -/
def firstRowReading (tr : List Event) : Option Int :=
  (tr.foldl deadlineStep (none, none)).2


/-- The store as a `Lock` finds it when nothing else acts on it: no other
client and no failure is scripted, the rows of the lock are in the table, each
of them carries no marker or the lock's own, and every row that carries the
lock's marker was claimed by an applied write among the calls `pre`. -/
structure Alone (l : Lock) (w : World) (pre : List Event) : Prop where
  others : w.others = []
  faults : w.NoFaults
  rows : ∀ r ∈ l.rowKeys,
    w.present r = true ∧ (w.marker r = none ∨ w.marker r = some l.lockID)
  written : ∀ r ∈ l.rowKeys, w.marker r = some l.lockID →
    Event.lock (Duration.secondsInt l.ttl) l.lockID r true none ∈ pre

/-- The error of the gocql client when the reply to a query has more columns
than the call has destinations for. -/
def scanError : StoreFailure := ⟨1⟩

/-- The conditional clear as the gocql client answers the call that `Release`
makes, `ScanCAS()` with no destination: the reply of a clear that is not
applied on a row of the table carries the previous value of the lock column,
the call has no destination for it, and the client returns an error.  A clear
that is applied, or one on a row that is not in the table, is answered with the
applied flag alone. -/
def World.releaseScan (row : Row) (id : UUID) (w : World) :
    (Bool × Option StoreFailure) × World :=
  let a := w.arrive
  match a.1 with
  | some e => ((false, some e), a.2)
  | none =>
    if a.2.marker row = some id then
      ((true, none), { a.2 with marker := fun x => if x = row then none else a.2.marker x })
    else if a.2.present row = true then ((false, some scanError), a.2)
    else ((false, none), a.2)

/-- The collaborators over a `World`, the conditional clear being answered as
the gocql client answers `ScanCAS()` with no destination. -/
def scanEnv : Env World :=
  { memEnv with releaseQuery := fun _ _ row id w => w.releaseScan row id }
end Caslock

namespace Caslock

variable {σ : Type}

/-! ## The loop of `Acquire` -/

theorem acquireAttempts_zero (env : Env σ) (fuel : Nat) (l : Lock) (s : St σ) :
    acquireAttempts env fuel l 0 s = (none, s) := rfl

theorem acquireAttempts_succ (env : Env σ) (fuel : Nat) (l : Lock) (n : Nat) (s : St σ) :
    acquireAttempts env fuel l (n + 1) s =
      match (acquireLoop env fuel l s).1 with
      | none => (none, (acquireLoop env fuel l s).2)
      | some none => (some (some l, none), (acquireLoop env fuel l s).2)
      | some (some err) =>
        if err = Error.errTimeout then
          acquireAttempts env fuel l n (acquireLoop env fuel l s).2
        else (some (none, some err), (acquireLoop env fuel l s).2) := rfl

/-- What the loop of `Acquire` can return: the lock it was given and no error,
or no lock and an error other than `errTimeout`. -/
theorem acquireAttempts_result (env : Env σ) (fuel : Nat) (l : Lock) (n : Nat) (s : St σ)
    (res : Option Lock × Option Error) (h : (acquireAttempts env fuel l n s).1 = some res) :
    res = (some l, none) ∨ ∃ err, res = (none, some err) ∧ err ≠ Error.errTimeout := by
  induction n generalizing s with
  | zero => simp [acquireAttempts_zero] at h
  | succ n ih =>
    rw [acquireAttempts_succ] at h
    rcases hr : (acquireLoop env fuel l s).1 with _ | _ | err
    · simp [hr] at h
    · simp [hr] at h
      exact Or.inl h.symm
    · simp only [hr] at h
      by_cases he : err = Error.errTimeout
      · rw [if_pos he] at h
        exact ih _ h
      · rw [if_neg he] at h
        simp at h
        exact Or.inr ⟨err, h.symm, he⟩

/-! ## Traces -/

theorem newEvents_of_append (s s1 : St σ) (new : List Event)
    (h : s1.trace = s.trace ++ new) : newEvents s s1 = new := by
  simp [newEvents, h]

theorem releaseRows_nil (env : Env σ) (l : Lock) (s : St σ) :
    releaseRows env l [] s = (none, s) := rfl

theorem releaseRows_cons (env : Env σ) (l : Lock) (k : Row) (ks : List Row) (s : St σ) :
    releaseRows env l (k :: ks) s =
      match (env.releaseQuery l.keyspace l.table k l.lockID s.world).1.2 with
      | some e => (some (Error.store e),
          ⟨(env.releaseQuery l.keyspace l.table k l.lockID s.world).2,
            s.trace ++ [Event.clear k l.lockID
              (env.releaseQuery l.keyspace l.table k l.lockID s.world).1.1
              (env.releaseQuery l.keyspace l.table k l.lockID s.world).1.2]⟩)
      | none => releaseRows env l ks
          ⟨(env.releaseQuery l.keyspace l.table k l.lockID s.world).2,
            s.trace ++ [Event.clear k l.lockID
              (env.releaseQuery l.keyspace l.table k l.lockID s.world).1.1
              (env.releaseQuery l.keyspace l.table k l.lockID s.world).1.2]⟩ := rfl

/-- The calls of `Release`: conditional clears under the lock id, of which only
the last can have failed. -/
theorem releaseRows_shape (env : Env σ) (l : Lock) (rows : List Row) (s : St σ) :
    ∃ rel, (releaseRows env l rows s).2.trace = s.trace ++ rel ∧
      (∀ ev ∈ rel, ev.isClear = true ∧ ev.owner = some l.lockID) ∧
      (∀ pre ev post, rel = pre ++ ev :: post → ev.clearFailure ≠ none → post = []) := by
  induction rows generalizing s with
  | nil =>
    refine ⟨[], by simp [releaseRows_nil], by simp, ?_⟩
    intro pre ev post h
    simp at h
  | cons k ks ih =>
    rw [releaseRows_cons]
    rcases hq : (env.releaseQuery l.keyspace l.table k l.lockID s.world).1.2 with _ | e
    · simp only []
      obtain ⟨rel, h1, h2, h3⟩ := ih
        ⟨(env.releaseQuery l.keyspace l.table k l.lockID s.world).2,
          s.trace ++ [Event.clear k l.lockID
            (env.releaseQuery l.keyspace l.table k l.lockID s.world).1.1 none]⟩
      refine ⟨Event.clear k l.lockID
        (env.releaseQuery l.keyspace l.table k l.lockID s.world).1.1 none :: rel, ?_, ?_, ?_⟩
      · rw [h1]; simp
      · intro ev hev
        rcases List.mem_cons.1 hev with rfl | hev
        · simp [Event.isClear, Event.owner]
        · exact h2 ev hev
      · intro pre ev post h hne
        cases pre with
        | nil =>
          simp at h
          rw [← h.1] at hne
          simp [Event.clearFailure] at hne
        | cons x pre =>
          simp at h
          exact h3 pre ev post h.2 hne
    · simp only []
      refine ⟨[Event.clear k l.lockID
        (env.releaseQuery l.keyspace l.table k l.lockID s.world).1.1 (some e)], rfl, ?_, ?_⟩
      · intro ev hev
        simp at hev
        subst hev
        simp [Event.isClear, Event.owner]
      · intro pre ev post h _
        cases pre with
        | nil => simp at h; exact h.2
        | cons x pre => simp at h

theorem acquireRows_nil (env : Env σ) (l : Lock) (fuel i : Nat) (maxTime : Int) (s : St σ) :
    acquireRows env l fuel i [] maxTime s = (some none, s) := by
  cases fuel <;> rfl

theorem acquireRows_zero (env : Env σ) (l : Lock) (i : Nat) (k : Row) (ks : List Row)
    (maxTime : Int) (s : St σ) :
    acquireRows env l 0 i (k :: ks) maxTime s = (none, s) := rfl

theorem acquireRows_succ (env : Env σ) (l : Lock) (fuel i : Nat) (k : Row) (ks : List Row)
    (maxTime : Int) (s : St σ) :
    acquireRows env l (fuel + 1) i (k :: ks) maxTime s =
      if i ≠ 0 ∧ Time.sub maxTime (timeNow env s).1 < l.timeout then
        (some (some Error.errTimeout), (Release env l (timeNow env s).2).2)
      else
        match (lockRow env l k (timeNow env s).2).1.2 with
        | some err => (some (some err), (Release env l (lockRow env l k (timeNow env s).2).2).2)
        | none =>
          if (lockRow env l k (timeNow env s).2).1.1 = true then
            acquireRows env l fuel (i + 1) ks
              (if i = 0 then Time.add (timeNow env s).1 l.ttl else maxTime)
              (lockRow env l k (timeNow env s).2).2
          else
            match (checkRows env l (lockRow env l k (timeNow env s).2).2).1 with
            | some err => (some (some err),
                (Release env l (checkRows env l (lockRow env l k (timeNow env s).2).2).2).2)
            | none =>
              acquireRows env l fuel i (k :: ks)
                (if i = 0 then Time.add (timeNow env s).1 l.ttl else maxTime)
                (timeSleep env RetryTime
                  (checkRows env l (lockRow env l k (timeNow env s).2).2).2) := rfl

/-- The five ways through one pass of the inner loop of `acquireLoop`. -/
theorem acquireRows_cases (env : Env σ) (l : Lock) (fuel i : Nat) (k : Row) (ks : List Row)
    (maxTime : Int) (s : St σ) :
    (i ≠ 0 ∧ Time.sub maxTime (timeNow env s).1 < l.timeout ∧
      acquireRows env l (fuel + 1) i (k :: ks) maxTime s =
        (some (some Error.errTimeout), (Release env l (timeNow env s).2).2)) ∨
    (¬ (i ≠ 0 ∧ Time.sub maxTime (timeNow env s).1 < l.timeout) ∧
      ((∃ err, (lockRow env l k (timeNow env s).2).1.2 = some err ∧
        acquireRows env l (fuel + 1) i (k :: ks) maxTime s =
          (some (some err), (Release env l (lockRow env l k (timeNow env s).2).2).2)) ∨
      ((lockRow env l k (timeNow env s).2).1.2 = none ∧
        (lockRow env l k (timeNow env s).2).1.1 = true ∧
        acquireRows env l (fuel + 1) i (k :: ks) maxTime s =
          acquireRows env l fuel (i + 1) ks
            (if i = 0 then Time.add (timeNow env s).1 l.ttl else maxTime)
            (lockRow env l k (timeNow env s).2).2) ∨
      ((lockRow env l k (timeNow env s).2).1.2 = none ∧
        (lockRow env l k (timeNow env s).2).1.1 = false ∧
        ((∃ err, (checkRows env l (lockRow env l k (timeNow env s).2).2).1 = some err ∧
          acquireRows env l (fuel + 1) i (k :: ks) maxTime s =
            (some (some err),
              (Release env l (checkRows env l (lockRow env l k (timeNow env s).2).2).2).2)) ∨
        ((checkRows env l (lockRow env l k (timeNow env s).2).2).1 = none ∧
          acquireRows env l (fuel + 1) i (k :: ks) maxTime s =
            acquireRows env l fuel i (k :: ks)
              (if i = 0 then Time.add (timeNow env s).1 l.ttl else maxTime)
              (timeSleep env RetryTime
                (checkRows env l (lockRow env l k (timeNow env s).2).2).2)))))) := by
  rw [acquireRows_succ]
  by_cases hto : i ≠ 0 ∧ Time.sub maxTime (timeNow env s).1 < l.timeout
  · exact Or.inl ⟨hto.1, hto.2, by rw [if_pos hto]⟩
  · refine Or.inr ⟨hto, ?_⟩
    rw [if_neg hto]
    rcases hl : (lockRow env l k (timeNow env s).2).1.2 with _ | err
    · by_cases ha : (lockRow env l k (timeNow env s).2).1.1 = true
      · exact Or.inr (Or.inl ⟨rfl, ha, by simp only [if_pos ha]⟩)
      · refine Or.inr (Or.inr ⟨rfl, by simpa using ha, ?_⟩)
        simp only [if_neg ha]
        rcases hc : (checkRows env l (lockRow env l k (timeNow env s).2).2).1 with _ | err
        · exact Or.inr ⟨rfl, rfl⟩
        · exact Or.inl ⟨err, rfl, rfl⟩
    · exact Or.inl ⟨err, rfl, rfl⟩

theorem timeNow_trace (env : Env σ) (s : St σ) :
    (timeNow env s).2.trace = s.trace ++ [Event.now (timeNow env s).1] := rfl

theorem timeSleep_trace (env : Env σ) (d : Int) (s : St σ) :
    (timeSleep env d s).trace = s.trace ++ [Event.sleep d] := rfl

/-- The call of `lockRow`: one conditional write under the lock id, whose
failure is the error returned. -/
theorem lockRow_trace (env : Env σ) (l : Lock) (k : Row) (s : St σ) :
    ∃ a e, (lockRow env l k s).2.trace =
        s.trace ++ [Event.lock (Duration.secondsInt l.ttl) l.lockID k a e] ∧
      (lockRow env l k s).1 = (a, e.map Error.store) :=
  ⟨_, _, rfl, rfl⟩

/-- The call of `checkRows`: one count query, and the error it gives rise to. -/
theorem checkRows_trace (env : Env σ) (l : Lock) (s : St σ) :
    ∃ n e, (checkRows env l s).2.trace = s.trace ++ [Event.count l.rowKeys n e] ∧
      (checkRows env l s).1 =
        match e with
        | some f => some (Error.store f)
        | none => if n ≠ (l.rowKeys.length : Int) then some Error.keyNotFound else none := by
  refine ⟨(env.countQuery l.keyspace l.table l.rowKeys s.world).1.1,
    (env.countQuery l.keyspace l.table l.rowKeys s.world).1.2, ?_, ?_⟩
  · rcases h : (env.countQuery l.keyspace l.table l.rowKeys s.world).1.2 with _ | f
    · by_cases hn : (env.countQuery l.keyspace l.table l.rowKeys s.world).1.1
          = (l.rowKeys.length : Int) <;> simp [checkRows, h, hn]
    · simp [checkRows, h]
  · rcases h : (env.countQuery l.keyspace l.table l.rowKeys s.world).1.2 with _ | f
    · by_cases hn : (env.countQuery l.keyspace l.table l.rowKeys s.world).1.1
          = (l.rowKeys.length : Int) <;> simp [checkRows, h, hn]
    · simp [checkRows, h]

/-- Calls made before an attempt goes on keep its shape, when none of them is
a clear, a mint or a failed query. -/
theorem AttemptShape.prepend (l : Lock) (o : Option (Option Error)) (pre body rel : List Event)
    (hpre : ∀ ev ∈ pre, (ev.isClear = false ∧ ev.isMint = false ∧
      (ev.owner = none ∨ ev.owner = some l.lockID)) ∧ ev.failure = none)
    (h : AttemptShape l o body rel) : AttemptShape l o (pre ++ body) rel := by
  obtain ⟨h1, h2, h3, h4⟩ := h
  refine ⟨?_, h2, h3, ?_⟩
  · intro ev hev
    rcases List.mem_append.1 hev with hev | hev
    · exact (hpre ev hev).1
    · exact h1 ev hev
  · rcases o with _ | _ | err
    · refine ⟨h4.1, ?_⟩
      intro ev hev
      rcases List.mem_append.1 hev with hev | hev
      · exact (hpre ev hev).2
      · exact h4.2 ev hev
    · refine ⟨h4.1, ?_⟩
      intro ev hev
      rcases List.mem_append.1 hev with hev | hev
      · exact (hpre ev hev).2
      · exact h4.2 ev hev
    · obtain ⟨init, last, hb, hi, ha⟩ := h4
      refine ⟨pre ++ init, last, by simp [hb], ?_, ha⟩
      intro ev hev
      rcases List.mem_append.1 hev with hev | hev
      · exact (hpre ev hev).2
      · exact hi ev hev

/-- An attempt that turns to `Release` after the call `last` and returns
`err`. -/
theorem abort_shape (env : Env σ) (l : Lock) (s sb : St σ) (err : Error)
    (init : List Event) (last : Event)
    (hb : sb.trace = s.trace ++ (init ++ [last]))
    (hinit : ∀ ev ∈ init, (ev.isClear = false ∧ ev.isMint = false ∧
      (ev.owner = none ∨ ev.owner = some l.lockID)) ∧ ev.failure = none)
    (hlast : last.isClear = false ∧ last.isMint = false ∧
      (last.owner = none ∨ last.owner = some l.lockID))
    (ha : AbortsOn err last) :
    ∃ body rel, (Release env l sb).2.trace = s.trace ++ (body ++ rel) ∧
      AttemptShape l (some (some err)) body rel := by
  obtain ⟨rel, h1, h2, h3⟩ := releaseRows_shape env l l.rowKeys sb
  refine ⟨init ++ [last], rel, ?_, ?_, h2, h3, init, last, rfl, fun ev hev => (hinit ev hev).2, ha⟩
  · unfold Release
    rw [h1, hb]
    simp
  · intro ev hev
    rcases List.mem_append.1 hev with hev | hev
    · exact (hinit ev hev).1
    · simp at hev
      subst hev
      exact hlast

/-- The shape of the calls of `acquireLoop`, whatever the collaborators do. -/
theorem acquireRows_shape (env : Env σ) (l : Lock) (fuel i : Nat) (ks : List Row)
    (maxTime : Int) (s : St σ) :
    ∃ body rel, (acquireRows env l fuel i ks maxTime s).2.trace = s.trace ++ (body ++ rel) ∧
      AttemptShape l (acquireRows env l fuel i ks maxTime s).1 body rel := by
  induction fuel generalizing i ks maxTime s with
  | zero =>
    cases ks with
    | nil =>
      rw [acquireRows_nil]
      exact ⟨[], [], by simp, by simp [AttemptShape]⟩
    | cons k ks =>
      rw [acquireRows_zero]
      exact ⟨[], [], by simp, by simp [AttemptShape]⟩
  | succ fuel ih =>
    cases ks with
    | nil =>
      rw [acquireRows_nil]
      exact ⟨[], [], by simp, by simp [AttemptShape]⟩
    | cons k ks =>
      rw [acquireRows_succ]
      have hnow : ∀ ev ∈ [Event.now (timeNow env s).1],
          (ev.isClear = false ∧ ev.isMint = false ∧
            (ev.owner = none ∨ ev.owner = some l.lockID)) ∧ ev.failure = none := by
        intro ev hev
        simp at hev
        subst hev
        simp [Event.isClear, Event.isMint, Event.owner, Event.failure]
      by_cases hto : i ≠ 0 ∧ Time.sub maxTime (timeNow env s).1 < l.timeout
      · rw [if_pos hto]
        exact abort_shape env l s _ Error.errTimeout [] (Event.now (timeNow env s).1)
          (by simp [timeNow_trace]) (by simp)
          (by simp [Event.isClear, Event.isMint, Event.owner]) ⟨_, rfl⟩
      · rw [if_neg hto]
        obtain ⟨a, e, hlt, hlr⟩ := lockRow_trace env l k (timeNow env s).2
        have hl1 : (lockRow env l k (timeNow env s).2).1.1 = a := by rw [hlr]
        have hl2 : (lockRow env l k (timeNow env s).2).1.2 = e.map Error.store := by rw [hlr]
        rw [hl2, hl1]
        have hlk : (Event.lock (Duration.secondsInt l.ttl) l.lockID k a e).isClear = false ∧
            (Event.lock (Duration.secondsInt l.ttl) l.lockID k a e).isMint = false ∧
            ((Event.lock (Duration.secondsInt l.ttl) l.lockID k a e).owner = none ∨
              (Event.lock (Duration.secondsInt l.ttl) l.lockID k a e).owner = some l.lockID) := by
          simp [Event.isClear, Event.isMint, Event.owner]
        rcases e with _ | e
        · simp only [Option.map_none']
          have hpre : ∀ ev ∈ [Event.now (timeNow env s).1,
              Event.lock (Duration.secondsInt l.ttl) l.lockID k a none],
              (ev.isClear = false ∧ ev.isMint = false ∧
                (ev.owner = none ∨ ev.owner = some l.lockID)) ∧ ev.failure = none := by
            intro ev hev
            simp at hev
            rcases hev with rfl | rfl <;>
              simp [Event.isClear, Event.isMint, Event.owner, Event.failure]
          by_cases ha : a = true
          · rw [if_pos ha]
            obtain ⟨body, rel, ht, hs⟩ := ih (i + 1) ks
              (if i = 0 then Time.add (timeNow env s).1 l.ttl else maxTime)
              (lockRow env l k (timeNow env s).2).2
            refine ⟨[Event.now (timeNow env s).1,
              Event.lock (Duration.secondsInt l.ttl) l.lockID k a none] ++ body, rel, ?_,
              AttemptShape.prepend l _ _ body rel hpre hs⟩
            rw [ht, hlt, timeNow_trace]
            simp
          · rw [if_neg ha]
            obtain ⟨n, f, hct, hcr⟩ := checkRows_trace env l (lockRow env l k (timeNow env s).2).2
            rw [hcr]
            have hcnt : (Event.count l.rowKeys n f).isClear = false ∧
                (Event.count l.rowKeys n f).isMint = false ∧
                ((Event.count l.rowKeys n f).owner = none ∨
                  (Event.count l.rowKeys n f).owner = some l.lockID) := by
              simp [Event.isClear, Event.isMint, Event.owner]
            rcases f with _ | f
            · simp only []
              by_cases hn : n = (l.rowKeys.length : Int)
              · rw [if_neg (by simpa using hn)]
                simp only []
                obtain ⟨body, rel, ht, hs⟩ := ih i (k :: ks)
                  (if i = 0 then Time.add (timeNow env s).1 l.ttl else maxTime)
                  (timeSleep env RetryTime
                    (checkRows env l (lockRow env l k (timeNow env s).2).2).2)
                refine ⟨[Event.now (timeNow env s).1,
                  Event.lock (Duration.secondsInt l.ttl) l.lockID k a none,
                  Event.count l.rowKeys n none, Event.sleep RetryTime] ++ body, rel, ?_,
                  AttemptShape.prepend l _ _ body rel ?_ hs⟩
                · rw [ht, timeSleep_trace, hct, hlt, timeNow_trace]
                  simp
                · intro ev hev
                  simp at hev
                  rcases hev with rfl | rfl | rfl | rfl <;>
                    simp [Event.isClear, Event.isMint, Event.owner, Event.failure]
              · rw [if_pos (by simpa using hn)]
                simp only []
                exact abort_shape env l s _ Error.keyNotFound
                  [Event.now (timeNow env s).1, Event.lock (Duration.secondsInt l.ttl) l.lockID k a none]
                  (Event.count l.rowKeys n none)
                  (by rw [hct, hlt, timeNow_trace]; simp) hpre hcnt ⟨_, _, rfl, hn⟩
            · simp only []
              exact abort_shape env l s _ (Error.store f)
                [Event.now (timeNow env s).1, Event.lock (Duration.secondsInt l.ttl) l.lockID k a none]
                (Event.count l.rowKeys n (some f))
                (by rw [hct, hlt, timeNow_trace]; simp) hpre hcnt (by simp [AbortsOn, Event.failure])
        · simp only [Option.map_some']
          exact abort_shape env l s _ (Error.store e) [Event.now (timeNow env s).1]
            (Event.lock (Duration.secondsInt l.ttl) l.lockID k a (some e))
            (by rw [hlt, timeNow_trace]; simp) hnow hlk (by simp [AbortsOn, Event.failure])

theorem Event.failure_of_isClear (ev : Event) (h : ev.isClear = true) :
    ev.failure = none ∧ ev.isMint = false := by
  cases ev <;> simp_all [Event.isClear, Event.failure, Event.isMint]

theorem Event.clearFailure_of_not_isClear (ev : Event) (h : ev.isClear = false) :
    ev.clearFailure = none := by
  cases ev <;> simp_all [Event.isClear, Event.clearFailure]

/-- A list with a single element that satisfies `P` splits around that element
only. -/
theorem split_unique {α : Type} (P : α → Prop) (A B pre post : List α) (x ev : α)
    (hA : ∀ a ∈ A, ¬ P a) (hB : ∀ b ∈ B, ¬ P b) (hev : P ev)
    (h : A ++ x :: B = pre ++ ev :: post) : pre = A ∧ ev = x ∧ post = B := by
  induction A generalizing pre with
  | nil =>
    cases pre with
    | nil =>
      simp at h
      exact ⟨rfl, h.1.symm, h.2.symm⟩
    | cons y pre =>
      simp at h
      exact absurd hev (hB ev (by rw [h.2]; simp))
  | cons a A ih =>
    cases pre with
    | nil =>
      simp at h
      exact absurd (h.1 ▸ hev) (hA a (by simp))
    | cons y pre =>
      simp at h
      obtain ⟨h1, h2, h3⟩ := ih pre (fun b hb => hA b (by simp [hb])) h.2
      exact ⟨by rw [h.1, h1], h2, h3⟩

/-- A list none of whose elements satisfies `P` has no split around an element
that does. -/
theorem no_split {α : Type} (P : α → Prop) (A pre post : List α) (ev : α)
    (hA : ∀ a ∈ A, ¬ P a) (hev : P ev) (h : A = pre ++ ev :: post) : False :=
  hA ev (by rw [h]; simp) hev

/-- The calls of the loop of `Acquire`: those of the attempts that ended with
`errTimeout`, none of which saw a conditional write or a count fail, then those
of the last attempt. -/
theorem acquireAttempts_shape (env : Env σ) (fuel : Nat) (l : Lock) (n : Nat) (s : St σ) :
    ∃ pre body rel o,
      (acquireAttempts env fuel l n s).2.trace = s.trace ++ (pre ++ (body ++ rel)) ∧
      (∀ ev ∈ pre, ev.failure = none ∧ ev.isMint = false ∧
        (ev.owner = none ∨ ev.owner = some l.lockID)) ∧
      AttemptShape l o body rel ∧ ResultOf l o (acquireAttempts env fuel l n s).1 := by
  induction n generalizing s with
  | zero =>
    exact ⟨[], [], [], none, by simp [acquireAttempts_zero], by simp, by simp [AttemptShape],
      Or.inl ⟨rfl, rfl⟩⟩
  | succ n ih =>
    rw [acquireAttempts_succ]
    obtain ⟨body, rel, ht, hs⟩ := acquireRows_shape env l fuel 0 l.rowKeys 0 s
    have hloop : acquireLoop env fuel l s = acquireRows env l fuel 0 l.rowKeys 0 s := rfl
    rw [← hloop] at ht hs
    rcases ho : (acquireLoop env fuel l s).1 with _ | _ | err
    · simp only []
      rw [ho] at hs
      exact ⟨[], body, rel, none, by simpa using ht, by simp, hs, Or.inl ⟨rfl, rfl⟩⟩
    · simp only []
      rw [ho] at hs
      exact ⟨[], body, rel, some none, by simpa using ht, by simp, hs, Or.inr (Or.inl ⟨rfl, rfl⟩)⟩
    · simp only []
      rw [ho] at hs
      by_cases he : err = Error.errTimeout
      · rw [if_pos he]
        obtain ⟨pre, body1, rel1, o, ht1, hp1, hs1, hr1⟩ := ih (acquireLoop env fuel l s).2
        refine ⟨body ++ rel ++ pre, body1, rel1, o, ?_, ?_, hs1, hr1⟩
        · rw [ht1, ht]
          simp
        · obtain ⟨h1, h2, _, init, last, hb, hi, ha⟩ := hs
          subst he
          obtain ⟨t, hlast⟩ := ha
          intro ev hev
          rcases List.mem_append.1 hev with hev | hev
          · rcases List.mem_append.1 hev with hev | hev
            · refine ⟨?_, (h1 ev hev).2.1, (h1 ev hev).2.2⟩
              rw [hb] at hev
              rcases List.mem_append.1 hev with hev | hev
              · exact hi ev hev
              · simp at hev
                rw [hev, hlast]
                rfl
            · exact ⟨(Event.failure_of_isClear ev (h2 ev hev).1).1,
                (Event.failure_of_isClear ev (h2 ev hev).1).2, Or.inr (h2 ev hev).2⟩
          · exact hp1 ev hev
      · rw [if_neg he]
        exact ⟨[], body, rel, some (some err), by simpa using ht, by simp, hs,
          Or.inr (Or.inr ⟨err, rfl, he, rfl⟩)⟩

theorem Acquire_eq (env : Env σ) (attempts fuel : Nat) (keyspace table : String)
    (timeout : Int) (rowKeys : List Row) (s : St σ) :
    Acquire env attempts fuel keyspace table timeout rowKeys s =
      acquireAttempts env fuel
        (newLock (env.timeUUID s.world).1 keyspace table timeout rowKeys) attempts
        ⟨(env.timeUUID s.world).2, s.trace ++ [Event.mint (env.timeUUID s.world).1]⟩ := rfl

/-- The calls of `Acquire`: one mint, then the attempts. -/
theorem Acquire_shape (env : Env σ) (attempts fuel : Nat) (keyspace table : String)
    (timeout : Int) (rowKeys : List Row) (s : St σ) :
    ∃ pre body rel o,
      newEvents s (Acquire env attempts fuel keyspace table timeout rowKeys s).2 =
        Event.mint (env.timeUUID s.world).1 :: (pre ++ (body ++ rel)) ∧
      (∀ ev ∈ pre, ev.failure = none ∧ ev.isMint = false ∧
        (ev.owner = none ∨ ev.owner = some (env.timeUUID s.world).1)) ∧
      AttemptShape (newLock (env.timeUUID s.world).1 keyspace table timeout rowKeys) o body rel ∧
      ResultOf (newLock (env.timeUUID s.world).1 keyspace table timeout rowKeys) o
        (Acquire env attempts fuel keyspace table timeout rowKeys s).1 := by
  rw [Acquire_eq]
  obtain ⟨pre, body, rel, o, ht, hp, hs, hr⟩ := acquireAttempts_shape env fuel
    (newLock (env.timeUUID s.world).1 keyspace table timeout rowKeys) attempts
    ⟨(env.timeUUID s.world).2, s.trace ++ [Event.mint (env.timeUUID s.world).1]⟩
  refine ⟨pre, body, rel, o, ?_, hp, hs, hr⟩
  apply newEvents_of_append
  rw [ht]
  simp

/-- A failed conditional write or count is the last call of the loop of
`Acquire`: only the clears of `Release` follow it, and `Acquire` returns the
failure. -/
theorem Acquire_failure_last (env : Env σ) (attempts fuel : Nat) (keyspace table : String)
    (timeout : Int) (rowKeys : List Row) (s : St σ) (pre post : List Event) (ev : Event)
    (e : StoreFailure)
    (hrun : newEvents s (Acquire env attempts fuel keyspace table timeout rowKeys s).2 =
      pre ++ ev :: post)
    (hfail : ev.failure = some e) :
    (Acquire env attempts fuel keyspace table timeout rowKeys s).1 =
        some (none, some (Error.store e)) ∧
      ∀ x ∈ post, x.isClear = true := by
  obtain ⟨pre1, body, rel, o, ht, hp, hs, hr⟩ :=
    Acquire_shape env attempts fuel keyspace table timeout rowKeys s
  rw [hrun] at ht
  have hev : ev.failure ≠ none := by simp [hfail]
  have hrel : ∀ x ∈ rel, ¬ x.failure ≠ none := fun x hx =>
    not_not.2 (Event.failure_of_isClear x (hs.2.1 x hx).1).1
  have hmp : ∀ x ∈ Event.mint (env.timeUUID s.world).1 :: pre1, ¬ x.failure ≠ none := by
    intro x hx
    rcases List.mem_cons.1 hx with rfl | hx
    · simp [Event.failure]
    · exact not_not.2 (hp x hx).1
  rcases o with _ | _ | err
  · exfalso
    refine no_split (fun x => x.failure ≠ none) _ pre post ev ?_ hev ht.symm
    intro x hx
    obtain ⟨_, _, _, h4, h5⟩ := hs
    subst h4
    simp only [List.append_nil, List.mem_cons, List.mem_append] at hx
    rcases hx with rfl | hx | hx
    · simp [Event.failure]
    · exact not_not.2 (hp x hx).1
    · exact not_not.2 (h5 x hx)
  · exfalso
    refine no_split (fun x => x.failure ≠ none) _ pre post ev ?_ hev ht.symm
    intro x hx
    obtain ⟨_, _, _, h4, h5⟩ := hs
    subst h4
    simp only [List.append_nil, List.mem_cons, List.mem_append] at hx
    rcases hx with rfl | hx | hx
    · simp [Event.failure]
    · exact not_not.2 (hp x hx).1
    · exact not_not.2 (h5 x hx)
  · obtain ⟨_, h2, _, init, last, hb, hi, ha⟩ := hs
    subst hb
    have ht1 : (Event.mint (env.timeUUID s.world).1 :: pre1 ++ init) ++ last :: rel =
        pre ++ ev :: post := by
      rw [ht]
      simp
    obtain ⟨_, h7, h8⟩ := split_unique (fun x => x.failure ≠ none) _ rel pre post last ev
      (by
        intro x hx
        rcases List.mem_append.1 hx with hx | hx
        · exact hmp x hx
        · exact not_not.2 (hi x hx)) hrel hev ht1
    subst h7 h8
    refine ⟨?_, fun x hx => (h2 x hx).1⟩
    rcases hr with ⟨h, _⟩ | ⟨h, _⟩ | ⟨err1, h, hne, hres⟩
    · simp at h
    · simp at h
    · simp at h
      subst h
      rw [hres]
      cases err with
      | errTimeout => exact absurd rfl hne
      | keyNotFound =>
        obtain ⟨rows, n, hl, _⟩ := ha
        rw [hl] at hfail
        simp [Event.failure] at hfail
      | store e1 =>
        have : ev.failure = some e1 := ha
        rw [hfail] at this
        simp at this
        rw [this]

/-- A failed conditional clear is the last call of an attempt, and the attempt
returns the error that made it turn to `Release`. -/
theorem acquireLoop_clear_failure_last (env : Env σ) (fuel : Nat) (l : Lock) (s : St σ)
    (pre post : List Event) (ev : Event) (e : StoreFailure)
    (hrun : newEvents s (acquireLoop env fuel l s).2 = pre ++ ev :: post)
    (hfail : ev.clearFailure = some e) :
    post = [] ∧ ∃ err init last rel, pre = init ++ last :: rel ∧
      (∀ x ∈ rel, x.isClear = true) ∧ last.isClear = false ∧ AbortsOn err last ∧
      (acquireLoop env fuel l s).1 = some (some err) := by
  obtain ⟨body, rel, ht, hs⟩ := acquireRows_shape env l fuel 0 l.rowKeys 0 s
  have hloop : acquireLoop env fuel l s = acquireRows env l fuel 0 l.rowKeys 0 s := rfl
  rw [← hloop] at ht hs
  rw [newEvents_of_append _ _ _ ht] at hrun
  have hev : ev.clearFailure ≠ none := by simp [hfail]
  have hbody : ∀ x ∈ body, ¬ x.clearFailure ≠ none := fun x hx =>
    not_not.2 (Event.clearFailure_of_not_isClear x (hs.1 x hx).1)
  rcases ho : (acquireLoop env fuel l s).1 with _ | _ | err
  · exfalso
    rw [ho] at hs
    obtain ⟨_, _, _, h4, _⟩ := hs
    subst h4
    exact no_split (fun x => x.clearFailure ≠ none) _ pre post ev hbody hev
      (by simpa using hrun)
  · exfalso
    rw [ho] at hs
    obtain ⟨_, _, _, h4, _⟩ := hs
    subst h4
    exact no_split (fun x => x.clearFailure ≠ none) _ pre post ev hbody hev
      (by simpa using hrun)
  · rw [ho] at hs
    obtain ⟨h1, h2, h3, init, last, hb, _, ha⟩ := hs
    have hsplit : ∃ a', pre = body ++ a' ∧ rel = a' ++ ev :: post := by
      rcases List.append_eq_append_iff.1 hrun with ⟨a', h5, h6⟩ | ⟨c', h5, h6⟩
      · exact ⟨a', h5, h6⟩
      · cases c' with
        | nil =>
          simp at h5 h6
          exact ⟨[], by simp [h5], by simp [h6]⟩
        | cons y c' =>
          simp at h6
          exfalso
          refine hbody ev ?_ hev
          rw [h5, h6.1]
          simp
    obtain ⟨a', h5, h6⟩ := hsplit
    refine ⟨h3 a' ev post h6 hev, err, init, last, a', ?_, ?_, ?_, ha, rfl⟩
    · rw [h5, hb]
      simp
    · intro x hx
      exact (h2 x (by rw [h6]; simp [hx])).1
    · exact (h1 last (by rw [hb]; simp)).1

theorem wrapInt64_of_range (x : Int) (h1 : -(2 ^ 63) ≤ x) (h2 : x < 2 ^ 63) :
    wrapInt64 x = x := by
  unfold wrapInt64
  rw [Int.emod_eq_of_lt (by omega) (by omega)]
  omega

theorem ttl_of_range (timeout : Int) (h1 : 0 < timeout) (h2 : timeout < 2 ^ 62) :
    Duration.mul timeout 2 = 2 * timeout := by
  unfold Duration.mul
  rw [wrapInt64_of_range _ (by omega) (by omega)]
  omega

/-! ## The calls of `Release` -/

theorem newEvents_step (s s1 s2 : St σ) (x : Event) (rel : List Event)
    (h1 : s1.trace = s.trace ++ [x]) (h2 : s2.trace = s1.trace ++ rel) :
    newEvents s s2 = x :: newEvents s1 s2 := by
  rw [newEvents_of_append s1 s2 rel h2, newEvents_of_append s s2 (x :: rel) (by rw [h2, h1]; simp)]

/-- `Release` stops at the first conditional clear that fails. -/
theorem releaseRows_failure_at (env : Env σ) (l : Lock) (rows : List Row) (s : St σ) (i : Nat)
    (ev : Event) (e : StoreFailure)
    (hev : (newEvents s (releaseRows env l rows s).2)[i]? = some ev)
    (hfail : ev.clearFailure = some e) :
    (releaseRows env l rows s).1 = some (Error.store e) ∧
    (newEvents s (releaseRows env l rows s).2).length = i + 1 ∧
    (newEvents s (releaseRows env l rows s).2).map Event.cleared =
      (rows.take (i + 1)).map (fun k => some (k, l.lockID)) ∧
    (∀ j ev1, j < i → (newEvents s (releaseRows env l rows s).2)[j]? = some ev1 →
      ev1.clearFailure = none) ∧
    i < rows.length ∧
    releaseRows env l rows s = releaseRows env l (rows.take (i + 1)) s := by
  induction rows generalizing s i with
  | nil =>
    rw [releaseRows_nil] at hev
    simp [newEvents] at hev
  | cons k ks ih =>
    rcases hq : (env.releaseQuery l.keyspace l.table k l.lockID s.world).1.2 with _ | f
    · have hr : releaseRows env l (k :: ks) s = releaseRows env l ks
          ⟨(env.releaseQuery l.keyspace l.table k l.lockID s.world).2,
            s.trace ++ [Event.clear k l.lockID
              (env.releaseQuery l.keyspace l.table k l.lockID s.world).1.1 none]⟩ := by
        rw [releaseRows_cons]
        simp only [hq]
      obtain ⟨rel, hrel, _, _⟩ := releaseRows_shape env l ks
          ⟨(env.releaseQuery l.keyspace l.table k l.lockID s.world).2,
            s.trace ++ [Event.clear k l.lockID
              (env.releaseQuery l.keyspace l.table k l.lockID s.world).1.1 none]⟩
      have hn := newEvents_step s _ _ _ rel rfl hrel
      rw [hr] at hev ⊢
      rw [hn] at hev ⊢
      cases i with
      | zero =>
        simp at hev
        rw [← hev] at hfail
        simp [Event.clearFailure] at hfail
      | succ i =>
        simp only [List.getElem?_cons_succ] at hev
        obtain ⟨h1, h2, h3, h4, h5, h6⟩ := ih _ i hev
        refine ⟨h1, by simp [h2], by simp [h3, Event.cleared], ?_, by simp [h5], ?_⟩
        · intro j ev1 hj hj1
          cases j with
          | zero =>
            simp at hj1
            rw [← hj1]
            rfl
          | succ j =>
            simp only [List.getElem?_cons_succ] at hj1
            exact h4 j ev1 (by omega) hj1
        · rw [h6, List.take_succ_cons, releaseRows_cons]
          simp only [hq]
    · have hr : releaseRows env l (k :: ks) s = (some (Error.store f),
          ⟨(env.releaseQuery l.keyspace l.table k l.lockID s.world).2,
            s.trace ++ [Event.clear k l.lockID
              (env.releaseQuery l.keyspace l.table k l.lockID s.world).1.1 (some f)]⟩) := by
        rw [releaseRows_cons]
        simp only [hq]
      have hn : newEvents s (releaseRows env l (k :: ks) s).2 = [Event.clear k l.lockID
              (env.releaseQuery l.keyspace l.table k l.lockID s.world).1.1 (some f)] := by
        rw [hr]
        exact newEvents_of_append _ _ _ rfl
      rw [hn] at hev ⊢
      cases i with
      | zero =>
        simp at hev
        rw [← hev] at hfail
        simp [Event.clearFailure] at hfail
        subst hfail
        refine ⟨by rw [hr], rfl, by simp [Event.cleared], by simp, by simp, ?_⟩
        rw [hr]
        simp only [List.take_succ_cons, List.take_zero, Nat.zero_add]
        rw [releaseRows_cons]
        simp only [hq]
      | succ i => simp at hev

/-! ## The scripted store: one operation -/

theorem World.Later.refl (w : World) : w.Later w :=
  ⟨rfl, rfl, ⟨0, rfl⟩, ⟨0, rfl⟩, ⟨0, rfl⟩⟩

theorem World.Later.trans {w w1 w2 : World} (h1 : w.Later w1) (h2 : w1.Later w2) :
    w.Later w2 := by
  obtain ⟨a1, a2, ⟨k1, a3⟩, ⟨k2, a4⟩, ⟨k3, a5⟩⟩ := h1
  obtain ⟨b1, b2, ⟨j1, b3⟩, ⟨j2, b4⟩, ⟨j3, b5⟩⟩ := h2
  refine ⟨b1.trans a1, b2.trans a2, ⟨k1 + j1, ?_⟩, ⟨k2 + j2, ?_⟩, ⟨k3 + j3, ?_⟩⟩
  · rw [b3, a3, List.drop_drop]
  · rw [b4, a4, List.drop_drop]
  · rw [b5, a5, List.drop_drop]

theorem World.Later.keeps {w w1 : World} (h : w.Later w1) (r : Row) (o : UUID)
    (hk : w.Keeps r o) : w1.Keeps r o := by
  obtain ⟨k, hk1⟩ := h.others
  intro batch hb
  rw [hk1] at hb
  exact hk batch (List.mem_of_mem_drop hb)

theorem World.Later.noOtherClaims {w w1 : World} (h : w.Later w1) (o : UUID)
    (hk : w.NoOtherClaims o) : w1.NoOtherClaims o := by
  obtain ⟨k, hk1⟩ := h.others
  intro batch hb
  rw [hk1] at hb
  exact hk batch (List.mem_of_mem_drop hb)

theorem World.Later.noFaults {w w1 : World} (h : w.Later w1) (hk : w.NoFaults) :
    w1.NoFaults := by
  obtain ⟨k, hk1⟩ := h.faults
  intro f hf
  rw [hk1] at hf
  exact hk f (List.mem_of_mem_drop hf)

theorem World.arrive_later (w : World) : w.Later w.arrive.2 :=
  ⟨rfl, rfl, ⟨1, by simp [World.arrive]⟩, ⟨1, by simp [World.arrive]⟩, ⟨0, rfl⟩⟩

theorem World.lockQuery_fault (w : World) (id : UUID) (row : Row) (e : StoreFailure)
    (h : w.arrive.1 = some e) : w.lockQuery id row = ((false, some e), w.arrive.2) := by
  simp [World.lockQuery, h]

theorem World.lockQuery_applied (w : World) (id : UUID) (row : Row) (h : w.arrive.1 = none)
    (hp : w.arrive.2.present row = true) (hm : w.arrive.2.marker row = none) :
    w.lockQuery id row = ((true, none),
      { w.arrive.2 with marker := fun x => if x = row then some id else w.arrive.2.marker x }) := by
  simp [World.lockQuery, h, hp, hm]

theorem World.lockQuery_rejected (w : World) (id : UUID) (row : Row) (h : w.arrive.1 = none)
    (hc : ¬ (w.arrive.2.present row = true ∧ w.arrive.2.marker row = none)) :
    w.lockQuery id row = ((false, none), w.arrive.2) := by
  simp only [World.lockQuery, h, if_neg hc]

theorem World.releaseQuery_fault (w : World) (row : Row) (id : UUID) (e : StoreFailure)
    (h : w.arrive.1 = some e) : w.releaseQuery row id = ((false, some e), w.arrive.2) := by
  simp [World.releaseQuery, h]

theorem World.releaseQuery_applied (w : World) (row : Row) (id : UUID) (h : w.arrive.1 = none)
    (hm : w.arrive.2.marker row = some id) :
    w.releaseQuery row id = ((true, none),
      { w.arrive.2 with marker := fun x => if x = row then none else w.arrive.2.marker x }) := by
  simp [World.releaseQuery, h, hm]

theorem World.releaseQuery_rejected (w : World) (row : Row) (id : UUID) (h : w.arrive.1 = none)
    (hm : ¬ w.arrive.2.marker row = some id) :
    w.releaseQuery row id = ((false, none), w.arrive.2) := by
  simp only [World.releaseQuery, h, if_neg hm]

theorem World.countQuery_fault (w : World) (rows : List Row) (e : StoreFailure)
    (h : w.arrive.1 = some e) : w.countQuery rows = ((0, some e), w.arrive.2) := by
  simp [World.countQuery, h]

theorem World.countQuery_ok (w : World) (rows : List Row) (h : w.arrive.1 = none) :
    w.countQuery rows =
      ((((countPresent w.arrive.2.present rows : Nat) : Int), none), w.arrive.2) := by
  simp [World.countQuery, h]

theorem World.lockQuery_later (w : World) (id : UUID) (row : Row) :
    w.Later (w.lockQuery id row).2 := by
  have h := w.arrive_later
  rcases ha : w.arrive.1 with _ | e
  · by_cases hc : w.arrive.2.present row = true ∧ w.arrive.2.marker row = none
    · rw [w.lockQuery_applied id row ha hc.1 hc.2]
      exact ⟨h.present, h.nextID, h.others, h.faults, h.ticks⟩
    · rw [w.lockQuery_rejected id row ha hc]
      exact h
  · rw [w.lockQuery_fault id row e ha]
    exact h

theorem World.releaseQuery_later (w : World) (row : Row) (id : UUID) :
    w.Later (w.releaseQuery row id).2 := by
  have h := w.arrive_later
  rcases ha : w.arrive.1 with _ | e
  · by_cases hc : w.arrive.2.marker row = some id
    · rw [w.releaseQuery_applied row id ha hc]
      exact ⟨h.present, h.nextID, h.others, h.faults, h.ticks⟩
    · rw [w.releaseQuery_rejected row id ha hc]
      exact h
  · rw [w.releaseQuery_fault row id e ha]
    exact h

theorem World.countQuery_later (w : World) (rows : List Row) :
    w.Later (w.countQuery rows).2 := by
  have h := w.arrive_later
  rcases ha : w.arrive.1 with _ | e
  · rw [w.countQuery_ok rows ha]
    exact h
  · rw [w.countQuery_fault rows e ha]
    exact h

theorem memEnv_now_later (w : World) : w.Later (memEnv.now w).2 :=
  ⟨rfl, rfl, ⟨0, rfl⟩, ⟨0, rfl⟩, ⟨1, by simp [memEnv]⟩⟩

theorem memEnv_sleep_later (d : Int) (w : World) : w.Later (memEnv.sleep d w) :=
  ⟨rfl, rfl, ⟨0, rfl⟩, ⟨0, rfl⟩, ⟨0, rfl⟩⟩

/-! ## The scripted store: markers that stay -/

theorem headD_mem_or {α : Type} (xs : List (List α)) : xs.headD [] ∈ xs ∨ xs.headD [] = [] := by
  cases xs with
  | nil => exact Or.inr rfl
  | cons x xs => exact Or.inl (by simp)

theorem applyOther_keeps ( present : Row → Bool) (m : Row → Option UUID) (op : OtherOp)
    (r : Row) (o : UUID) (hop : op.frees r o = false) (hm : m r = some o) :
    applyOther present m op r = some o := by
  cases op with
  | claim r1 o1 =>
    simp only [applyOther]
    by_cases hc : present r1 = true ∧ m r1 = none
    · rw [if_pos hc]
      by_cases hr : r = r1
      · subst hr
        rw [hm] at hc
        simp at hc
      · simp [hr, hm]
    · rw [if_neg hc]
      exact hm
  | clear r1 o1 =>
    simp only [applyOther]
    by_cases hc : m r1 = some o1
    · rw [if_pos hc]
      by_cases hr : r = r1
      · subst hr
        rw [hm] at hc
        simp at hc
        simp [OtherOp.frees, hc] at hop
      · simp [hr, hm]
    · rw [if_neg hc]
      exact hm
  | expire r1 =>
    simp only [applyOther]
    by_cases hr : r = r1
    · subst hr
      simp [OtherOp.frees] at hop
    · simp [hr, hm]

theorem foldl_applyOther_keeps ( present : Row → Bool) (batch : List OtherOp)
    (m : Row → Option UUID) (r : Row) (o : UUID)
    (hb : ∀ op ∈ batch, op.frees r o = false) (hm : m r = some o) :
    batch.foldl (applyOther present) m r = some o := by
  induction batch generalizing m with
  | nil => exact hm
  | cons op batch ih =>
    simp only [List.foldl_cons]
    exact ih _ (fun op1 h1 => hb op1 (by simp [h1]))
      (applyOther_keeps present m op r o (hb op (by simp)) hm)

theorem World.arrive_marker (w : World) :
    w.arrive.2.marker = (w.others.headD []).foldl (applyOther w.present) w.marker := rfl

theorem World.arrive_keeps (w : World) (r : Row) (o : UUID) (hk : w.Keeps r o)
    (hm : w.marker r = some o) : w.arrive.2.marker r = some o := by
  rw [w.arrive_marker]
  apply foldl_applyOther_keeps _ _ _ _ _ _ hm
  rcases headD_mem_or w.others with h | h
  · exact hk _ h
  · rw [h]
    simp

theorem World.lockQuery_keeps (w : World) (id : UUID) (row r : Row) (o : UUID)
    (hk : w.Keeps r o) (hm : w.marker r = some o) :
    (w.lockQuery id row).2.marker r = some o := by
  have h := w.arrive_keeps r o hk hm
  rcases ha : w.arrive.1 with _ | e
  · by_cases hc : w.arrive.2.present row = true ∧ w.arrive.2.marker row = none
    · rw [w.lockQuery_applied id row ha hc.1 hc.2]
      have hr : r ≠ row := by
        intro hr
        rw [hr, hc.2] at h
        simp at h
      simp [hr, h]
    · rw [w.lockQuery_rejected id row ha hc]
      exact h
  · rw [w.lockQuery_fault id row e ha]
    exact h

theorem World.lockQuery_sets (w : World) (id : UUID) (row : Row)
    (h : (w.lockQuery id row).1.1 = true) : (w.lockQuery id row).2.marker row = some id := by
  rcases ha : w.arrive.1 with _ | e
  · by_cases hc : w.arrive.2.present row = true ∧ w.arrive.2.marker row = none
    · rw [w.lockQuery_applied id row ha hc.1 hc.2]
      simp
    · rw [w.lockQuery_rejected id row ha hc] at h
      simp at h
  · rw [w.lockQuery_fault id row e ha] at h
    simp at h

theorem World.countQuery_keeps (w : World) (rows : List Row) (r : Row) (o : UUID)
    (hk : w.Keeps r o) (hm : w.marker r = some o) :
    (w.countQuery rows).2.marker r = some o := by
  have h := w.arrive_keeps r o hk hm
  rcases ha : w.arrive.1 with _ | e
  · rw [w.countQuery_ok rows ha]
    exact h
  · rw [w.countQuery_fault rows e ha]
    exact h

theorem World.releaseQuery_keeps (w : World) (row : Row) (id : UUID) (r : Row) (o : UUID)
    (hk : w.Keeps r o) (hm : w.marker r = some o) (hne : row ≠ r ∨ id ≠ o) :
    (w.releaseQuery row id).2.marker r = some o := by
  have h := w.arrive_keeps r o hk hm
  rcases ha : w.arrive.1 with _ | e
  · by_cases hc : w.arrive.2.marker row = some id
    · rw [w.releaseQuery_applied row id ha hc]
      have hr : r ≠ row := by
        intro hr
        rw [hr, hc] at h
        simp at h
        rcases hne with h1 | h1
        · exact h1 hr.symm
        · exact h1 h
      simp [hr, h]
    · rw [w.releaseQuery_rejected row id ha hc]
      exact h
  · rw [w.releaseQuery_fault row id e ha]
    exact h

/-! ## The scripted store: runs of the program -/

theorem checkRows_world (env : Env σ) (l : Lock) (s : St σ) :
    (checkRows env l s).2.world = (env.countQuery l.keyspace l.table l.rowKeys s.world).2 := by
  rcases h : (env.countQuery l.keyspace l.table l.rowKeys s.world).1.2 with _ | f
  · by_cases hn : (env.countQuery l.keyspace l.table l.rowKeys s.world).1.1
        = (l.rowKeys.length : Int) <;> simp [checkRows, h, hn]
  · simp [checkRows, h]

theorem checkRows_fst (env : Env σ) (l : Lock) (s : St σ) :
    (checkRows env l s).1 =
      match (env.countQuery l.keyspace l.table l.rowKeys s.world).1.2 with
      | some f => some (Error.store f)
      | none =>
        if (env.countQuery l.keyspace l.table l.rowKeys s.world).1.1 ≠ (l.rowKeys.length : Int)
        then some Error.keyNotFound else none := by
  rcases h : (env.countQuery l.keyspace l.table l.rowKeys s.world).1.2 with _ | f
  · by_cases hn : (env.countQuery l.keyspace l.table l.rowKeys s.world).1.1
        = (l.rowKeys.length : Int) <;> simp [checkRows, h, hn]
  · simp [checkRows, h]

theorem lockRow_later (l : Lock) (k : Row) (s : St World) :
    s.world.Later (lockRow memEnv l k s).2.world :=
  s.world.lockQuery_later l.lockID k

theorem checkRows_later (l : Lock) (s : St World) :
    s.world.Later (checkRows memEnv l s).2.world := by
  rw [checkRows_world]
  exact s.world.countQuery_later l.rowKeys

theorem timeNow_later (s : St World) : s.world.Later (timeNow memEnv s).2.world :=
  memEnv_now_later s.world

theorem timeSleep_later (d : Int) (s : St World) :
    s.world.Later (timeSleep memEnv d s).world :=
  memEnv_sleep_later d s.world

theorem releaseRows_later (l : Lock) (rows : List Row) (s : St World) :
    s.world.Later (releaseRows memEnv l rows s).2.world := by
  induction rows generalizing s with
  | nil => exact World.Later.refl _
  | cons k ks ih =>
    rw [releaseRows_cons]
    have h1 : s.world.Later (memEnv.releaseQuery l.keyspace l.table k l.lockID s.world).2 :=
      s.world.releaseQuery_later k l.lockID
    rcases hq : (memEnv.releaseQuery l.keyspace l.table k l.lockID s.world).1.2 with _ | e
    · simp only []
      exact h1.trans (ih ⟨_, _⟩)
    · simp only []
      exact h1

theorem Release_later (l : Lock) (s : St World) :
    s.world.Later (Release memEnv l s).2.world :=
  releaseRows_later l l.rowKeys s

theorem acquireRows_later (l : Lock) (fuel i : Nat) (ks : List Row) (maxTime : Int)
    (s : St World) : s.world.Later (acquireRows memEnv l fuel i ks maxTime s).2.world := by
  induction fuel generalizing i ks maxTime s with
  | zero =>
    cases ks with
    | nil => rw [acquireRows_nil]; exact World.Later.refl _
    | cons k ks => rw [acquireRows_zero]; exact World.Later.refl _
  | succ fuel ih =>
    cases ks with
    | nil => rw [acquireRows_nil]; exact World.Later.refl _
    | cons k ks =>
      have h1 := timeNow_later s
      have h2 := h1.trans (lockRow_later l k (timeNow memEnv s).2)
      have h3 := h2.trans (checkRows_later l (lockRow memEnv l k (timeNow memEnv s).2).2)
      rcases acquireRows_cases memEnv l fuel i k ks maxTime s with
        ⟨_, _, h⟩ | ⟨_, ⟨_, _, h⟩ | ⟨_, _, h⟩ | ⟨_, _, ⟨_, _, h⟩ | ⟨_, h⟩⟩⟩
      · rw [h]; exact h1.trans (Release_later l _)
      · rw [h]; exact h2.trans (Release_later l _)
      · rw [h]; exact h2.trans (ih _ _ _ _)
      · rw [h]; exact h3.trans (Release_later l _)
      · rw [h]; exact (h3.trans (timeSleep_later RetryTime _)).trans (ih _ _ _ _)

theorem acquireAttempts_later (l : Lock) (fuel n : Nat) (s : St World) :
    s.world.Later (acquireAttempts memEnv fuel l n s).2.world := by
  induction n generalizing s with
  | zero => exact World.Later.refl _
  | succ n ih =>
    rw [acquireAttempts_succ]
    have h1 : s.world.Later (acquireLoop memEnv fuel l s).2.world :=
      acquireRows_later l fuel 0 l.rowKeys 0 s
    split
    · exact h1
    · exact h1
    · split_ifs
      · exact h1.trans (ih _)
      · exact h1

/-! ## Markers after a successful `Acquire` -/

theorem timeNow_marker (s : St World) : (timeNow memEnv s).2.world.marker = s.world.marker := rfl

theorem timeSleep_marker (d : Int) (s : St World) :
    (timeSleep memEnv d s).world.marker = s.world.marker := rfl

theorem lockRow_keeps (l : Lock) (k : Row) (s : St World) (r : Row) (o : UUID)
    (hk : s.world.Keeps r o) (hm : s.world.marker r = some o) :
    (lockRow memEnv l k s).2.world.marker r = some o :=
  s.world.lockQuery_keeps l.lockID k r o hk hm

theorem checkRows_keeps (l : Lock) (s : St World) (r : Row) (o : UUID)
    (hk : s.world.Keeps r o) (hm : s.world.marker r = some o) :
    (checkRows memEnv l s).2.world.marker r = some o := by
  rw [checkRows_world]
  exact s.world.countQuery_keeps l.rowKeys r o hk hm

/-- An attempt that succeeds leaves the lock id on the rows it holds and on
those it had still to claim, when nothing takes the id off them. -/
theorem acquireRows_owns (l : Lock) (fuel i : Nat) (ks : List Row) (maxTime : Int)
    (s : St World) (held : List Row)
    (hk : ∀ r ∈ held ++ ks, s.world.Keeps r l.lockID)
    (hh : ∀ r ∈ held, s.world.marker r = some l.lockID)
    (hres : (acquireRows memEnv l fuel i ks maxTime s).1 = some none) :
    ∀ r ∈ held ++ ks,
      (acquireRows memEnv l fuel i ks maxTime s).2.world.marker r = some l.lockID := by
  induction fuel generalizing i ks maxTime s held with
  | zero =>
    cases ks with
    | nil =>
      rw [acquireRows_nil]
      simpa using hh
    | cons k ks =>
      rw [acquireRows_zero] at hres
      simp at hres
  | succ fuel ih =>
    cases ks with
    | nil =>
      rw [acquireRows_nil]
      simpa using hh
    | cons k ks =>
      have h1 := timeNow_later s
      have h2 := h1.trans (lockRow_later l k (timeNow memEnv s).2)
      have h3 := h2.trans (checkRows_later l (lockRow memEnv l k (timeNow memEnv s).2).2)
      have h4 := h3.trans (timeSleep_later RetryTime
        (checkRows memEnv l (lockRow memEnv l k (timeNow memEnv s).2).2).2)
      have hh1 : ∀ r ∈ held, (timeNow memEnv s).2.world.marker r = some l.lockID := by
        intro r hr
        rw [timeNow_marker]
        exact hh r hr
      have hh2 : ∀ r ∈ held,
          (lockRow memEnv l k (timeNow memEnv s).2).2.world.marker r = some l.lockID :=
        fun r hr => lockRow_keeps l k _ r _
          (h1.keeps r _ (hk r (by simp [hr]))) (hh1 r hr)
      rcases acquireRows_cases memEnv l fuel i k ks maxTime s with
        ⟨_, _, h⟩ | ⟨_, ⟨_, _, h⟩ | ⟨_, ha, h⟩ | ⟨_, _, ⟨_, _, h⟩ | ⟨_, h⟩⟩⟩
      · rw [h] at hres; simp at hres
      · rw [h] at hres; simp at hres
      · rw [h] at hres ⊢
        have := ih (i + 1) ks _ _ (held ++ [k])
          (fun r hr => h2.keeps r _ (hk r (by simpa using hr)))
          (by
            intro r hr
            rcases List.mem_append.1 hr with hr | hr
            · exact hh2 r hr
            · simp at hr
              subst hr
              exact World.lockQuery_sets _ _ _ ha) hres
        simpa using this
      · rw [h] at hres; simp at hres
      · rw [h] at hres ⊢
        exact ih i (k :: ks) _ _ held
          (fun r hr => h4.keeps r _ (hk r hr))
          (by
            intro r hr
            rw [timeSleep_marker]
            exact checkRows_keeps l _ r _ (h2.keeps r _ (hk r (by simp [hr]))) (hh2 r hr)) hres

/-- A successful run of the loop of `Acquire` leaves the lock id on every
row. -/
theorem acquireAttempts_owns (l : Lock) (fuel n : Nat) (s : St World) (l1 : Lock)
    (hk : ∀ r ∈ l.rowKeys, s.world.Keeps r l.lockID)
    (hres : (acquireAttempts memEnv fuel l n s).1 = some (some l1, none)) :
    ∀ r ∈ l.rowKeys, (acquireAttempts memEnv fuel l n s).2.world.marker r = some l.lockID := by
  induction n generalizing s with
  | zero => simp [acquireAttempts_zero] at hres
  | succ n ih =>
    rw [acquireAttempts_succ] at hres ⊢
    have h1 : s.world.Later (acquireLoop memEnv fuel l s).2.world :=
      acquireRows_later l fuel 0 l.rowKeys 0 s
    rcases ho : (acquireLoop memEnv fuel l s).1 with _ | _ | err
    · simp [ho] at hres
    · simp only [ho]
      have := acquireRows_owns l fuel 0 l.rowKeys 0 s [] (by simpa using hk) (by simp) ho
      simpa using this
    · simp only [ho] at hres ⊢
      by_cases he : err = Error.errTimeout
      · rw [if_pos he] at hres ⊢
        exact ih _ (fun r hr => h1.keeps r _ (hk r hr)) hres
      · rw [if_neg he] at hres
        simp at hres

/-! ## A row held by another owner -/

theorem World.lockQuery_blocked (w : World) (id : UUID) (r : Row) (o : UUID)
    (hk : w.Keeps r o) (hm : w.marker r = some o) : (w.lockQuery id r).1.1 = false := by
  have h := w.arrive_keeps r o hk hm
  rcases ha : w.arrive.1 with _ | e
  · rw [w.lockQuery_rejected id r ha (by simp [h])]
  · rw [w.lockQuery_fault id r e ha]

theorem releaseRows_keeps (l : Lock) (rows : List Row) (s : St World) (r : Row) (o : UUID)
    (ho : o ≠ l.lockID) (hk : s.world.Keeps r o) (hm : s.world.marker r = some o) :
    (releaseRows memEnv l rows s).2.world.marker r = some o := by
  induction rows generalizing s with
  | nil => exact hm
  | cons k ks ih =>
    rw [releaseRows_cons]
    have h1 : (memEnv.releaseQuery l.keyspace l.table k l.lockID s.world).2.marker r = some o :=
      s.world.releaseQuery_keeps k l.lockID r o hk hm (Or.inr (Ne.symm ho))
    have h2 : s.world.Later (memEnv.releaseQuery l.keyspace l.table k l.lockID s.world).2 :=
      s.world.releaseQuery_later k l.lockID
    rcases hq : (memEnv.releaseQuery l.keyspace l.table k l.lockID s.world).1.2 with _ | e
    · simp only []
      exact ih ⟨_, _⟩ (h2.keeps r o hk) h1
    · simp only []
      exact h1

/-- A marker of another owner that nothing takes off stays through an
attempt, and the attempt does not succeed when the row is among those it has
still to claim. -/
theorem acquireRows_held (l : Lock) (fuel i : Nat) (ks : List Row) (maxTime : Int)
    (s : St World) (r : Row) (o : UUID) (ho : o ≠ l.lockID)
    (hk : s.world.Keeps r o) (hm : s.world.marker r = some o) :
    (acquireRows memEnv l fuel i ks maxTime s).2.world.marker r = some o ∧
      (r ∈ ks → (acquireRows memEnv l fuel i ks maxTime s).1 ≠ some none) := by
  induction fuel generalizing i ks maxTime s with
  | zero =>
    cases ks with
    | nil => rw [acquireRows_nil]; exact ⟨hm, by simp⟩
    | cons k ks => rw [acquireRows_zero]; exact ⟨hm, by simp⟩
  | succ fuel ih =>
    cases ks with
    | nil => rw [acquireRows_nil]; exact ⟨hm, by simp⟩
    | cons k ks =>
      have h1 := timeNow_later s
      have h2 := h1.trans (lockRow_later l k (timeNow memEnv s).2)
      have h3 := h2.trans (checkRows_later l (lockRow memEnv l k (timeNow memEnv s).2).2)
      have h4 := h3.trans (timeSleep_later RetryTime
        (checkRows memEnv l (lockRow memEnv l k (timeNow memEnv s).2).2).2)
      have m1 : (timeNow memEnv s).2.world.marker r = some o := by
        rw [timeNow_marker]; exact hm
      have m2 := lockRow_keeps l k _ r o (h1.keeps r o hk) m1
      have m3 := checkRows_keeps l _ r o (h2.keeps r o hk) m2
      rcases acquireRows_cases memEnv l fuel i k ks maxTime s with
        ⟨_, _, h⟩ | ⟨_, ⟨_, _, h⟩ | ⟨_, ha, h⟩ | ⟨_, _, ⟨_, _, h⟩ | ⟨_, h⟩⟩⟩
      · rw [h]
        exact ⟨releaseRows_keeps l _ _ r o ho (h1.keeps r o hk) m1, by simp⟩
      · rw [h]
        exact ⟨releaseRows_keeps l _ _ r o ho (h2.keeps r o hk) m2, by simp⟩
      · rw [h]
        obtain ⟨a, b⟩ := ih (i + 1) ks _ _ (h2.keeps r o hk) m2
        refine ⟨a, fun hr => b ?_⟩
        rcases List.mem_cons.1 hr with rfl | hr
        · have hb : (lockRow memEnv l r (timeNow memEnv s).2).1.1 = false :=
            World.lockQuery_blocked _ l.lockID r o (h1.keeps r o hk) m1
          rw [hb] at ha
          simp at ha
        · exact hr
      · rw [h]
        exact ⟨releaseRows_keeps l _ _ r o ho (h3.keeps r o hk) m3, by simp⟩
      · rw [h]
        exact ih i (k :: ks) _ _ (h4.keeps r o hk) (by rw [timeSleep_marker]; exact m3)

theorem acquireAttempts_held (l : Lock) (fuel n : Nat) (s : St World) (r : Row) (o : UUID)
    (ho : o ≠ l.lockID) (hr : r ∈ l.rowKeys)
    (hk : s.world.Keeps r o) (hm : s.world.marker r = some o) (l1 : Lock) :
    (acquireAttempts memEnv fuel l n s).1 ≠ some (some l1, none) := by
  induction n generalizing s with
  | zero => simp [acquireAttempts_zero]
  | succ n ih =>
    rw [acquireAttempts_succ]
    have h1 : s.world.Later (acquireLoop memEnv fuel l s).2.world :=
      acquireRows_later l fuel 0 l.rowKeys 0 s
    obtain ⟨a, b⟩ := acquireRows_held l fuel 0 l.rowKeys 0 s r o ho hk hm
    rcases hq : (acquireLoop memEnv fuel l s).1 with _ | _ | err
    · simp
    · exact absurd hq (b hr)
    · simp only []
      by_cases he : err = Error.errTimeout
      · rw [if_pos he]
        exact ih _ (h1.keeps r o hk) a
      · rw [if_neg he]
        simp

/-! ## Rows that `Release` does not reach -/

theorem World.arrive_quiet (w : World) (h : w.others = []) :
    w.arrive.2.marker = w.marker ∧ w.arrive.2.others = [] := by
  simp [World.arrive, h]

theorem World.releaseQuery_frame (w : World) (row : Row) (id : UUID) (h : w.others = []) :
    (∀ r, r ≠ row → (w.releaseQuery row id).2.marker r = w.marker r) ∧
      (w.releaseQuery row id).2.others = [] := by
  obtain ⟨h1, h2⟩ := w.arrive_quiet h
  rcases ha : w.arrive.1 with _ | e
  · by_cases hc : w.arrive.2.marker row = some id
    · rw [w.releaseQuery_applied row id ha hc]
      refine ⟨fun r hr => ?_, h2⟩
      simp [hr, h1]
    · rw [w.releaseQuery_rejected row id ha hc]
      exact ⟨fun r _ => by rw [h1], h2⟩
  · rw [w.releaseQuery_fault row id e ha]
    exact ⟨fun r _ => by rw [h1], h2⟩

/-- With no other client at work, `Release` changes the marker of no row
outside those it clears. -/
theorem releaseRows_frame (l : Lock) (rows : List Row) (s : St World)
    (h : s.world.others = []) (r : Row) (hr : r ∉ rows) :
    (releaseRows memEnv l rows s).2.world.marker r = s.world.marker r := by
  induction rows generalizing s with
  | nil => rfl
  | cons k ks ih =>
    rw [releaseRows_cons]
    obtain ⟨h1, h2⟩ := s.world.releaseQuery_frame k l.lockID h
    have h3 : (memEnv.releaseQuery l.keyspace l.table k l.lockID s.world).2.marker r =
        s.world.marker r := h1 r (fun hk => hr (by simp [hk]))
    rcases hq : (memEnv.releaseQuery l.keyspace l.table k l.lockID s.world).1.2 with _ | e
    · simp only []
      exact (ih ⟨(memEnv.releaseQuery l.keyspace l.table k l.lockID s.world).2, _⟩ h2
        (fun hk => hr (by simp [hk]))).trans h3
    · simp only []
      exact h3

/-! ## Any number of restarts -/

/-- A slow attempt ends with `errTimeout` and leaves the rows unlocked. -/
theorem slow_attempt (w : World) (n : Nat) (tr : List Event) (id : UUID)
    (h : w.Calm (n + 1)) :
    (acquireLoop memEnv 2 (newLock id "ks" "t" (1 * Second) ["r1", "r2"]) ⟨w, tr⟩).1 =
      some (some Error.errTimeout) ∧
    (acquireLoop memEnv 2 (newLock id "ks" "t" (1 * Second) ["r1", "r2"]) ⟨w, tr⟩).2.world.Calm
      n := by
  obtain ⟨p1, p2, m1, m2, hf, ho, ht⟩ := h
  have httl : Duration.mul 1000000000 2 = 2000000000 := by decide
  have hs : (1 * Second : Int) = 1000000000 := by decide
  have h2s : (2 * Second : Int) = 2000000000 := by decide
  constructor
  · simp [acquireLoop, newLock, acquireRows_succ, acquireRows_nil, timeNow, lockRow, memEnv,
      World.lockQuery, World.arrive, Release, releaseRows_cons, releaseRows_nil,
      World.releaseQuery, p1, p2, m1, m2, hf, ho, ht, slowTicks, Time.sub, Time.add, httl, hs,
      h2s, minDuration, maxDuration]
  · constructor <;>
    simp [acquireLoop, newLock, acquireRows_succ, acquireRows_nil, timeNow, lockRow, memEnv,
      World.lockQuery, World.arrive, Release, releaseRows_cons, releaseRows_nil,
      World.releaseQuery, p1, p2, m1, m2, hf, ho, ht, slowTicks, Time.sub, Time.add, httl, hs,
      h2s, minDuration, maxDuration]

/-- Once the clock script is used up an attempt succeeds. -/
theorem calm_attempt (w : World) (tr : List Event) (id : UUID) (h : w.Calm 0) :
    (acquireLoop memEnv 2 (newLock id "ks" "t" (1 * Second) ["r1", "r2"]) ⟨w, tr⟩).1 =
      some none := by
  obtain ⟨p1, p2, m1, m2, hf, ho, ht⟩ := h
  have httl : Duration.mul 1000000000 2 = 2000000000 := by decide
  have hs : (1 * Second : Int) = 1000000000 := by decide
  simp [acquireLoop, newLock, acquireRows_succ, acquireRows_nil, timeNow, lockRow, memEnv,
    World.lockQuery, World.arrive, p1, p2, m1, m2, hf, ho, ht, slowTicks, Time.sub, Time.add,
    httl, hs, minDuration, maxDuration]

/-- With `n` slow attempts scripted, `n` attempts are not enough and `n + 1`
are. -/
theorem slow_attempts (n : Nat) (w : World) (tr : List Event) (id : UUID) (h : w.Calm n) :
    (acquireAttempts memEnv 2 (newLock id "ks" "t" (1 * Second) ["r1", "r2"]) n ⟨w, tr⟩).1 =
      none ∧
    (acquireAttempts memEnv 2 (newLock id "ks" "t" (1 * Second) ["r1", "r2"]) (n + 1)
      ⟨w, tr⟩).1 = some (some (newLock id "ks" "t" (1 * Second) ["r1", "r2"]), none) := by
  induction n generalizing w tr with
  | zero =>
    refine ⟨rfl, ?_⟩
    rw [acquireAttempts_succ, calm_attempt w tr id h]
  | succ n ih =>
    obtain ⟨h1, h2⟩ := slow_attempt w n tr id h
    have a := ih _ (acquireLoop memEnv 2 (newLock id "ks" "t" (1 * Second) ["r1", "r2"])
      ⟨w, tr⟩).2.trace h2
    constructor
    · rw [acquireAttempts_succ, h1]
      simp only [if_true]
      exact a.1
    · rw [acquireAttempts_succ, h1]
      simp only [if_true]
      exact a.2

/-! ## A row that is not in the table -/

theorem countPresent_le ( present : Row → Bool) (rows : List Row) :
    countPresent present rows ≤ rows.length := by
  induction rows with
  | nil => simp [countPresent]
  | cons r rs ih =>
    simp only [countPresent, List.length_cons]
    split_ifs <;> omega

theorem countPresent_lt ( present : Row → Bool) (rows : List Row) (m : Row) (hm : m ∈ rows)
    (hp : present m = false) : countPresent present rows < rows.length := by
  induction rows with
  | nil => simp at hm
  | cons r rs ih =>
    simp only [countPresent, List.length_cons]
    have hle := countPresent_le present rs
    rcases List.mem_cons.1 hm with rfl | hm
    · rw [if_neg (by simp [hp])]
      omega
    · have := ih hm
      split_ifs <;> omega

theorem World.arrive_noFaults (w : World) (h : w.NoFaults) : w.arrive.1 = none := by
  show w.faults.headD none = none
  cases hf : w.faults with
  | nil => rfl
  | cons f fs => exact h f (by simp [hf])

theorem World.arrive_present (w : World) : w.arrive.2.present = w.present := rfl

theorem lockRow_noFaults (l : Lock) (k : Row) (s : St World) (h : s.world.NoFaults) :
    (lockRow memEnv l k s).1.2 = none := by
  have ha := s.world.arrive_noFaults h
  show ((s.world.lockQuery l.lockID k).1.2).map Error.store = none
  by_cases hc : s.world.arrive.2.present k = true ∧ s.world.arrive.2.marker k = none
  · rw [s.world.lockQuery_applied l.lockID k ha hc.1 hc.2]
    rfl
  · rw [s.world.lockQuery_rejected l.lockID k ha hc]
    rfl

theorem lockRow_applied_present (l : Lock) (k : Row) (s : St World)
    (h : (lockRow memEnv l k s).1.1 = true) : s.world.present k = true := by
  have h1 : (s.world.lockQuery l.lockID k).1.1 = true := h
  rcases ha : s.world.arrive.1 with _ | e
  · by_cases hc : s.world.arrive.2.present k = true ∧ s.world.arrive.2.marker k = none
    · exact hc.1
    · rw [s.world.lockQuery_rejected l.lockID k ha hc] at h1
      simp at h1
  · rw [s.world.lockQuery_fault l.lockID k e ha] at h1
    simp at h1

/-- With a row of `rowKeys` missing from the table and no store failure,
`checkRows` returns "key not found". -/
theorem checkRows_missing (l : Lock) (s : St World) (m : Row) (hm : m ∈ l.rowKeys)
    (hp : s.world.present m = false) (h : s.world.NoFaults) :
    (checkRows memEnv l s).1 = some Error.keyNotFound := by
  rw [checkRows_fst]
  have ha := s.world.arrive_noFaults h
  have hq : memEnv.countQuery l.keyspace l.table l.rowKeys s.world =
      ((((countPresent s.world.arrive.2.present l.rowKeys : Nat) : Int), none),
        s.world.arrive.2) := s.world.countQuery_ok l.rowKeys ha
  rw [hq]
  have hlt := countPresent_lt s.world.present l.rowKeys m hm hp
  rw [World.arrive_present]
  simp only []
  rw [if_pos]
  intro heq
  have : countPresent s.world.present l.rowKeys = l.rowKeys.length := by exact_mod_cast heq
  omega

/-! ## Markers that `Release` takes off -/

theorem applyOther_unmarked ( present : Row → Bool) (m : Row → Option UUID) (op : OtherOp)
    (r : Row) (id : UUID) (hop : op.claimsAs id = false) (hm : m r ≠ some id) :
    applyOther present m op r ≠ some id := by
  cases op with
  | claim r1 o1 =>
    simp only [applyOther]
    by_cases hc : present r1 = true ∧ m r1 = none
    · rw [if_pos hc]
      by_cases hr : r = r1
      · simp [OtherOp.claimsAs] at hop
        simp [hr, hop]
      · simp [hr, hm]
    · rw [if_neg hc]
      exact hm
  | clear r1 o1 =>
    simp only [applyOther]
    by_cases hc : m r1 = some o1
    · rw [if_pos hc]
      by_cases hr : r = r1
      · simp [hr]
      · simp [hr, hm]
    · rw [if_neg hc]
      exact hm
  | expire r1 =>
    simp only [applyOther]
    by_cases hr : r = r1
    · simp [hr]
    · simp [hr, hm]

theorem foldl_applyOther_unmarked ( present : Row → Bool) (batch : List OtherOp)
    (m : Row → Option UUID) (r : Row) (id : UUID)
    (hb : ∀ op ∈ batch, op.claimsAs id = false) (hm : m r ≠ some id) :
    batch.foldl (applyOther present) m r ≠ some id := by
  induction batch generalizing m with
  | nil => exact hm
  | cons op batch ih =>
    simp only [List.foldl_cons]
    exact ih _ (fun op1 h1 => hb op1 (by simp [h1]))
      (applyOther_unmarked present m op r id (hb op (by simp)) hm)

theorem World.arrive_unmarked (w : World) (r : Row) (id : UUID) (hk : w.NoOtherClaims id)
    (hm : w.marker r ≠ some id) : w.arrive.2.marker r ≠ some id := by
  rw [w.arrive_marker]
  apply foldl_applyOther_unmarked _ _ _ _ _ _ hm
  rcases headD_mem_or w.others with h | h
  · exact hk _ h
  · rw [h]
    simp

theorem World.releaseQuery_unmarked (w : World) (row : Row) (id : UUID) (r : Row)
    (hk : w.NoOtherClaims id) (hm : w.marker r ≠ some id) :
    (w.releaseQuery row id).2.marker r ≠ some id := by
  have h := w.arrive_unmarked r id hk hm
  rcases ha : w.arrive.1 with _ | e
  · by_cases hc : w.arrive.2.marker row = some id
    · rw [w.releaseQuery_applied row id ha hc]
      by_cases hr : r = row
      · simp [hr]
      · simp [hr, h]
    · rw [w.releaseQuery_rejected row id ha hc]
      exact h
  · rw [w.releaseQuery_fault row id e ha]
    exact h

theorem World.releaseQuery_clears (w : World) (row : Row) (id : UUID) (hf : w.NoFaults) :
    (w.releaseQuery row id).2.marker row ≠ some id ∧ (w.releaseQuery row id).1.2 = none := by
  have ha := w.arrive_noFaults hf
  by_cases hc : w.arrive.2.marker row = some id
  · rw [w.releaseQuery_applied row id ha hc]
    simp
  · rw [w.releaseQuery_rejected row id ha hc]
    exact ⟨hc, rfl⟩

theorem releaseRows_unmarked (l : Lock) (rows : List Row) (s : St World) (r : Row)
    (hk : s.world.NoOtherClaims l.lockID) (hm : s.world.marker r ≠ some l.lockID) :
    (releaseRows memEnv l rows s).2.world.marker r ≠ some l.lockID := by
  induction rows generalizing s with
  | nil => exact hm
  | cons k ks ih =>
    rw [releaseRows_cons]
    have h1 : (memEnv.releaseQuery l.keyspace l.table k l.lockID s.world).2.marker r ≠
        some l.lockID := s.world.releaseQuery_unmarked k l.lockID r hk hm
    have h2 : s.world.Later (memEnv.releaseQuery l.keyspace l.table k l.lockID s.world).2 :=
      s.world.releaseQuery_later k l.lockID
    rcases hq : (memEnv.releaseQuery l.keyspace l.table k l.lockID s.world).1.2 with _ | e
    · simp only []
      exact ih ⟨(memEnv.releaseQuery l.keyspace l.table k l.lockID s.world).2, _⟩
        (h2.noOtherClaims _ hk) h1
    · simp only []
      exact h1

/-- With no store failure and no other client writing the lock id, `Release`
leaves the lock id on none of the rows it goes through. -/
theorem releaseRows_clears (l : Lock) (rows : List Row) (s : St World)
    (hf : s.world.NoFaults) (hk : s.world.NoOtherClaims l.lockID) :
    ∀ r ∈ rows, (releaseRows memEnv l rows s).2.world.marker r ≠ some l.lockID := by
  induction rows generalizing s with
  | nil => simp
  | cons k ks ih =>
    intro r hr
    rw [releaseRows_cons]
    have h2 : s.world.Later (memEnv.releaseQuery l.keyspace l.table k l.lockID s.world).2 :=
      s.world.releaseQuery_later k l.lockID
    obtain ⟨h3, h4⟩ := s.world.releaseQuery_clears k l.lockID hf
    have h5 : (memEnv.releaseQuery l.keyspace l.table k l.lockID s.world).1.2 = none := h4
    rw [h5]
    simp only []
    by_cases hrk : r = k
    · subst hrk
      exact releaseRows_unmarked l ks
        ⟨(memEnv.releaseQuery l.keyspace l.table r l.lockID s.world).2, _⟩ r
        (h2.noOtherClaims _ hk) h3
    · exact ih ⟨(memEnv.releaseQuery l.keyspace l.table k l.lockID s.world).2, _⟩
        (h2.noFaults hf) (h2.noOtherClaims _ hk) r (by simpa [hrk] using hr)

/-! ## `Acquire` over a row that is not in the table -/

theorem World.lockQuery_clock (w : World) (id : UUID) (row : Row) :
    (w.lockQuery id row).2.ticks = w.ticks ∧ (w.lockQuery id row).2.clock = w.clock := by
  rcases ha : w.arrive.1 with _ | e
  · by_cases hc : w.arrive.2.present row = true ∧ w.arrive.2.marker row = none
    · rw [w.lockQuery_applied id row ha hc.1 hc.2]
      exact ⟨rfl, rfl⟩
    · rw [w.lockQuery_rejected id row ha hc]
      exact ⟨rfl, rfl⟩
  · rw [w.lockQuery_fault id row e ha]
    exact ⟨rfl, rfl⟩

theorem Time.sub_ttl (c t : Int) (h0 : 0 < t) (h1 : t < 2 ^ 62) :
    ¬ Time.sub (c + 2 * t) (c + 0) < t := by
  unfold Time.sub minDuration maxDuration
  have h : c + 2 * t - (c + 0) = 2 * t := by omega
  rw [h]
  split_ifs <;> omega

/-- An attempt over rows of which one is not in the table, with no store
failure: it ends with "key not found" or `errTimeout`, unless it has less fuel
than one pass per row; when it ends it leaves the lock id on no row; and it
does not end with `errTimeout` when the clock script is used up. -/
theorem acquireRows_missing (l : Lock) (fuel i : Nat) (ks : List Row) (maxTime : Int)
    (s : St World) (m : Row) (hm : m ∈ l.rowKeys) (hmk : m ∈ ks)
    (hp : s.world.present m = false) (hf : s.world.NoFaults)
    (hk : s.world.NoOtherClaims l.lockID) :
    ((acquireRows memEnv l fuel i ks maxTime s).1 = some (some Error.keyNotFound) ∨
      (acquireRows memEnv l fuel i ks maxTime s).1 = some (some Error.errTimeout) ∨
      ((acquireRows memEnv l fuel i ks maxTime s).1 = none ∧ fuel < ks.length)) ∧
    ((acquireRows memEnv l fuel i ks maxTime s).1 ≠ none → ∀ r ∈ l.rowKeys,
      (acquireRows memEnv l fuel i ks maxTime s).2.world.marker r ≠ some l.lockID) ∧
    (l.ttl = 2 * l.timeout → 0 < l.timeout → l.timeout < 2 ^ 62 →
      s.world.ticks = [] → (i ≠ 0 → maxTime = s.world.clock + l.ttl) →
      (acquireRows memEnv l fuel i ks maxTime s).1 ≠ some (some Error.errTimeout)) := by
  induction fuel generalizing i ks maxTime s with
  | zero =>
    cases ks with
    | nil => simp at hmk
    | cons k ks =>
      rw [acquireRows_zero]
      exact ⟨Or.inr (Or.inr ⟨rfl, by simp⟩), by simp, by simp⟩
  | succ fuel ih =>
    cases ks with
    | nil => simp at hmk
    | cons k ks =>
      have l1 := timeNow_later s
      have l2 := l1.trans (lockRow_later l k (timeNow memEnv s).2)
      have l3 := l2.trans (checkRows_later l (lockRow memEnv l k (timeNow memEnv s).2).2)
      have hrel : ∀ s1 : St World, s.world.Later s1.world → ∀ r ∈ l.rowKeys,
          (Release memEnv l s1).2.world.marker r ≠ some l.lockID := fun s1 hl =>
        releaseRows_clears l l.rowKeys s1 (hl.noFaults hf) (hl.noOtherClaims _ hk)
      have hnow : s.world.ticks = [] → (timeNow memEnv s).1 = s.world.clock + 0 := by
        intro ht
        show s.world.clock + s.world.ticks.headD 0 = s.world.clock + 0
        rw [ht]
        rfl
      rcases acquireRows_cases memEnv l fuel i k ks maxTime s with
        ⟨hi, hlt, h⟩ | ⟨_, ⟨err, he, h⟩ | ⟨_, ha, h⟩ | ⟨_, _, ⟨err, he, h⟩ | ⟨he, h⟩⟩⟩
      · rw [h]
        refine ⟨Or.inr (Or.inl rfl), fun _ => hrel _ l1, ?_⟩
        intro httl h0 h1 ht hmax
        exfalso
        rw [hnow ht, hmax hi, httl] at hlt
        exact Time.sub_ttl _ _ h0 h1 hlt
      · rw [lockRow_noFaults l k _ (l1.noFaults hf)] at he
        simp at he
      · rw [h]
        have hpk : s.world.present k = true := by
          have := lockRow_applied_present l k _ ha
          rwa [l1.present] at this
        have hmk1 : m ∈ ks := by
          rcases List.mem_cons.1 hmk with rfl | h2
          · rw [hp] at hpk
            simp at hpk
          · exact h2
        obtain ⟨a, b, c⟩ := ih (i + 1) ks
          (if i = 0 then Time.add (timeNow memEnv s).1 l.ttl else maxTime)
          (lockRow memEnv l k (timeNow memEnv s).2).2 hmk1 (by rw [l2.present]; exact hp)
          (l2.noFaults hf) (l2.noOtherClaims _ hk)
        refine ⟨?_, b, ?_⟩
        · rcases a with a | a | ⟨a, hlt⟩
          · exact Or.inl a
          · exact Or.inr (Or.inl a)
          · exact Or.inr (Or.inr ⟨a, by simpa using hlt⟩)
        intro httl h0 h1 ht hmax
        have hq := World.lockQuery_clock (timeNow memEnv s).2.world l.lockID k
        have ht2 : (lockRow memEnv l k (timeNow memEnv s).2).2.world.ticks = [] := by
          have : (timeNow memEnv s).2.world.ticks = [] := by
            show s.world.ticks.tail = []
            rw [ht]
            rfl
          exact hq.1.trans this
        have hc2 : (lockRow memEnv l k (timeNow memEnv s).2).2.world.clock = s.world.clock := by
          have : (timeNow memEnv s).2.world.clock = s.world.clock := by
            show s.world.clock + s.world.ticks.headD 0 = s.world.clock
            rw [ht]
            show s.world.clock + 0 = s.world.clock
            omega
          exact hq.2.trans this
        apply c httl h0 h1 ht2
        intro _
        rw [hc2]
        by_cases hi : i = 0
        · rw [if_pos hi, hnow ht]
          show s.world.clock + 0 + l.ttl = s.world.clock + l.ttl
          omega
        · rw [if_neg hi]
          exact hmax hi
      · have hck := checkRows_missing l (lockRow memEnv l k (timeNow memEnv s).2).2 m hm
          (by rw [l2.present]; exact hp) (l2.noFaults hf)
        rw [hck] at he
        simp at he
        subst he
        rw [h]
        exact ⟨Or.inl rfl, fun _ => hrel _ l3, by simp⟩
      · have hck := checkRows_missing l (lockRow memEnv l k (timeNow memEnv s).2).2 m hm
          (by rw [l2.present]; exact hp) (l2.noFaults hf)
        rw [hck] at he
        simp at he

/-- Every pass of the inner loop starts with a reading of the clock. -/
theorem acquireRows_later_now (l : Lock) (fuel i : Nat) (k : Row) (ks : List Row)
    (maxTime : Int) (s : St World) :
    (timeNow memEnv s).2.world.Later
      (acquireRows memEnv l (fuel + 1) i (k :: ks) maxTime s).2.world := by
  have h2 := lockRow_later l k (timeNow memEnv s).2
  have h3 := h2.trans (checkRows_later l (lockRow memEnv l k (timeNow memEnv s).2).2)
  rcases acquireRows_cases memEnv l fuel i k ks maxTime s with
    ⟨_, _, h⟩ | ⟨_, ⟨_, _, h⟩ | ⟨_, _, h⟩ | ⟨_, _, ⟨_, _, h⟩ | ⟨_, h⟩⟩⟩
  · rw [h]; exact Release_later l _
  · rw [h]; exact h2.trans (Release_later l _)
  · rw [h]; exact h2.trans (acquireRows_later l _ _ _ _ _)
  · rw [h]; exact h3.trans (Release_later l _)
  · rw [h]
    exact (h3.trans (timeSleep_later RetryTime _)).trans (acquireRows_later l _ _ _ _ _)

/-- One attempt over rows of which one is not in the table, with fuel for one
pass per row and a `ttl` of twice the timeout: it ends with "key not found", or
with `errTimeout` after using up part of the clock script. -/
theorem acquireLoop_missing (l : Lock) (fuel : Nat) (s : St World) (m : Row)
    (hm : m ∈ l.rowKeys) (hp : s.world.present m = false) (hf : s.world.NoFaults)
    (hk : s.world.NoOtherClaims l.lockID) (hfuel : l.rowKeys.length ≤ fuel)
    (httl : l.ttl = 2 * l.timeout) (h0 : 0 < l.timeout) (h1 : l.timeout < 2 ^ 62) :
    (acquireLoop memEnv fuel l s).1 = some (some Error.keyNotFound) ∨
      ((acquireLoop memEnv fuel l s).1 = some (some Error.errTimeout) ∧
        (acquireLoop memEnv fuel l s).2.world.ticks.length < s.world.ticks.length) := by
  obtain ⟨a, _, c⟩ := acquireRows_missing l fuel 0 l.rowKeys 0 s m hm hm hp hf hk
  have a1 : (acquireLoop memEnv fuel l s).1 = some (some Error.keyNotFound) ∨
      (acquireLoop memEnv fuel l s).1 = some (some Error.errTimeout) ∨
      ((acquireLoop memEnv fuel l s).1 = none ∧ fuel < l.rowKeys.length) := a
  rcases a1 with a | a | ⟨_, hlt⟩
  · exact Or.inl a
  · refine Or.inr ⟨a, ?_⟩
    cases ht : s.world.ticks with
    | nil => exact absurd a (c httl h0 h1 ht (by simp))
    | cons d ds =>
      cases hr : l.rowKeys with
      | nil => rw [hr] at hm; simp at hm
      | cons k ks =>
        cases fuel with
        | zero => rw [hr] at hfuel; simp at hfuel
        | succ fuel =>
          have hl := acquireRows_later_now l fuel 0 k ks 0 s
          obtain ⟨j, hj⟩ := hl.ticks
          have h2 : (acquireLoop memEnv (fuel + 1) l s).2.world.ticks = ds.drop j := by
            have h3 : (timeNow memEnv s).2.world.ticks = ds := by
              show s.world.ticks.tail = ds
              rw [ht]
              rfl
            rw [← h3, ← hj]
            unfold acquireLoop
            rw [hr]
          rw [h2]
          simp only [List.length_drop, List.length_cons]
          omega
  · omega

/-- The loop of `Acquire` over rows of which one is not in the table: when it
returns, it returns "key not found" and the lock id is left on no row. -/
theorem acquireAttempts_missing (l : Lock) (fuel n : Nat) (s : St World) (m : Row)
    (hm : m ∈ l.rowKeys) (hp : s.world.present m = false) (hf : s.world.NoFaults)
    (hk : s.world.NoOtherClaims l.lockID) :
    (acquireAttempts memEnv fuel l n s).1 = none ∨
      ((acquireAttempts memEnv fuel l n s).1 = some (none, some Error.keyNotFound) ∧
        ∀ r ∈ l.rowKeys,
          (acquireAttempts memEnv fuel l n s).2.world.marker r ≠ some l.lockID) := by
  induction n generalizing s with
  | zero => exact Or.inl rfl
  | succ n ih =>
    obtain ⟨a, b, _⟩ := acquireRows_missing l fuel 0 l.rowKeys 0 s m hm hm hp hf hk
    have a1 : (acquireLoop memEnv fuel l s).1 = some (some Error.keyNotFound) ∨
        (acquireLoop memEnv fuel l s).1 = some (some Error.errTimeout) ∨
        ((acquireLoop memEnv fuel l s).1 = none ∧ fuel < l.rowKeys.length) := a
    have b1 : (acquireLoop memEnv fuel l s).1 ≠ none → ∀ r ∈ l.rowKeys,
        (acquireLoop memEnv fuel l s).2.world.marker r ≠ some l.lockID := b
    have hl : s.world.Later (acquireLoop memEnv fuel l s).2.world :=
      acquireRows_later l fuel 0 l.rowKeys 0 s
    rw [acquireAttempts_succ]
    rcases a1 with a | a | ⟨a, _⟩
    · have b2 := b1 (by rw [a]; simp)
      rw [a]
      simp only []
      rw [if_neg (by simp)]
      exact Or.inr ⟨rfl, b2⟩
    · rw [a]
      simp only [if_true]
      exact ih _ (by rw [hl.present]; exact hp) (hl.noFaults hf) (hl.noOtherClaims _ hk)
    · rw [a]
      exact Or.inl rfl

/-- The loop of `Acquire` over rows of which one is not in the table returns,
given more attempts than the clock script has entries and one pass per row. -/
theorem acquireAttempts_missing_returns (l : Lock) (fuel n : Nat) (s : St World) (m : Row)
    (hm : m ∈ l.rowKeys) (hp : s.world.present m = false) (hf : s.world.NoFaults)
    (hk : s.world.NoOtherClaims l.lockID) (hfuel : l.rowKeys.length ≤ fuel)
    (httl : l.ttl = 2 * l.timeout) (h0 : 0 < l.timeout) (h1 : l.timeout < 2 ^ 62)
    (hn : s.world.ticks.length < n) :
    (acquireAttempts memEnv fuel l n s).1 ≠ none := by
  induction n generalizing s with
  | zero => simp at hn
  | succ n ih =>
    have a := acquireLoop_missing l fuel s m hm hp hf hk hfuel httl h0 h1
    have hl : s.world.Later (acquireLoop memEnv fuel l s).2.world :=
      acquireRows_later l fuel 0 l.rowKeys 0 s
    rw [acquireAttempts_succ]
    rcases a with a | ⟨a, hlt⟩
    · rw [a]
      simp only []
      rw [if_neg (by simp)]
      simp
    · rw [a]
      simp only [if_true]
      exact ih _ (by rw [hl.present]; exact hp) (hl.noFaults hf) (hl.noOtherClaims _ hk)
        (by omega)

/-! ## The hold time when the TTL is a whole number of seconds -/

theorem Time.sub_ge (m t timeout : Int) (h0 : 0 < timeout) (hmax : timeout ≤ maxDuration)
    (h : ¬ Time.sub m t < timeout) : timeout ≤ m - t := by
  unfold Time.sub at h
  unfold minDuration maxDuration at *
  split_ifs at h <;> omega

theorem lastReading_snoc_now (pre : List Event) (t : Int) :
    lastReading (pre ++ [Event.now t]) = some t := by
  simp [lastReading, expiryStep]

theorem summary_iteration (pre : List Event) (t secs : Int) (id : UUID) (k : Row) (a : Bool) :
    lastReading (pre ++ [Event.now t, Event.lock secs id k a none]) = some t ∧
    earliestExpiries (pre ++ [Event.now t, Event.lock secs id k a none]) =
      if a = true then earliestExpiries pre ++ [(k, t + secs * Second)]
      else earliestExpiries pre := by
  cases a <;> simp [lastReading, earliestExpiries, expiryStep]

theorem summary_retry (pre : List Event) (t secs n d : Int) (id : UUID) (k : Row)
    (rows : List Row) (f : Option StoreFailure) :
    lastReading (pre ++ [Event.now t, Event.lock secs id k false none,
        Event.count rows n f, Event.sleep d]) = some t ∧
    earliestExpiries (pre ++ [Event.now t, Event.lock secs id k false none,
        Event.count rows n f, Event.sleep d]) = earliestExpiries pre := by
  simp [lastReading, earliestExpiries, expiryStep]

theorem readings_append (a b : List Event) : readings (a ++ b) = readings a ++ readings b := by
  simp [readings]

/-- Readings of the clock come in order: one in `pre` is at most the reading
`t` that follows `pre`, when the readings of the whole trace are in order. -/
theorem reading_le_of_mono (pre post : List Event) (t t0 : Int) (full : List Event)
    (hfull : full = pre ++ Event.now t :: post) (hmono : (readings full).Pairwise (· ≤ ·))
    (h0 : t0 ∈ readings pre) : t0 ≤ t := by
  rw [hfull, readings_append] at hmono
  have h := (List.pairwise_append.1 hmono).2.2 t0 h0 t (by simp [readings])
  exact h

/-- An attempt that succeeds leaves every marker it wrote at least the timeout
to live at its last reading of the clock, when the `ttl` is a whole number of
seconds, at least the timeout, and the clock does not go back. -/
theorem acquireRows_holds (env : Env σ) (l : Lock) (fuel i : Nat) (ks : List Row)
    (maxTime : Int) (s : St σ) (b pre : List Event) (hs : s.trace = b ++ pre)
    (h0 : 0 < l.timeout) (hle : l.timeout ≤ l.ttl) (hmax : l.ttl ≤ maxDuration)
    (hsec : Duration.secondsInt l.ttl * Second = l.ttl)
    (inv0 : i = 0 → earliestExpiries pre = [])
    (inv1 : i ≠ 0 → ∃ t0 t, t0 ∈ readings pre ∧ maxTime = t0 + l.ttl ∧
      lastReading pre = some t ∧ l.timeout ≤ maxTime - t ∧
      ∀ x ∈ earliestExpiries pre, maxTime ≤ x.2)
    (hres : (acquireRows env l fuel i ks maxTime s).1 = some none)
    (hmono : (readings
      ((acquireRows env l fuel i ks maxTime s).2.trace.drop b.length)).Pairwise (· ≤ ·)) :
    HoldsFor l.timeout ((acquireRows env l fuel i ks maxTime s).2.trace.drop b.length) := by
  induction fuel generalizing i ks maxTime s pre with
  | zero =>
    cases ks with
    | nil =>
      rw [acquireRows_nil]
      simp only [hs, List.drop_left]
      intro t ht x hx
      by_cases hi : i = 0
      · rw [inv0 hi] at hx
        simp at hx
      · obtain ⟨t0, t1, _, _, h3, h4, h5⟩ := inv1 hi
        rw [h3] at ht
        simp at ht
        have := h5 x hx
        omega
    | cons k ks =>
      rw [acquireRows_zero] at hres
      simp at hres
  | succ fuel ih =>
    cases ks with
    | nil =>
      rw [acquireRows_nil]
      simp only [hs, List.drop_left]
      intro t ht x hx
      by_cases hi : i = 0
      · rw [inv0 hi] at hx
        simp at hx
      · obtain ⟨t0, t1, _, _, h3, h4, h5⟩ := inv1 hi
        rw [h3] at ht
        simp at ht
        have := h5 x hx
        omega
    | cons k ks =>
      obtain ⟨a, e, hlt, hlr⟩ := lockRow_trace env l k (timeNow env s).2
      have hl1 : (lockRow env l k (timeNow env s).2).1.1 = a := by rw [hlr]
      have hl2 : (lockRow env l k (timeNow env s).2).1.2 = e.map Error.store := by rw [hlr]
      obtain ⟨n, f, hct, _⟩ := checkRows_trace env l (lockRow env l k (timeNow env s).2).2
      have hcheck : ¬ (i ≠ 0 ∧ Time.sub maxTime (timeNow env s).1 < l.timeout) → i ≠ 0 →
          l.timeout ≤ maxTime - (timeNow env s).1 := fun hto hi =>
        Time.sub_ge _ _ _ h0 (by omega) (fun hlt => hto ⟨hi, hlt⟩)
      rcases acquireRows_cases env l fuel i k ks maxTime s with
        ⟨_, _, h⟩ | ⟨hto, ⟨_, _, h⟩ | ⟨he, ha, h⟩ | ⟨he, ha, ⟨_, _, h⟩ | ⟨_, h⟩⟩⟩
      · rw [h] at hres; simp at hres
      · rw [h] at hres; simp at hres
      · rw [h] at hres hmono ⊢
        rw [hl2] at he
        rw [hl1] at ha
        have he1 : e = none := by
          cases e with
          | none => rfl
          | some e1 => simp at he
        subst he1 ha
        have hs2 : (lockRow env l k (timeNow env s).2).2.trace =
            b ++ (pre ++ [Event.now (timeNow env s).1,
              Event.lock (Duration.secondsInt l.ttl) l.lockID k true none]) := by
          rw [hlt, timeNow_trace, hs]
          simp
        obtain ⟨hr, hx⟩ := summary_iteration pre (timeNow env s).1 (Duration.secondsInt l.ttl)
          l.lockID k true
        rw [if_pos rfl, hsec] at hx
        refine ih (i + 1) ks _ _ _ hs2 (by simp) ?_ hres hmono
        intro _
        by_cases hi : i = 0
        · refine ⟨(timeNow env s).1, (timeNow env s).1, by simp [readings_append, readings], ?_,
            hr, ?_, ?_⟩
          · rw [if_pos hi]
            rfl
          · rw [if_pos hi]
            unfold Time.add
            omega
          · intro x hx1
            rw [hx, inv0 hi] at hx1
            simp at hx1
            rw [if_pos hi, hx1]
            exact le_refl _
        · obtain ⟨t0, t1, h1, h2, _, _, h5⟩ := inv1 hi
          rw [if_neg hi]
          refine ⟨t0, (timeNow env s).1, by simp [readings_append, h1], h2, hr, hcheck hto hi, ?_⟩
          intro x hx1
          rw [hx] at hx1
          rcases List.mem_append.1 hx1 with hx1 | hx1
          · exact h5 x hx1
          · simp at hx1
            rw [hx1]
            obtain ⟨body, rel, htr, _⟩ := acquireRows_shape env l fuel (i + 1) ks maxTime
              (lockRow env l k (timeNow env s).2).2
            have hmono1 := hmono
            rw [if_neg hi] at hmono1
            have hle0 : t0 ≤ (timeNow env s).1 := by
              refine reading_le_of_mono pre
                (Event.lock (Duration.secondsInt l.ttl) l.lockID k true none :: (body ++ rel))
                _ t0 _ ?_ hmono1 h1
              rw [htr, hs2]
              simp
            show maxTime ≤ (timeNow env s).1 + l.ttl
            omega
      · rw [h] at hres; simp at hres
      · rw [h] at hres hmono ⊢
        rw [hl2] at he
        rw [hl1] at ha
        have he1 : e = none := by
          cases e with
          | none => rfl
          | some e1 => simp at he
        subst he1 ha
        have hs4 : (timeSleep env RetryTime
            (checkRows env l (lockRow env l k (timeNow env s).2).2).2).trace =
            b ++ (pre ++ [Event.now (timeNow env s).1,
              Event.lock (Duration.secondsInt l.ttl) l.lockID k false none,
              Event.count l.rowKeys n f, Event.sleep RetryTime]) := by
          rw [timeSleep_trace, hct, hlt, timeNow_trace, hs]
          simp
        obtain ⟨hr, hx⟩ := summary_retry pre (timeNow env s).1 (Duration.secondsInt l.ttl) n
          RetryTime l.lockID k l.rowKeys f
        refine ih i (k :: ks) _ _ _ hs4 (fun hi => by rw [hx]; exact inv0 hi) ?_ hres hmono
        intro hi
        obtain ⟨t0, t1, h1, h2, _, _, h5⟩ := inv1 hi
        rw [if_neg hi]
        refine ⟨t0, (timeNow env s).1, by simp [readings_append, h1], h2, hr, hcheck hto hi, ?_⟩
        intro x hx1
        rw [hx] at hx1
        exact h5 x hx1

/-- An attempt of `acquireLoop` that succeeds keeps the minimum hold time,
when the `ttl` is a whole number of seconds and the clock does not go back. -/
theorem acquireLoop_holds (env : Env σ) (l : Lock) (fuel : Nat) (s : St σ)
    (h0 : 0 < l.timeout) (hle : l.timeout ≤ l.ttl) (hmax : l.ttl ≤ maxDuration)
    (hsec : Duration.secondsInt l.ttl * Second = l.ttl)
    (hres : (acquireLoop env fuel l s).1 = some none)
    (hmono : (readings (newEvents s (acquireLoop env fuel l s).2)).Pairwise (· ≤ ·)) :
    HoldsFor l.timeout (newEvents s (acquireLoop env fuel l s).2) :=
  acquireRows_holds env l fuel 0 l.rowKeys 0 s s.trace [] (by simp) h0 hle hmax hsec
    (fun _ => rfl) (fun h => absurd rfl h) hres hmono

/-- The minimum hold time for a timeout of a whole number `n` of seconds,
positive and below 2^62 nanoseconds: every attempt that succeeds leaves every
marker it wrote at least the timeout to live at its last reading of the clock,
when the clock does not go back. -/
theorem hold_time_whole_seconds (env : Env σ) (fuel : Nat) (id : UUID)
    (keyspace table : String) (n : Int) (rowKeys : List Row) (s : St σ)
    (h0 : 0 < n) (h1 : n * Second < 2 ^ 62)
    (hres : (acquireLoop env fuel (newLock id keyspace table (n * Second) rowKeys) s).1 =
      some none)
    (hmono : (readings (newEvents s
      (acquireLoop env fuel (newLock id keyspace table (n * Second) rowKeys) s).2)).Pairwise
        (· ≤ ·)) :
    HoldsFor (n * Second) (newEvents s
      (acquireLoop env fuel (newLock id keyspace table (n * Second) rowKeys) s).2) := by
  have hS : Second = 1000000000 := rfl
  have hpos : 0 < n * Second := by rw [hS]; omega
  have httl : (newLock id keyspace table (n * Second) rowKeys).ttl = 2 * (n * Second) :=
    ttl_of_range (n * Second) hpos h1
  refine acquireLoop_holds env (newLock id keyspace table (n * Second) rowKeys) fuel s hpos
    ?_ ?_ ?_ hres hmono
  · rw [httl]
    show n * Second ≤ 2 * (n * Second)
    omega
  · rw [httl]
    unfold maxDuration
    omega
  · rw [httl]
    unfold Duration.secondsInt
    have h2 : 2 * (n * Second) = (2 * n) * Second := by ring
    rw [h2, Int.mul_tdiv_cancel _ (by rw [hS]; decide)]

/-! ## The lock that `Acquire` builds -/

/-- The loop of `Acquire` returns the lock it was given. -/
theorem acquireAttempts_lock (env : Env σ) (fuel : Nat) (l l1 : Lock) (n : Nat) (s : St σ)
    (e : Option Error) (h : (acquireAttempts env fuel l n s).1 = some (some l1, e)) : l1 = l := by
  rcases acquireAttempts_result env fuel l n s _ h with h1 | ⟨err, h1, _⟩
  · simp at h1
    exact h1.1
  · simp at h1

/-- C5, as the code has it: for a timeout that is positive and below 2^62
nanoseconds the lock that `Acquire` builds, which is the lock it returns, has
`ttl` equal to twice the timeout and `timeout` equal to the argument. -/
theorem Acquire_ttl_double (env : Env σ) (attempts fuel : Nat) (keyspace table : String)
    (timeout : Int) (rowKeys : List Row) (s : St σ) (id : UUID)
    (hpos : 0 < timeout) (hmax : timeout < 2 ^ 62) :
    (newLock id keyspace table timeout rowKeys).ttl = 2 * timeout ∧
    (newLock id keyspace table timeout rowKeys).timeout = timeout ∧
    ∀ l e, (Acquire env attempts fuel keyspace table timeout rowKeys s).1 = some (some l, e) →
      l.ttl = 2 * timeout ∧ l.timeout = timeout := by
  have h1 : ∀ id1, (newLock id1 keyspace table timeout rowKeys).ttl = 2 * timeout :=
    fun id1 => ttl_of_range timeout hpos hmax
  refine ⟨h1 id, rfl, ?_⟩
  intro l e h
  rw [Acquire_eq] at h
  rw [acquireAttempts_lock env fuel _ l attempts _ e h]
  exact ⟨h1 _, rfl⟩

/-- A timeout of 30 seconds gives a lock with a `ttl` of 60 seconds. -/
theorem Acquire_ttl_double_witness :
    (0 : Int) < 30 * Second ∧ 30 * Second < 2 ^ 62 ∧
    (newLock 1 "ks" "t" (30 * Second) ["r1", "r2"]).ttl = 2 * (30 * Second) ∧
    (newLock 1 "ks" "t" (30 * Second) ["r1", "r2"]).timeout = 30 * Second ∧
    ∀ l e, (Acquire memEnv 1 5 "ks" "t" (30 * Second) ["r1", "r2"]
        (St.init (World.quiet ["r1", "r2"]))).1 = some (some l, e) →
      l.ttl = 2 * (30 * Second) ∧ l.timeout = 30 * Second :=
  ⟨by decide, by decide,
    Acquire_ttl_double memEnv 1 5 "ks" "t" (30 * Second) ["r1", "r2"]
      (St.init (World.quiet ["r1", "r2"])) 1 (by decide) (by decide)⟩

/-- C5 fails at a timeout of 2^62 nanoseconds, a positive `time.Duration`: the
product wraps around and the lock that `Acquire` returns has a `ttl` of -2^63
nanoseconds. -/
theorem Acquire_ttl_wraps :
    (0 : Int) < 2 ^ 62 ∧ (2 : Int) ^ 62 ≤ maxDuration ∧
    (Acquire memEnv 1 1 "ks" "t" (2 ^ 62) ["r1"] (St.init (World.quiet ["r1"]))).1 =
      some (some { lockID := 1, keyspace := "ks", table := "t", rowKeys := ["r1"],
                   ttl := -(2 ^ 63), timeout := 2 ^ 62 }, none) ∧
    (-(2 ^ 63) : Int) ≠ 2 * 2 ^ 62 := by
  decide

/-! ## The owner id across restarts -/

/-- C6, as the code has it: `Acquire` mints one id, before its first attempt;
no later call is a mint, every conditional write and clear of every attempt
carries that id, and it is the `lockID` of the lock returned. -/
theorem Acquire_one_owner (env : Env σ) (attempts fuel : Nat) (keyspace table : String)
    (timeout : Int) (rowKeys : List Row) (s : St σ) :
    ∃ rest, newEvents s (Acquire env attempts fuel keyspace table timeout rowKeys s).2 =
        Event.mint (env.timeUUID s.world).1 :: rest ∧
      (∀ ev ∈ rest, ev.isMint = false ∧
        (ev.owner = none ∨ ev.owner = some (env.timeUUID s.world).1)) ∧
      ∀ l e, (Acquire env attempts fuel keyspace table timeout rowKeys s).1 = some (some l, e) →
        l.lockID = (env.timeUUID s.world).1 := by
  obtain ⟨pre, body, rel, o, ht, hp, hs, _⟩ :=
    Acquire_shape env attempts fuel keyspace table timeout rowKeys s
  refine ⟨pre ++ (body ++ rel), ht, ?_, ?_⟩
  · intro ev hev
    rcases List.mem_append.1 hev with hev | hev
    · exact (hp ev hev).2
    · rcases List.mem_append.1 hev with hev | hev
      · exact (hs.1 ev hev).2
      · exact ⟨(Event.failure_of_isClear ev (hs.2.1 ev hev).1).2, Or.inr (hs.2.1 ev hev).2⟩
  · intro l e h
    rw [Acquire_eq] at h
    rw [acquireAttempts_lock env fuel _ l attempts _ e h]
    rfl

/-- C6 fails on a run with one restart: the clock jumps two seconds during the
first attempt of an `Acquire` with a timeout of one second; the second attempt
writes the id 1 of the first attempt, and no second id is minted. -/
theorem Acquire_restart_reuses_owner :
    (Acquire memEnv 2 5 "ks" "t" (1 * Second) ["r1", "r2"]
        (St.init { World.quiet ["r1", "r2"] with ticks := [0, 2 * Second] })).2.trace =
      [Event.mint 1,
       Event.now 0, Event.lock 2 1 "r1" true none, Event.now 2000000000,
       Event.clear "r1" 1 true none, Event.clear "r2" 1 false none,
       Event.now 2000000000, Event.lock 2 1 "r1" true none,
       Event.now 2000000000, Event.lock 2 1 "r2" true none] := by
  decide

/-! ## The insufficient-time-budget signal -/

/-- C7: whatever the collaborators do, a run of `Acquire` that returns gives
a lock and a nil error, or no lock and an error other than `errTimeout`; after
an attempt that ends with `errTimeout` the loop goes on with another attempt,
which starts from the first row; and the number of restarts has no bound: for
every `n` there is a run that restarts `n` times before it succeeds. -/
theorem Acquire_hides_errTimeout :
    (∀ (τ : Type) (env : Env τ) (attempts fuel : Nat) (keyspace table : String)
        (timeout : Int) (rowKeys : List Row) (s : St τ)
        (res : Option Lock × Option Error),
      (Acquire env attempts fuel keyspace table timeout rowKeys s).1 = some res →
      (∃ l, res = (some l, none)) ∨ ∃ err, res = (none, some err) ∧ err ≠ Error.errTimeout) ∧
    (∀ (τ : Type) (env : Env τ) (fuel attempts : Nat) (l : Lock) (s : St τ),
      (acquireLoop env fuel l s).1 = some (some Error.errTimeout) →
      acquireAttempts env fuel l (attempts + 1) s =
          acquireAttempts env fuel l attempts (acquireLoop env fuel l s).2 ∧
        ∀ s1 : St τ, acquireLoop env fuel l s1 = acquireRows env l fuel 0 l.rowKeys 0 s1) ∧
    ∀ n : Nat,
      (Acquire memEnv n 2 "ks" "t" (1 * Second) ["r1", "r2"] (St.init (World.slow n))).1 =
        none ∧
      (Acquire memEnv (n + 1) 2 "ks" "t" (1 * Second) ["r1", "r2"]
        (St.init (World.slow n))).1 =
        some (some (newLock 1 "ks" "t" (1 * Second) ["r1", "r2"]), none) := by
  refine ⟨?_, ?_, ?_⟩
  · intro τ env attempts fuel keyspace table timeout rowKeys s res h
    rw [Acquire_eq] at h
    rcases acquireAttempts_result env fuel _ attempts _ res h with h1 | h1
    · exact Or.inl ⟨_, h1⟩
    · exact Or.inr h1
  · intro τ env fuel attempts l s h
    refine ⟨?_, fun s1 => rfl⟩
    rw [acquireAttempts_succ, h]
    simp
  · intro n
    have hc : World.Calm (memEnv.timeUUID (St.init (World.slow n)).world).2 n :=
      ⟨by simp [memEnv, St.init, World.slow, World.quiet],
        by simp [memEnv, St.init, World.slow, World.quiet], rfl, rfl, rfl, rfl, rfl⟩
    exact slow_attempts n _ _ 1 hc

/-- A run with one restart returns a lock and a nil error, and the attempt
after the one that ran out of time is a run of `acquireLoop` from the start. -/
theorem Acquire_hides_errTimeout_witness :
    ((∃ l, (some (newLock 1 "ks" "t" (1 * Second) ["r1", "r2"]), (none : Option Error)) =
        (some l, none)) ∨
      ∃ err, (some (newLock 1 "ks" "t" (1 * Second) ["r1", "r2"]), (none : Option Error)) =
        (none, some err) ∧ err ≠ Error.errTimeout) ∧
    acquireAttempts memEnv 2 (newLock 1 "ks" "t" (1 * Second) ["r1", "r2"]) (1 + 1)
        (St.init (World.slow 1)) =
      acquireAttempts memEnv 2 (newLock 1 "ks" "t" (1 * Second) ["r1", "r2"]) 1
        (acquireLoop memEnv 2 (newLock 1 "ks" "t" (1 * Second) ["r1", "r2"])
          (St.init (World.slow 1))).2 :=
  ⟨Acquire_hides_errTimeout.1 World memEnv 2 2 "ks" "t" (1 * Second) ["r1", "r2"]
      (St.init (World.slow 1)) _ (by decide),
    (Acquire_hides_errTimeout.2.1 World memEnv 2 1 (newLock 1 "ks" "t" (1 * Second) ["r1", "r2"])
      (St.init (World.slow 1)) (by decide)).1⟩

/-! ## Store failures during `Acquire` -/

/-- C8: when a conditional write or a count query of a run of `Acquire`
reports the store failure `e`, `Acquire` returns no lock and exactly `e`, and
the only calls after the failed one are the conditional clears of `Release`:
no further conditional write, no further attempt, whatever those clears
answer. -/
theorem Acquire_store_failure_fatal (env : Env σ) (attempts fuel : Nat)
    (keyspace table : String) (timeout : Int) (rowKeys : List Row) (s : St σ)
    (pre post : List Event) (ev : Event) (e : StoreFailure)
    (hrun : newEvents s (Acquire env attempts fuel keyspace table timeout rowKeys s).2 =
      pre ++ ev :: post)
    (hfail : ev.failure = some e) :
    (Acquire env attempts fuel keyspace table timeout rowKeys s).1 =
        some (none, some (Error.store e)) ∧
      ∀ x ∈ post, x.isClear = true :=
  Acquire_failure_last env attempts fuel keyspace table timeout rowKeys s pre post ev e hrun hfail

/-- The conditional write on the second row fails: `Acquire` returns the
failure after the two clears of `Release`. -/
theorem Acquire_store_failure_fatal_witness :
    newEvents (St.init { World.quiet ["r1", "r2"] with faults := [none, some ⟨7⟩] })
        (Acquire memEnv 1 5 "ks" "t" (30 * Second) ["r1", "r2"]
          (St.init { World.quiet ["r1", "r2"] with faults := [none, some ⟨7⟩] })).2 =
      [Event.mint 1, Event.now 0, Event.lock 60 1 "r1" true none, Event.now 0] ++
        Event.lock 60 1 "r2" false (some ⟨7⟩) ::
          [Event.clear "r1" 1 true none, Event.clear "r2" 1 false none] ∧
    (Acquire memEnv 1 5 "ks" "t" (30 * Second) ["r1", "r2"]
        (St.init { World.quiet ["r1", "r2"] with faults := [none, some ⟨7⟩] })).1 =
      some (none, some (Error.store ⟨7⟩)) ∧
    ∀ x ∈ [Event.clear "r1" 1 true none, Event.clear "r2" 1 false none], x.isClear = true :=
  ⟨by decide,
    Acquire_store_failure_fatal memEnv 1 5 "ks" "t" (30 * Second) ["r1", "r2"]
      (St.init { World.quiet ["r1", "r2"] with faults := [none, some ⟨7⟩] })
      [Event.mint 1, Event.now 0, Event.lock 60 1 "r1" true none, Event.now 0]
      [Event.clear "r1" 1 true none, Event.clear "r2" 1 false none]
      (Event.lock 60 1 "r2" false (some ⟨7⟩)) ⟨7⟩ (by decide) rfl⟩

/-- C9, as the code has it: a store failure of a conditional write or a count
query is fatal, `Acquire` returns it and only the clears of `Release` follow;
a store failure of a conditional clear of that `Release` ends the `Release`
and is dropped, the attempt returning the error that made it abort: the
earlier store failure, "key not found", or `errTimeout`. -/
theorem Acquire_clear_failure_dropped (env : Env σ) (attempts fuel : Nat)
    (keyspace table : String) (timeout : Int) (rowKeys : List Row) (l : Lock) (s : St σ)
    (pre post : List Event) (ev : Event) (e : StoreFailure) :
    (newEvents s (Acquire env attempts fuel keyspace table timeout rowKeys s).2 =
        pre ++ ev :: post → ev.failure = some e →
      (Acquire env attempts fuel keyspace table timeout rowKeys s).1 =
          some (none, some (Error.store e)) ∧
        ∀ x ∈ post, x.isClear = true) ∧
    (newEvents s (acquireLoop env fuel l s).2 = pre ++ ev :: post →
        ev.clearFailure = some e →
      post = [] ∧ ∃ err init last rel, pre = init ++ last :: rel ∧
        (∀ x ∈ rel, x.isClear = true) ∧ last.isClear = false ∧ AbortsOn err last ∧
        (acquireLoop env fuel l s).1 = some (some err)) :=
  ⟨Acquire_failure_last env attempts fuel keyspace table timeout rowKeys s pre post ev e,
    acquireLoop_clear_failure_last env fuel l s pre post ev e⟩

/-- The clear of r2 fails during the `Release` of an attempt that ran out of
time: the attempt still returns `errTimeout`; and a failed conditional write is
returned by `Acquire`. -/
theorem Acquire_clear_failure_dropped_witness :
    ((Acquire memEnv 1 5 "ks" "t" (30 * Second) ["r1", "r2"]
        (St.init { World.quiet ["r1", "r2"] with faults := [none, some ⟨7⟩] })).1 =
        some (none, some (Error.store ⟨7⟩)) ∧
      ∀ x ∈ [Event.clear "r1" 1 true none, Event.clear "r2" 1 false none], x.isClear = true) ∧
    (([] : List Event) = [] ∧ ∃ err init last rel,
      [Event.now 0, Event.lock 2 1 "r1" true none, Event.now 2000000000,
        Event.clear "r1" 1 true none] = init ++ last :: rel ∧
      (∀ x ∈ rel, x.isClear = true) ∧ last.isClear = false ∧ AbortsOn err last ∧
      (acquireLoop memEnv 5 (newLock 1 "ks" "t" (1 * Second) ["r1", "r2"])
        (St.init { World.quiet ["r1", "r2"] with
          ticks := [0, 2 * Second], faults := [none, none, some ⟨9⟩] })).1 = some (some err)) :=
  ⟨(Acquire_clear_failure_dropped memEnv 1 5 "ks" "t" (30 * Second) ["r1", "r2"]
      (newLock 1 "ks" "t" (30 * Second) ["r1", "r2"])
      (St.init { World.quiet ["r1", "r2"] with faults := [none, some ⟨7⟩] })
      [Event.mint 1, Event.now 0, Event.lock 60 1 "r1" true none, Event.now 0]
      [Event.clear "r1" 1 true none, Event.clear "r2" 1 false none]
      (Event.lock 60 1 "r2" false (some ⟨7⟩)) ⟨7⟩).1 (by decide) rfl,
    (Acquire_clear_failure_dropped memEnv 1 5 "ks" "t" (1 * Second) ["r1", "r2"]
      (newLock 1 "ks" "t" (1 * Second) ["r1", "r2"])
      (St.init { World.quiet ["r1", "r2"] with
        ticks := [0, 2 * Second], faults := [none, none, some ⟨9⟩] })
      [Event.now 0, Event.lock 2 1 "r1" true none, Event.now 2000000000,
        Event.clear "r1" 1 true none]
      [] (Event.clear "r2" 1 false (some ⟨9⟩)) ⟨9⟩).2 (by decide) rfl⟩

/-- C9 fails when a clear of the clean-up `Release` fails: the clock jumps
during the first attempt, its `Release` meets the store failure 9 on r2, and
`Acquire` starts a second attempt and returns a lock and a nil error. -/
theorem Acquire_swallows_clear_failure :
    (Acquire memEnv 2 5 "ks" "t" (1 * Second) ["r1", "r2"]
        (St.init { World.quiet ["r1", "r2"] with
          ticks := [0, 2 * Second], faults := [none, none, some ⟨9⟩] })).1 =
      some (some (newLock 1 "ks" "t" (1 * Second) ["r1", "r2"]), none) ∧
    (Acquire memEnv 2 5 "ks" "t" (1 * Second) ["r1", "r2"]
        (St.init { World.quiet ["r1", "r2"] with
          ticks := [0, 2 * Second], faults := [none, none, some ⟨9⟩] })).2.trace =
      [Event.mint 1,
       Event.now 0, Event.lock 2 1 "r1" true none, Event.now 2000000000,
       Event.clear "r1" 1 true none, Event.clear "r2" 1 false (some ⟨9⟩),
       Event.now 2000000000, Event.lock 2 1 "r1" true none,
       Event.now 2000000000, Event.lock 2 1 "r2" true none] := by
  decide

/-! ## A store failure during `Release` -/

/-- C10: when the conditional clear at index `i` of a run of `Release` reports
the store failure `e`, `Release` returns exactly `e`; it has issued `i + 1`
clears, one for each of `rowKeys[0..i]` in that order and under the lock id,
none of the earlier ones having failed; nothing is issued for the rows after
index `i` (the run is the run of `Release` over `rowKeys[0..i]` alone), and
over the scripted store with no other client at work every row outside
`rowKeys[0..i]` keeps its marker. -/
theorem Release_stops_at_first_failure (env : Env σ) (l : Lock) (s : St σ) (i : Nat)
    (ev : Event) (e : StoreFailure)
    (hev : (newEvents s (Release env l s).2)[i]? = some ev)
    (hfail : ev.clearFailure = some e) :
    ((Release env l s).1 = some (Error.store e) ∧
      (newEvents s (Release env l s).2).length = i + 1 ∧
      (newEvents s (Release env l s).2).map Event.cleared =
        (l.rowKeys.take (i + 1)).map (fun k => some (k, l.lockID)) ∧
      (∀ j ev1, j < i → (newEvents s (Release env l s).2)[j]? = some ev1 →
        ev1.clearFailure = none) ∧
      i < l.rowKeys.length ∧
      Release env l s = releaseRows env l (l.rowKeys.take (i + 1)) s) ∧
    ∀ (w : World) (tr : List Event),
      (newEvents ⟨w, tr⟩ (Release memEnv l ⟨w, tr⟩).2)[i]? = some ev → w.others = [] →
      ∀ r, r ∉ l.rowKeys.take (i + 1) →
        (Release memEnv l ⟨w, tr⟩).2.world.marker r = w.marker r := by
  refine ⟨releaseRows_failure_at env l l.rowKeys s i ev e hev hfail, ?_⟩
  intro w tr hw ho r hr
  have h := (releaseRows_failure_at memEnv l l.rowKeys ⟨w, tr⟩ i ev e hw hfail).2.2.2.2.2
  have h1 : Release memEnv l ⟨w, tr⟩ = releaseRows memEnv l (l.rowKeys.take (i + 1)) ⟨w, tr⟩ := h
  rw [h1]
  exact releaseRows_frame l _ ⟨w, tr⟩ ho r hr

/-- The lock holds r1, r2 and r3 and the clear of r2 fails: `Release` returns
the failure after two clears and r3 keeps the marker. -/
theorem Release_stops_at_first_failure_witness :
    (newEvents
      (St.init { World.quiet ["r1", "r2", "r3"] with
        marker := fun _ => some 1, faults := [none, some ⟨5⟩] })
      (Release memEnv (newLock 1 "ks" "t" (30 * Second) ["r1", "r2", "r3"])
        (St.init { World.quiet ["r1", "r2", "r3"] with
          marker := fun _ => some 1, faults := [none, some ⟨5⟩] })).2)[1]? =
      some (Event.clear "r2" 1 false (some ⟨5⟩)) ∧
    (Release memEnv (newLock 1 "ks" "t" (30 * Second) ["r1", "r2", "r3"])
      (St.init { World.quiet ["r1", "r2", "r3"] with
        marker := fun _ => some 1, faults := [none, some ⟨5⟩] })).1 =
      some (Error.store ⟨5⟩) ∧
    (Release memEnv (newLock 1 "ks" "t" (30 * Second) ["r1", "r2", "r3"])
      (St.init { World.quiet ["r1", "r2", "r3"] with
        marker := fun _ => some 1, faults := [none, some ⟨5⟩] })).2.world.marker "r3" =
      some 1 :=
  ⟨by decide,
    (Release_stops_at_first_failure memEnv (newLock 1 "ks" "t" (30 * Second) ["r1", "r2", "r3"])
      (St.init { World.quiet ["r1", "r2", "r3"] with
        marker := fun _ => some 1, faults := [none, some ⟨5⟩] })
      1 (Event.clear "r2" 1 false (some ⟨5⟩)) ⟨5⟩ (by decide) rfl).1.1,
    (Release_stops_at_first_failure memEnv (newLock 1 "ks" "t" (30 * Second) ["r1", "r2", "r3"])
      (St.init { World.quiet ["r1", "r2", "r3"] with
        marker := fun _ => some 1, faults := [none, some ⟨5⟩] })
      1 (Event.clear "r2" 1 false (some ⟨5⟩)) ⟨5⟩ (by decide) rfl).2 _ [] (by decide) rfl "r3"
      (by decide)⟩

/-! ## Acquisition and mutual exclusion -/

/-- C1: over a store with per-row conditional writes in which nothing takes
the lock id off a row of `rowKeys` during the call (no expiry, no clear under
that id by another client), when `Acquire` returns a lock and a nil error every
row of `rowKeys` carries the `lockID` of that lock in the resulting state. -/
theorem Acquire_success_marks_rows (w : World) (tr : List Event) (attempts fuel : Nat)
    (keyspace table : String) (timeout : Int) (rowKeys : List Row) (l : Lock)
    (hk : ∀ r ∈ rowKeys, w.Keeps r w.nextID)
    (hres : (Acquire memEnv attempts fuel keyspace table timeout rowKeys ⟨w, tr⟩).1 =
      some (some l, none)) :
    ∀ r ∈ rowKeys,
      (Acquire memEnv attempts fuel keyspace table timeout rowKeys ⟨w, tr⟩).2.world.marker r =
        some l.lockID := by
  rw [Acquire_eq] at hres ⊢
  have hl := acquireAttempts_lock memEnv fuel _ l attempts _ none hres
  rw [hl]
  exact acquireAttempts_owns _ fuel attempts _ l hk hres

/-- The row r2 is held by owner 77, who clears it while the lock polls:
`Acquire` then succeeds and both rows carry its id. -/
theorem Acquire_success_marks_rows_witness :
    (∀ r ∈ ["r1", "r2"],
      World.Keeps { World.quiet ["r1", "r2"] with
        marker := fun r => if r = "r2" then some 77 else none
        others := [[], [], [], [OtherOp.clear "r2" 77]] } r 1) ∧
    (Acquire memEnv 1 5 "ks" "t" (30 * Second) ["r1", "r2"]
      ⟨{ World.quiet ["r1", "r2"] with
        marker := fun r => if r = "r2" then some 77 else none
        others := [[], [], [], [OtherOp.clear "r2" 77]] }, []⟩).1 =
      some (some (newLock 1 "ks" "t" (30 * Second) ["r1", "r2"]), none) ∧
    ∀ r ∈ ["r1", "r2"],
      (Acquire memEnv 1 5 "ks" "t" (30 * Second) ["r1", "r2"]
        ⟨{ World.quiet ["r1", "r2"] with
          marker := fun r => if r = "r2" then some 77 else none
          others := [[], [], [], [OtherOp.clear "r2" 77]] }, []⟩).2.world.marker r =
        some (newLock 1 "ks" "t" (30 * Second) ["r1", "r2"]).lockID :=
  ⟨by decide, by decide,
    Acquire_success_marks_rows _ [] 1 5 "ks" "t" (30 * Second) ["r1", "r2"] _
      (by decide) (by decide)⟩

/-- C3: over the scripted store with no store failure, when a row of `rowKeys`
is not in the table (a conditional write on it is not applied): every run of
`Acquire` that returns gives no lock and the "key not found" error, and in the
resulting state no row of `rowKeys` carries the lock id, no other client
writing that id; and `Acquire` does return, for a timeout that is positive and
below 2^62 nanoseconds, given more attempts than the clock script has entries
and one pass of the loop per row. -/
theorem Acquire_missing_row (w : World) (tr : List Event) (keyspace table : String)
    (timeout : Int) (rowKeys : List Row) (m : Row)
    (hm : m ∈ rowKeys) (hp : w.present m = false) (hf : w.NoFaults)
    (hk : w.NoOtherClaims w.nextID) :
    (∀ attempts fuel res,
      (Acquire memEnv attempts fuel keyspace table timeout rowKeys ⟨w, tr⟩).1 = some res →
      res = (none, some Error.keyNotFound) ∧
      ∀ r ∈ rowKeys,
        (Acquire memEnv attempts fuel keyspace table timeout rowKeys ⟨w, tr⟩).2.world.marker r ≠
          some w.nextID) ∧
    (0 < timeout → timeout < 2 ^ 62 → ∀ attempts fuel,
      w.ticks.length < attempts → rowKeys.length ≤ fuel →
      (Acquire memEnv attempts fuel keyspace table timeout rowKeys ⟨w, tr⟩).1 =
        some (none, some Error.keyNotFound)) := by
  have key : ∀ attempts fuel,
      (Acquire memEnv attempts fuel keyspace table timeout rowKeys ⟨w, tr⟩).1 = none ∨
      ((Acquire memEnv attempts fuel keyspace table timeout rowKeys ⟨w, tr⟩).1 =
          some (none, some Error.keyNotFound) ∧
        ∀ r ∈ rowKeys,
          (Acquire memEnv attempts fuel keyspace table timeout rowKeys
            ⟨w, tr⟩).2.world.marker r ≠ some w.nextID) := by
    intro attempts fuel
    rw [Acquire_eq]
    exact acquireAttempts_missing (newLock w.nextID keyspace table timeout rowKeys) fuel
      attempts _ m hm hp hf hk
  constructor
  · intro attempts fuel res hres
    rcases key attempts fuel with h | ⟨h, h2⟩
    · rw [h] at hres
      simp at hres
    · rw [h] at hres
      simp at hres
      exact ⟨hres.symm, h2⟩
  · intro h0 h1 attempts fuel hn hfuel
    rcases key attempts fuel with h | ⟨h, _⟩
    · exfalso
      rw [Acquire_eq] at h
      exact acquireAttempts_missing_returns (newLock w.nextID keyspace table timeout rowKeys)
        fuel attempts _ m hm hp hf hk hfuel (ttl_of_range timeout h0 h1) h0 h1 hn h
    · exact h

/-- The rows r1 and "missing", of which only r1 is in the table: `Acquire`
returns "key not found" and the marker of r1 is absent afterwards. -/
theorem Acquire_missing_row_witness :
    ("missing" ∈ ["r1", "missing"] ∧
      (World.quiet ["r1", "r2"]).present "missing" = false ∧
      (World.quiet ["r1", "r2"]).NoFaults ∧
      (World.quiet ["r1", "r2"]).NoOtherClaims (World.quiet ["r1", "r2"]).nextID ∧
      (0 : Int) < 30 * Second ∧ 30 * Second < 2 ^ 62) ∧
    (Acquire memEnv 1 2 "ks" "t" (30 * Second) ["r1", "missing"]
      ⟨World.quiet ["r1", "r2"], []⟩).1 = some (none, some Error.keyNotFound) ∧
    ((none, some Error.keyNotFound) = ((none : Option Lock), some Error.keyNotFound) ∧
      ∀ r ∈ ["r1", "missing"],
        (Acquire memEnv 1 2 "ks" "t" (30 * Second) ["r1", "missing"]
          ⟨World.quiet ["r1", "r2"], []⟩).2.world.marker r ≠
          some (World.quiet ["r1", "r2"]).nextID) ∧
    (Acquire memEnv 1 2 "ks" "t" (30 * Second) ["r1", "missing"]
      ⟨World.quiet ["r1", "r2"], []⟩).2.world.marker "r1" = none :=
  ⟨by decide,
    (Acquire_missing_row (World.quiet ["r1", "r2"]) [] "ks" "t" (30 * Second)
      ["r1", "missing"] "missing" (by decide) (by decide) (by decide) (by decide)).2
      (by decide) (by decide) 1 2 (by decide) (by decide),
    (Acquire_missing_row (World.quiet ["r1", "r2"]) [] "ks" "t" (30 * Second)
      ["r1", "missing"] "missing" (by decide) (by decide) (by decide) (by decide)).1
      1 2 _ (by decide),
    by decide⟩

/-- C2: while the marker of a row `r` of the lock's `rowKeys` is held by
another owner `o` and stays in place (the holder does not clear it and it does
not expire), the conditional write of the lock on `r` is not applied and
leaves the marker as it is, and neither an attempt nor `Acquire` returns
success, however long they poll. -/
theorem Acquire_blocked_while_held (w : World) (tr : List Event) (l : Lock) (r : Row)
    (o : UUID) (hr : r ∈ l.rowKeys) (ho : o ≠ l.lockID)
    (hm : w.marker r = some o) (hk : w.Keeps r o) :
    (lockRow memEnv l r ⟨w, tr⟩).1.1 = false ∧
    (lockRow memEnv l r ⟨w, tr⟩).2.world.marker r = some o ∧
    (∀ fuel, (acquireLoop memEnv fuel l ⟨w, tr⟩).1 ≠ some none) ∧
    ∀ attempts fuel l1, (acquireAttempts memEnv fuel l attempts ⟨w, tr⟩).1 ≠
      some (some l1, none) :=
  ⟨World.lockQuery_blocked w l.lockID r o hk hm,
    lockRow_keeps l r ⟨w, tr⟩ r o hk hm,
    fun fuel => (acquireRows_held l fuel 0 l.rowKeys 0 ⟨w, tr⟩ r o ho hk hm).2 hr,
    fun attempts fuel l1 => acquireAttempts_held l fuel attempts ⟨w, tr⟩ r o ho hr hk hm l1⟩

/-- The row r2 stays held by owner 77 while owner 88 comes and goes on r1. -/
theorem Acquire_blocked_while_held_witness :
    "r2" ∈ (newLock 1 "ks" "t" (30 * Second) ["r1", "r2"]).rowKeys ∧
    (77 : UUID) ≠ (newLock 1 "ks" "t" (30 * Second) ["r1", "r2"]).lockID ∧
    (lockRow memEnv (newLock 1 "ks" "t" (30 * Second) ["r1", "r2"]) "r2"
      ⟨{ World.quiet ["r1", "r2"] with
        marker := fun r => if r = "r2" then some 77 else none
        others := [[OtherOp.claim "r1" 88], [OtherOp.clear "r1" 88]] }, []⟩).1.1 = false ∧
    (lockRow memEnv (newLock 1 "ks" "t" (30 * Second) ["r1", "r2"]) "r2"
      ⟨{ World.quiet ["r1", "r2"] with
        marker := fun r => if r = "r2" then some 77 else none
        others := [[OtherOp.claim "r1" 88], [OtherOp.clear "r1" 88]] }, []⟩).2.world.marker "r2" =
      some 77 ∧
    (∀ fuel, (acquireLoop memEnv fuel (newLock 1 "ks" "t" (30 * Second) ["r1", "r2"])
      ⟨{ World.quiet ["r1", "r2"] with
        marker := fun r => if r = "r2" then some 77 else none
        others := [[OtherOp.claim "r1" 88], [OtherOp.clear "r1" 88]] }, []⟩).1 ≠ some none) ∧
    ∀ attempts fuel l1,
      (acquireAttempts memEnv fuel (newLock 1 "ks" "t" (30 * Second) ["r1", "r2"]) attempts
        ⟨{ World.quiet ["r1", "r2"] with
          marker := fun r => if r = "r2" then some 77 else none
          others := [[OtherOp.claim "r1" 88], [OtherOp.clear "r1" 88]] }, []⟩).1 ≠
        some (some l1, none) :=
  ⟨by decide, by decide,
    Acquire_blocked_while_held _ [] (newLock 1 "ks" "t" (30 * Second) ["r1", "r2"]) "r2" 77
      (by decide) (by decide) (by decide) (by decide)⟩

/-! ## The minimum hold time -/

/-- C4 at a timeout of 750 milliseconds over two rows, the second reading of
the clock coming 750 milliseconds after the first: the `ttl` is 1.5 seconds,
the TTL sent to the store is 1 second, the time-budget test passes and the
attempt succeeds, and at the last reading the marker of r1 can expire 250
milliseconds later, less than the timeout. -/
theorem hold_time_cut_by_truncation :
    (acquireLoop memEnv 2 (newLock 1 "ks" "t" (750 * Millisecond) ["r1", "r2"])
        (St.init { World.quiet ["r1", "r2"] with ticks := [0, 750 * Millisecond] })).1 =
      some none ∧
    (acquireLoop memEnv 2 (newLock 1 "ks" "t" (750 * Millisecond) ["r1", "r2"])
        (St.init { World.quiet ["r1", "r2"] with ticks := [0, 750 * Millisecond] })).2.trace =
      [Event.now 0, Event.lock 1 1 "r1" true none,
       Event.now 750000000, Event.lock 1 1 "r2" true none] ∧
    (newLock 1 "ks" "t" (750 * Millisecond) ["r1", "r2"]).ttl = 1500000000 ∧
    earliestExpiries [Event.now 0, Event.lock 1 1 "r1" true none,
       Event.now 750000000, Event.lock 1 1 "r2" true none] =
      [("r1", 1000000000), ("r2", 1750000000)] ∧
    ¬ HoldsFor (750 * Millisecond) [Event.now 0, Event.lock 1 1 "r1" true none,
       Event.now 750000000, Event.lock 1 1 "r2" true none] := by
  refine ⟨by decide, by decide, by decide, by decide, ?_⟩
  intro h
  have h1 := h 750000000 (by decide) ("r1", 1000000000) (by decide)
  revert h1
  decide

/-! ## The existence check -/

/-- C17: `checkRows` issues one count query over `rowKeys`; when the query
fails with `e` it returns exactly `e`; when the query succeeds with count `c`
it returns "key not found" if and only if `c` differs from the number of
elements of `rowKeys`, duplicates included, and nil otherwise. -/
theorem checkRows_result (env : Env σ) (l : Lock) (s : St σ) :
    (checkRows env l s).2.trace = s.trace ++
      [Event.count l.rowKeys (env.countQuery l.keyspace l.table l.rowKeys s.world).1.1
        (env.countQuery l.keyspace l.table l.rowKeys s.world).1.2] ∧
    (∀ e, (env.countQuery l.keyspace l.table l.rowKeys s.world).1.2 = some e →
      (checkRows env l s).1 = some (Error.store e)) ∧
    ((env.countQuery l.keyspace l.table l.rowKeys s.world).1.2 = none →
      ((checkRows env l s).1 = some Error.keyNotFound ↔
        (env.countQuery l.keyspace l.table l.rowKeys s.world).1.1 ≠ (l.rowKeys.length : Int)) ∧
      ((env.countQuery l.keyspace l.table l.rowKeys s.world).1.1 = (l.rowKeys.length : Int) →
        (checkRows env l s).1 = none)) := by
  refine ⟨?_, ?_, ?_⟩
  · rcases h : (env.countQuery l.keyspace l.table l.rowKeys s.world).1.2 with _ | f
    · by_cases hn : (env.countQuery l.keyspace l.table l.rowKeys s.world).1.1
          = (l.rowKeys.length : Int) <;> simp [checkRows, h, hn]
    · simp [checkRows, h]
  · intro e he
    rw [checkRows_fst, he]
  · intro he
    rw [checkRows_fst, he]
    by_cases hn : (env.countQuery l.keyspace l.table l.rowKeys s.world).1.1
        = (l.rowKeys.length : Int) <;> simp [hn]

/-- The row r1 asked for twice: the table holds it once, the count is 1 and
not 2, and `checkRows` returns "key not found"; and a count query that fails
with the store failure 3 makes `checkRows` return that failure. -/
theorem checkRows_result_witness :
    ((checkRows memEnv (newLock 1 "ks" "t" (30 * Second) ["r1", "r1"])
        (St.init (World.quiet ["r1"]))).1 = some Error.keyNotFound ↔
      (memEnv.countQuery "ks" "t" ["r1", "r1"] (World.quiet ["r1"])).1.1 ≠
        ((["r1", "r1"] : List Row).length : Int)) ∧
    (memEnv.countQuery "ks" "t" ["r1", "r1"] (World.quiet ["r1"])).1.1 = 1 ∧
    (checkRows memEnv (newLock 1 "ks" "t" (30 * Second) ["r1", "r1"])
        (St.init { World.quiet ["r1"] with faults := [some ⟨3⟩] })).1 =
      some (Error.store ⟨3⟩) :=
  ⟨((checkRows_result memEnv (newLock 1 "ks" "t" (30 * Second) ["r1", "r1"])
      (St.init (World.quiet ["r1"]))).2.2 (by decide)).1,
    by decide,
    (checkRows_result memEnv (newLock 1 "ks" "t" (30 * Second) ["r1", "r1"])
      (St.init { World.quiet ["r1"] with faults := [some ⟨3⟩] })).2.1 ⟨3⟩ (by decide)⟩

/-! ## The first row and the time budget -/

theorem checkRows_ne_errTimeout (env : Env σ) (l : Lock) (s : St σ) :
    (checkRows env l s).1 ≠ some Error.errTimeout := by
  rw [checkRows_fst]
  rcases (env.countQuery l.keyspace l.table l.rowKeys s.world).1.2 with _ | f
  · by_cases hn : (env.countQuery l.keyspace l.table l.rowKeys s.world).1.1
        = (l.rowKeys.length : Int) <;> simp [hn]
  · simp

theorem lockRow_ne_errTimeout (env : Env σ) (l : Lock) (k : Row) (s : St σ) :
    (lockRow env l k s).1.2 ≠ some Error.errTimeout := by
  obtain ⟨a, e, _, h⟩ := lockRow_trace env l k s
  rw [h]
  cases e <;> simp

/-- The calls of a run of `acquireRows`, appended to the trace. -/
theorem acquireRows_trace (env : Env σ) (l : Lock) (fuel i : Nat) (ks : List Row)
    (maxTime : Int) (s : St σ) :
    ∃ new, (acquireRows env l fuel i ks maxTime s).2.trace = s.trace ++ new := by
  obtain ⟨body, rel, h, _⟩ := acquireRows_shape env l fuel i ks maxTime s
  exact ⟨body ++ rel, h⟩

/-- While the first row is being claimed no pass ends with `errTimeout`: a run
from the first row that ends with `errTimeout` has other rows to claim and has
had its write on the first row applied. -/
theorem acquireRows_first_row (env : Env σ) (l : Lock) (fuel : Nat) (k : Row) (ks : List Row)
    (maxTime : Int) (s : St σ)
    (h : (acquireRows env l fuel 0 (k :: ks) maxTime s).1 = some (some Error.errTimeout)) :
    ks ≠ [] ∧ Event.lock (Duration.secondsInt l.ttl) l.lockID k true none ∈
      newEvents s (acquireRows env l fuel 0 (k :: ks) maxTime s).2 := by
  induction fuel generalizing maxTime s with
  | zero =>
    rw [acquireRows_zero] at h
    simp at h
  | succ fuel ih =>
    obtain ⟨a, e, hlt, hlr⟩ := lockRow_trace env l k (timeNow env s).2
    have hl1 : (lockRow env l k (timeNow env s).2).1.1 = a := by rw [hlr]
    have hl2 : (lockRow env l k (timeNow env s).2).1.2 = e.map Error.store := by rw [hlr]
    obtain ⟨n, f, hct, _⟩ := checkRows_trace env l (lockRow env l k (timeNow env s).2).2
    rcases acquireRows_cases env l fuel 0 k ks maxTime s with
      ⟨hi, _, _⟩ | ⟨_, ⟨err, he, h1⟩ | ⟨he, ha, h1⟩ | ⟨he, _, ⟨err, he1, h1⟩ | ⟨_, h1⟩⟩⟩
    · exact absurd rfl hi
    · rw [h1] at h
      simp at h
      rw [h] at he
      exact absurd he (lockRow_ne_errTimeout env l k _)
    · rw [h1] at h ⊢
      rw [hl2] at he
      rw [hl1] at ha
      have he0 : e = none := by
        cases e with
        | none => rfl
        | some e1 => simp at he
      subst he0 ha
      obtain ⟨new, hn⟩ := acquireRows_trace env l fuel (0 + 1) ks
        (if 0 = 0 then Time.add (timeNow env s).1 l.ttl else maxTime)
        (lockRow env l k (timeNow env s).2).2
      constructor
      · intro hks
        subst hks
        rw [acquireRows_nil] at h
        simp at h
      · rw [newEvents_of_append s _
          ([Event.now (timeNow env s).1,
            Event.lock (Duration.secondsInt l.ttl) l.lockID k true none] ++ new)
          (by rw [hn, hlt, timeNow_trace]; simp)]
        simp
    · rw [h1] at h
      simp at h
      rw [h] at he1
      exact absurd he1 (checkRows_ne_errTimeout env l _)
    · rw [h1] at h ⊢
      obtain ⟨hks, hmem⟩ := ih _ _ h
      refine ⟨hks, ?_⟩
      obtain ⟨new, hn⟩ := acquireRows_trace env l fuel 0 (k :: ks)
        (if 0 = 0 then Time.add (timeNow env s).1 l.ttl else maxTime)
        (timeSleep env RetryTime (checkRows env l (lockRow env l k (timeNow env s).2).2).2)
      rw [newEvents_of_append _ _ new hn] at hmem
      rw [newEvents_of_append s _
        ([Event.now (timeNow env s).1, Event.lock (Duration.secondsInt l.ttl) l.lockID k a e,
          Event.count l.rowKeys n f, Event.sleep RetryTime] ++ new)
        (by rw [hn, timeSleep_trace, hct, hlt, timeNow_trace]; simp)]
      simp [hmem]

/-- When no attempt ends with `errTimeout`, the loop of `Acquire` makes one
attempt. -/
theorem acquireAttempts_one (env : Env σ) (fuel : Nat) (l : Lock) (n : Nat) (s : St σ)
    (h : (acquireLoop env fuel l s).1 ≠ some (some Error.errTimeout)) :
    acquireAttempts env fuel l (n + 1) s = acquireAttempts env fuel l 1 s := by
  rw [acquireAttempts_succ, acquireAttempts_succ]
  rcases ho : (acquireLoop env fuel l s).1 with _ | _ | err
  · rfl
  · rfl
  · simp only []
    have he : err ≠ Error.errTimeout := by
      intro he
      rw [ho, he] at h
      exact h rfl
    rw [if_neg he, if_neg he]

/-- C18: whatever the clock and the store do, an attempt that ends with
`errTimeout` has had its write on the first row applied before, so the signal
is not raised while the first row is being claimed; an attempt over a single
row never ends with `errTimeout`; and `Acquire` over a single row makes one
attempt, however many it is allowed. -/
theorem single_row_never_restarts (env : Env σ) (fuel : Nat) (s : St σ) :
    (∀ (l : Lock) (k : Row) (ks : List Row), l.rowKeys = k :: ks →
      (acquireLoop env fuel l s).1 = some (some Error.errTimeout) →
      ks ≠ [] ∧ Event.lock (Duration.secondsInt l.ttl) l.lockID k true none ∈
        newEvents s (acquireLoop env fuel l s).2) ∧
    (∀ (l : Lock) (k : Row), l.rowKeys = [k] →
      (acquireLoop env fuel l s).1 ≠ some (some Error.errTimeout)) ∧
    ∀ (attempts : Nat) (keyspace table : String) (timeout : Int) (k : Row),
      Acquire env (attempts + 1) fuel keyspace table timeout [k] s =
        Acquire env 1 fuel keyspace table timeout [k] s := by
  have h1 : ∀ (l : Lock) (k : Row) (ks : List Row), l.rowKeys = k :: ks →
      (acquireLoop env fuel l s).1 = some (some Error.errTimeout) →
      ks ≠ [] ∧ Event.lock (Duration.secondsInt l.ttl) l.lockID k true none ∈
        newEvents s (acquireLoop env fuel l s).2 := by
    intro l k ks hl h
    unfold acquireLoop at h ⊢
    rw [hl] at h ⊢
    exact acquireRows_first_row env l fuel k ks 0 s h
  refine ⟨h1, ?_, ?_⟩
  · intro l k hl h
    exact (h1 l k [] hl h).1 rfl
  · intro attempts keyspace table timeout k
    rw [Acquire_eq, Acquire_eq]
    apply acquireAttempts_one
    intro h
    unfold acquireLoop at h
    exact (acquireRows_first_row env _ fuel k [] 0 _ h).1 rfl

/-- The row r1 is held by owner 77, who clears it while the lock polls and the
clock jumps by 100 seconds at each reading: the attempt of a lock with a
timeout of one second succeeds, and two attempts allowed are one attempt
made. -/
theorem single_row_never_restarts_witness :
    (acquireLoop memEnv 5 (newLock 1 "ks" "t" (1 * Second) ["r1"])
      (St.init { World.quiet ["r1"] with
        marker := fun _ => some 77
        ticks := [100 * Second, 100 * Second, 100 * Second]
        others := [[], [], [OtherOp.clear "r1" 77]] })).1 ≠ some (some Error.errTimeout) ∧
    (acquireLoop memEnv 5 (newLock 1 "ks" "t" (1 * Second) ["r1"])
      (St.init { World.quiet ["r1"] with
        marker := fun _ => some 77
        ticks := [100 * Second, 100 * Second, 100 * Second]
        others := [[], [], [OtherOp.clear "r1" 77]] })).1 = some none :=
  ⟨(single_row_never_restarts memEnv 5
      (St.init { World.quiet ["r1"] with
        marker := fun _ => some 77
        ticks := [100 * Second, 100 * Second, 100 * Second]
        others := [[], [], [OtherOp.clear "r1" 77]] })).2.1
      (newLock 1 "ks" "t" (1 * Second) ["r1"]) "r1" rfl,
    by decide⟩

/-! ## What `Release` does to the markers -/

/-- A run of `Release` in which no clear fails returns nil after one clear per
row, in order. -/
theorem releaseRows_no_failure (env : Env σ) (l : Lock) (rows : List Row) (s : St σ)
    (h : ∀ ev ∈ newEvents s (releaseRows env l rows s).2, ev.clearFailure = none) :
    (releaseRows env l rows s).1 = none ∧
    (newEvents s (releaseRows env l rows s).2).map Event.cleared =
      rows.map (fun k => some (k, l.lockID)) := by
  induction rows generalizing s with
  | nil =>
    rw [releaseRows_nil]
    simp [newEvents]
  | cons k ks ih =>
    rcases hq : (env.releaseQuery l.keyspace l.table k l.lockID s.world).1.2 with _ | f
    · have hr : releaseRows env l (k :: ks) s = releaseRows env l ks
          ⟨(env.releaseQuery l.keyspace l.table k l.lockID s.world).2,
            s.trace ++ [Event.clear k l.lockID
              (env.releaseQuery l.keyspace l.table k l.lockID s.world).1.1 none]⟩ := by
        rw [releaseRows_cons]
        simp only [hq]
      obtain ⟨rel, hrel, _, _⟩ := releaseRows_shape env l ks
          ⟨(env.releaseQuery l.keyspace l.table k l.lockID s.world).2,
            s.trace ++ [Event.clear k l.lockID
              (env.releaseQuery l.keyspace l.table k l.lockID s.world).1.1 none]⟩
      have hn := newEvents_step s _ _ _ rel rfl hrel
      rw [hr] at h ⊢
      rw [hn] at h ⊢
      obtain ⟨h1, h2⟩ := ih _ (fun ev hev => h ev (List.mem_cons_of_mem _ hev))
      refine ⟨h1, ?_⟩
      rw [List.map_cons, List.map_cons, h2]
      rfl
    · exfalso
      have hr : releaseRows env l (k :: ks) s = (some (Error.store f),
          ⟨(env.releaseQuery l.keyspace l.table k l.lockID s.world).2,
            s.trace ++ [Event.clear k l.lockID
              (env.releaseQuery l.keyspace l.table k l.lockID s.world).1.1 (some f)]⟩) := by
        rw [releaseRows_cons]
        simp only [hq]
      have hn : newEvents s (releaseRows env l (k :: ks) s).2 = [Event.clear k l.lockID
          (env.releaseQuery l.keyspace l.table k l.lockID s.world).1.1 (some f)] := by
        rw [hr]
        exact newEvents_of_append _ _ _ rfl
      have := h _ (by rw [hn]; exact List.mem_singleton_self _)
      simp [Event.clearFailure] at this

theorem World.releaseQuery_quiet (w : World) (row : Row) (id : UUID) (hf : w.NoFaults)
    (ho : w.others = []) :
    (w.releaseQuery row id).1.2 = none ∧ (w.releaseQuery row id).2.others = [] ∧
    ∀ r, (w.releaseQuery row id).2.marker r =
      if r = row ∧ w.marker r = some id then none else w.marker r := by
  have ha := w.arrive_noFaults hf
  obtain ⟨h1, h2⟩ := w.arrive_quiet ho
  by_cases hc : w.arrive.2.marker row = some id
  · rw [w.releaseQuery_applied row id ha hc]
    refine ⟨rfl, h2, fun r => ?_⟩
    rw [h1] at hc
    by_cases hr : r = row
    · subst hr
      simp [hc]
    · simp [hr, h1]
  · rw [w.releaseQuery_rejected row id ha hc]
    refine ⟨rfl, h2, fun r => ?_⟩
    rw [h1] at hc ⊢
    by_cases hr : r = row
    · subst hr
      simp [hc]
    · simp [hr]

/-- With no store failure and no other client at work, `Release` returns nil,
takes the lock id off the rows it goes through and changes no other marker. -/
theorem releaseRows_quiet (l : Lock) (rows : List Row) (s : St World)
    (hf : s.world.NoFaults) (ho : s.world.others = []) :
    (releaseRows memEnv l rows s).1 = none ∧
    (releaseRows memEnv l rows s).2.world.others = [] ∧
    ∀ r, (releaseRows memEnv l rows s).2.world.marker r =
      if r ∈ rows ∧ s.world.marker r = some l.lockID then none else s.world.marker r := by
  induction rows generalizing s with
  | nil =>
    rw [releaseRows_nil]
    exact ⟨rfl, ho, by simp⟩
  | cons k ks ih =>
    obtain ⟨h1, h2, h3⟩ := s.world.releaseQuery_quiet k l.lockID hf ho
    have hl : s.world.Later (memEnv.releaseQuery l.keyspace l.table k l.lockID s.world).2 :=
      s.world.releaseQuery_later k l.lockID
    have h1a : (memEnv.releaseQuery l.keyspace l.table k l.lockID s.world).1.2 = none := h1
    rw [releaseRows_cons, h1a]
    simp only []
    obtain ⟨a, b, c⟩ := ih
      ⟨(memEnv.releaseQuery l.keyspace l.table k l.lockID s.world).2,
        s.trace ++ [Event.clear k l.lockID
          (memEnv.releaseQuery l.keyspace l.table k l.lockID s.world).1.1 none]⟩
      (hl.noFaults hf) h2
    refine ⟨a, b, fun r => ?_⟩
    rw [c r]
    have h3r : (memEnv.releaseQuery l.keyspace l.table k l.lockID s.world).2.marker r =
        if r = k ∧ s.world.marker r = some l.lockID then none else s.world.marker r := h3 r
    simp only [h3r]
    by_cases hr : r = k
    · subst hr
      by_cases hm : s.world.marker r = some l.lockID <;> simp [hm]
    · by_cases hm : s.world.marker r = some l.lockID <;> simp [hr, hm]

/-- C11 fails on the code: `Release` runs each conditional clear with
`ScanCAS()` and no destination, so a clear that is not applied on a row of the
table comes back from the client as an error.  The lock with id 1 over r1 and
r2, of which r1 carries the id 77 and r2 the lock's own, on a store that
reports no failure: `Release` issues the clear of r1 alone, returns the
client's error instead of nil and leaves the marker on r2; the conditional
write of the same lock on r1, which has a destination for the previous value,
is answered without error.  With both markers the lock's own, `Release`
returns nil and leaves both rows without marker. -/
theorem Release_fails_on_unapplied_clear :
    ((Release scanEnv (newLock 1 "ks" "t" (30 * Second) ["r1", "r2"])
        (St.init { World.quiet ["r1", "r2"] with
          marker := fun r => if r = "r1" then some 77 else some 1 })).1 =
        some (Error.store scanError) ∧
      (Release scanEnv (newLock 1 "ks" "t" (30 * Second) ["r1", "r2"])
        (St.init { World.quiet ["r1", "r2"] with
          marker := fun r => if r = "r1" then some 77 else some 1 })).2.trace =
        [Event.clear "r1" 1 false (some scanError)] ∧
      (Release scanEnv (newLock 1 "ks" "t" (30 * Second) ["r1", "r2"])
        (St.init { World.quiet ["r1", "r2"] with
          marker := fun r => if r = "r1" then some 77 else some 1 })).2.world.marker "r2" =
        some 1 ∧
      (World.quiet ["r1", "r2"]).NoFaults) ∧
    (lockRow scanEnv (newLock 1 "ks" "t" (30 * Second) ["r1", "r2"]) "r1"
      (St.init { World.quiet ["r1", "r2"] with
        marker := fun r => if r = "r1" then some 77 else some 1 })).1 = (false, none) ∧
    (Release scanEnv (newLock 1 "ks" "t" (30 * Second) ["r1", "r2"])
        (St.init { World.quiet ["r1", "r2"] with marker := fun _ => some 1 })).1 = none ∧
    (∀ r ∈ (["r1", "r2"] : List Row),
      (Release scanEnv (newLock 1 "ks" "t" (30 * Second) ["r1", "r2"])
        (St.init { World.quiet ["r1", "r2"] with
          marker := fun _ => some 1 })).2.world.marker r = none) := by
  refine ⟨⟨?_, ?_, ?_, ?_⟩, ?_, ?_, ?_⟩
  · decide
  · decide
  · decide
  · decide
  · decide
  · decide
  · decide

/-! ## The calls of one pass of the loop -/

theorem newEvents_append_left (s s1 s2 : St σ) (p : List Event) (h1 : s1.trace = s.trace ++ p)
    (h2 : ∃ T, s2.trace = s1.trace ++ T) : newEvents s s2 = p ++ newEvents s1 s2 := by
  obtain ⟨T, hT⟩ := h2
  rw [newEvents_of_append s1 s2 T hT,
    newEvents_of_append s s2 (p ++ T) (by rw [hT, h1]; simp)]

theorem Release_trace (env : Env σ) (l : Lock) (s : St σ) :
    ∃ T, (Release env l s).2.trace = s.trace ++ T := by
  obtain ⟨rel, h, _⟩ := releaseRows_shape env l l.rowKeys s
  exact ⟨rel, h⟩

/-- The calls of `Release` are conditional clears. -/
theorem Release_events (env : Env σ) (l : Lock) (s : St σ) :
    ∀ ev ∈ newEvents s (Release env l s).2, ev.isClear = true := by
  obtain ⟨rel, h, h1, _⟩ := releaseRows_shape env l l.rowKeys s
  have : newEvents s (Release env l s).2 = rel := newEvents_of_append _ _ _ h
  rw [this]
  exact fun ev hev => (h1 ev hev).1

/-- The calls of one pass of the inner loop of `acquireLoop`, in each of the
five ways through it, followed by the calls of what comes next: the `Release`
of an attempt that ends, or the rest of the loop. -/
theorem acquireRows_pass (env : Env σ) (l : Lock) (fuel i : Nat) (k : Row) (ks : List Row)
    (maxTime : Int) (s : St σ) :
    ∃ a e n f,
    (lockRow env l k (timeNow env s).2).1 = (a, e.map Error.store) ∧
    ((checkRows env l (lockRow env l k (timeNow env s).2).2).1 =
      match f with
      | some f0 => some (Error.store f0)
      | none => if n ≠ (l.rowKeys.length : Int) then some Error.keyNotFound else none) ∧
    ((i ≠ 0 ∧ Time.sub maxTime (timeNow env s).1 < l.timeout ∧
      (acquireRows env l (fuel + 1) i (k :: ks) maxTime s).1 = some (some Error.errTimeout) ∧
      newEvents s (acquireRows env l (fuel + 1) i (k :: ks) maxTime s).2 =
        Event.now (timeNow env s).1 ::
          newEvents (timeNow env s).2 (Release env l (timeNow env s).2).2) ∨
    (¬ (i ≠ 0 ∧ Time.sub maxTime (timeNow env s).1 < l.timeout) ∧
      ((∃ e0, e = some e0 ∧
        (acquireRows env l (fuel + 1) i (k :: ks) maxTime s).1 =
          some (some (Error.store e0)) ∧
        newEvents s (acquireRows env l (fuel + 1) i (k :: ks) maxTime s).2 =
          Event.now (timeNow env s).1 ::
          Event.lock (Duration.secondsInt l.ttl) l.lockID k a e ::
            newEvents (lockRow env l k (timeNow env s).2).2
              (Release env l (lockRow env l k (timeNow env s).2).2).2) ∨
      (e = none ∧ a = true ∧
        acquireRows env l (fuel + 1) i (k :: ks) maxTime s =
          acquireRows env l fuel (i + 1) ks
            (if i = 0 then Time.add (timeNow env s).1 l.ttl else maxTime)
            (lockRow env l k (timeNow env s).2).2 ∧
        newEvents s (acquireRows env l (fuel + 1) i (k :: ks) maxTime s).2 =
          Event.now (timeNow env s).1 ::
          Event.lock (Duration.secondsInt l.ttl) l.lockID k true none ::
            newEvents (lockRow env l k (timeNow env s).2).2
              (acquireRows env l fuel (i + 1) ks
                (if i = 0 then Time.add (timeNow env s).1 l.ttl else maxTime)
                (lockRow env l k (timeNow env s).2).2).2) ∨
      (e = none ∧ a = false ∧
        ((∃ err, ((err = Error.keyNotFound ∧ f = none ∧ n ≠ (l.rowKeys.length : Int)) ∨
            ∃ f0, f = some f0 ∧ err = Error.store f0) ∧
          (acquireRows env l (fuel + 1) i (k :: ks) maxTime s).1 = some (some err) ∧
          newEvents s (acquireRows env l (fuel + 1) i (k :: ks) maxTime s).2 =
            Event.now (timeNow env s).1 ::
            Event.lock (Duration.secondsInt l.ttl) l.lockID k false none ::
            Event.count l.rowKeys n f ::
              newEvents (checkRows env l (lockRow env l k (timeNow env s).2).2).2
                (Release env l (checkRows env l (lockRow env l k (timeNow env s).2).2).2).2) ∨
        (f = none ∧ n = (l.rowKeys.length : Int) ∧
          acquireRows env l (fuel + 1) i (k :: ks) maxTime s =
            acquireRows env l fuel i (k :: ks)
              (if i = 0 then Time.add (timeNow env s).1 l.ttl else maxTime)
              (timeSleep env RetryTime
                (checkRows env l (lockRow env l k (timeNow env s).2).2).2) ∧
          newEvents s (acquireRows env l (fuel + 1) i (k :: ks) maxTime s).2 =
            Event.now (timeNow env s).1 ::
            Event.lock (Duration.secondsInt l.ttl) l.lockID k false none ::
            Event.count l.rowKeys n none ::
            Event.sleep RetryTime ::
              newEvents
                (timeSleep env RetryTime
                  (checkRows env l (lockRow env l k (timeNow env s).2).2).2)
                (acquireRows env l fuel i (k :: ks)
                  (if i = 0 then Time.add (timeNow env s).1 l.ttl else maxTime)
                  (timeSleep env RetryTime
                    (checkRows env l (lockRow env l k (timeNow env s).2).2).2)).2)))))) := by
  obtain ⟨a, e, hlt, hlr⟩ := lockRow_trace env l k (timeNow env s).2
  have hl1 : (lockRow env l k (timeNow env s).2).1.1 = a := by rw [hlr]
  have hl2 : (lockRow env l k (timeNow env s).2).1.2 = e.map Error.store := by rw [hlr]
  obtain ⟨n, f, hct, hcr⟩ := checkRows_trace env l (lockRow env l k (timeNow env s).2).2
  refine ⟨a, e, n, f, hlr, hcr, ?_⟩
  rcases acquireRows_cases env l fuel i k ks maxTime s with
    ⟨hi, hlt0, h⟩ | ⟨hto, ⟨err, he, h⟩ | ⟨he, ha, h⟩ | ⟨he, ha, ⟨err, he1, h⟩ | ⟨he1, h⟩⟩⟩
  · refine Or.inl ⟨hi, hlt0, by rw [h], ?_⟩
    rw [h]
    exact newEvents_append_left s _ _ [Event.now (timeNow env s).1] (timeNow_trace env s)
      (Release_trace env l _)
  · refine Or.inr ⟨hto, Or.inl ?_⟩
    rw [hl2] at he
    cases e with
    | none => simp at he
    | some e0 =>
      simp at he
      subst he
      refine ⟨e0, rfl, by rw [h], ?_⟩
      rw [h]
      exact newEvents_append_left s _ _
        [Event.now (timeNow env s).1, Event.lock (Duration.secondsInt l.ttl) l.lockID k a (some e0)]
        (by rw [hlt, timeNow_trace]; simp) (Release_trace env l _)
  · refine Or.inr ⟨hto, Or.inr (Or.inl ?_)⟩
    rw [hl2] at he
    rw [hl1] at ha
    have he0 : e = none := by
      cases e with
      | none => rfl
      | some e1 => simp at he
    subst he0 ha
    refine ⟨rfl, rfl, h, ?_⟩
    rw [h]
    exact newEvents_append_left s _ _
      [Event.now (timeNow env s).1, Event.lock (Duration.secondsInt l.ttl) l.lockID k true none]
      (by rw [hlt, timeNow_trace]; simp) (acquireRows_trace env l _ _ _ _ _)
  · refine Or.inr ⟨hto, Or.inr (Or.inr ?_)⟩
    rw [hl2] at he
    rw [hl1] at ha
    have he0 : e = none := by
      cases e with
      | none => rfl
      | some e1 => simp at he
    subst he0 ha
    refine ⟨rfl, rfl, Or.inl ⟨err, ?_, by rw [h], ?_⟩⟩
    · rw [hcr] at he1
      cases f with
      | none =>
        by_cases hn : n = (l.rowKeys.length : Int)
        · simp [hn] at he1
        · simp [hn] at he1
          exact Or.inl ⟨he1.symm, rfl, hn⟩
      | some f0 =>
        simp at he1
        exact Or.inr ⟨f0, rfl, he1.symm⟩
    · rw [h]
      exact newEvents_append_left s _ _
        [Event.now (timeNow env s).1,
          Event.lock (Duration.secondsInt l.ttl) l.lockID k false none,
          Event.count l.rowKeys n f]
        (by rw [hct, hlt, timeNow_trace]; simp) (Release_trace env l _)
  · refine Or.inr ⟨hto, Or.inr (Or.inr ?_)⟩
    rw [hl2] at he
    rw [hl1] at ha
    have he0 : e = none := by
      cases e with
      | none => rfl
      | some e1 => simp at he
    subst he0 ha
    have hfn : f = none ∧ n = (l.rowKeys.length : Int) := by
      rw [hcr] at he1
      cases f with
      | none =>
        by_cases hn : n = (l.rowKeys.length : Int)
        · exact ⟨rfl, hn⟩
        · simp [hn] at he1
      | some f0 => simp at he1
    obtain ⟨hf, hn⟩ := hfn
    subst hf
    refine ⟨rfl, rfl, Or.inr ⟨rfl, hn, h, ?_⟩⟩
    rw [h]
    exact newEvents_append_left s _ _
      [Event.now (timeNow env s).1,
        Event.lock (Duration.secondsInt l.ttl) l.lockID k false none,
        Event.count l.rowKeys n none, Event.sleep RetryTime]
      (by rw [timeSleep_trace, hct, hlt, timeNow_trace]; simp)
      (acquireRows_trace env l _ _ _ _ _)

/-! ## What the calls of a run carry -/

/-- A property of the calls that `acquireLoop` can make holds of every call of
a run. -/
theorem acquireRows_all (env : Env σ) (l : Lock) (P : Event → Prop)
    (hnow : ∀ t, P (Event.now t))
    (hlock : ∀ k a e, P (Event.lock (Duration.secondsInt l.ttl) l.lockID k a e))
    (hcount : ∀ n f, P (Event.count l.rowKeys n f))
    (hsleep : P (Event.sleep RetryTime))
    (hclear : ∀ ev, ev.isClear = true → P ev)
    (fuel i : Nat) (ks : List Row) (maxTime : Int) (s : St σ) :
    ∀ ev ∈ newEvents s (acquireRows env l fuel i ks maxTime s).2, P ev := by
  induction fuel generalizing i ks maxTime s with
  | zero =>
    cases ks with
    | nil => rw [acquireRows_nil]; simp [newEvents]
    | cons k ks => rw [acquireRows_zero]; simp [newEvents]
  | succ fuel ih =>
    cases ks with
    | nil => rw [acquireRows_nil]; simp [newEvents]
    | cons k ks =>
      have hrel : ∀ s1 : St σ, ∀ ev ∈ newEvents s1 (Release env l s1).2, P ev :=
        fun s1 ev hev => hclear ev (Release_events env l s1 ev hev)
      obtain ⟨a, e, n, f, _, _, h⟩ := acquireRows_pass env l fuel i k ks maxTime s
      rcases h with ⟨_, _, _, h⟩ | ⟨_, ⟨_, _, _, h⟩ | ⟨_, _, _, h⟩ |
        ⟨_, _, ⟨_, _, _, h⟩ | ⟨_, _, _, h⟩⟩⟩
      · rw [h]
        intro ev hev
        rcases List.mem_cons.1 hev with rfl | hev
        · exact hnow _
        · exact hrel _ ev hev
      · rw [h]
        intro ev hev
        simp only [List.mem_cons] at hev
        rcases hev with rfl | rfl | hev
        · exact hnow _
        · exact hlock _ _ _
        · exact hrel _ ev hev
      · rw [h]
        intro ev hev
        simp only [List.mem_cons] at hev
        rcases hev with rfl | rfl | hev
        · exact hnow _
        · exact hlock _ _ _
        · exact ih _ _ _ _ ev hev
      · rw [h]
        intro ev hev
        simp only [List.mem_cons] at hev
        rcases hev with rfl | rfl | rfl | hev
        · exact hnow _
        · exact hlock _ _ _
        · exact hcount _ _
        · exact hrel _ ev hev
      · rw [h]
        intro ev hev
        simp only [List.mem_cons] at hev
        rcases hev with rfl | rfl | rfl | rfl | hev
        · exact hnow _
        · exact hlock _ _ _
        · exact hcount _ _
        · exact hsleep
        · exact ih _ _ _ _ ev hev

theorem acquireAttempts_trace (env : Env σ) (fuel : Nat) (l : Lock) (n : Nat) (s : St σ) :
    ∃ T, (acquireAttempts env fuel l n s).2.trace = s.trace ++ T := by
  obtain ⟨pre, body, rel, _, h, _⟩ := acquireAttempts_shape env fuel l n s
  exact ⟨pre ++ (body ++ rel), h⟩

/-- A property of the calls that `acquireLoop` can make holds of every call of
the loop of `Acquire`. -/
theorem acquireAttempts_all (env : Env σ) (l : Lock) (P : Event → Prop)
    (hnow : ∀ t, P (Event.now t))
    (hlock : ∀ k a e, P (Event.lock (Duration.secondsInt l.ttl) l.lockID k a e))
    (hcount : ∀ n f, P (Event.count l.rowKeys n f))
    (hsleep : P (Event.sleep RetryTime))
    (hclear : ∀ ev, ev.isClear = true → P ev)
    (fuel n : Nat) (s : St σ) :
    ∀ ev ∈ newEvents s (acquireAttempts env fuel l n s).2, P ev := by
  induction n generalizing s with
  | zero => simp [acquireAttempts_zero, newEvents]
  | succ n ih =>
    have h1 : ∀ ev ∈ newEvents s (acquireLoop env fuel l s).2, P ev :=
      acquireRows_all env l P hnow hlock hcount hsleep hclear fuel 0 l.rowKeys 0 s
    rw [acquireAttempts_succ]
    rcases ho : (acquireLoop env fuel l s).1 with _ | _ | err
    · exact h1
    · exact h1
    · simp only []
      by_cases he : err = Error.errTimeout
      · rw [if_pos he]
        obtain ⟨T1, hT1⟩ := acquireRows_trace env l fuel 0 l.rowKeys 0 s
        have hT1a : (acquireLoop env fuel l s).2.trace = s.trace ++ T1 := hT1
        rw [newEvents_append_left s _ _ T1 hT1a (acquireAttempts_trace env fuel l n _)]
        intro ev hev
        rcases List.mem_append.1 hev with hev | hev
        · rw [newEvents_of_append _ _ _ hT1a] at h1
          exact h1 ev hev
        · exact ih _ ev hev
      · rw [if_neg he]
        exact h1

/-- Every conditional write of a run of `Acquire` carries, as its TTL, the
whole seconds of the `ttl` of the lock. -/
theorem Acquire_sentTTL (env : Env σ) (attempts fuel : Nat) (keyspace table : String)
    (timeout : Int) (rowKeys : List Row) (s : St σ) :
    ∀ ev ∈ newEvents s (Acquire env attempts fuel keyspace table timeout rowKeys s).2,
      ∀ x, ev.sentTTL = some x → x = Duration.secondsInt (Duration.mul timeout 2) := by
  rw [Acquire_eq]
  have hp := newEvents_append_left s
    ⟨(env.timeUUID s.world).2, s.trace ++ [Event.mint (env.timeUUID s.world).1]⟩
    (acquireAttempts env fuel
      (newLock (env.timeUUID s.world).1 keyspace table timeout rowKeys) attempts
      ⟨(env.timeUUID s.world).2, s.trace ++ [Event.mint (env.timeUUID s.world).1]⟩).2
    [Event.mint (env.timeUUID s.world).1] rfl (acquireAttempts_trace env fuel _ attempts _)
  rw [hp]
  intro ev hev x hx
  rcases List.mem_append.1 hev with hev | hev
  · simp at hev
    subst hev
    simp [Event.sentTTL] at hx
  · refine acquireAttempts_all env
      (newLock (env.timeUUID s.world).1 keyspace table timeout rowKeys)
      (fun ev => ∀ x, ev.sentTTL = some x → x = Duration.secondsInt (Duration.mul timeout 2))
      ?_ ?_ ?_ ?_ ?_ fuel attempts _ ev hev x hx
    · intro t x hx
      simp [Event.sentTTL] at hx
    · intro k a e x hx
      simp [Event.sentTTL] at hx
      rw [← hx]
      rfl
    · intro n f x hx
      simp [Event.sentTTL] at hx
    · intro x hx
      simp [Event.sentTTL] at hx
    · intro ev hc x hx
      cases ev <;> simp_all [Event.isClear, Event.sentTTL]

/-! ## The expiry sent to the store -/

/-- C13, as the code has it: for a timeout that is positive and below 2^62
nanoseconds and whose double is a whole number `n` of seconds, the TTL sent
with every conditional write of a run of `Acquire` is `n` seconds, which is
the `ttl` of the lock, twice the timeout. -/
theorem expiry_sent_whole_seconds (env : Env σ) (attempts fuel : Nat)
    (keyspace table : String) (timeout : Int) (rowKeys : List Row) (s : St σ) (n : Int)
    (h0 : 0 < timeout) (h1 : timeout < 2 ^ 62) (hn : 2 * timeout = n * Second) :
    ∀ ev ∈ newEvents s (Acquire env attempts fuel keyspace table timeout rowKeys s).2,
      ∀ x, ev.sentTTL = some x →
        x * Second = 2 * timeout ∧
        ∀ id, x * Second = (newLock id keyspace table timeout rowKeys).ttl := by
  intro ev hev x hx
  have h := Acquire_sentTTL env attempts fuel keyspace table timeout rowKeys s ev hev x hx
  have httl := ttl_of_range timeout h0 h1
  have hx2 : x * Second = 2 * timeout := by
    rw [h, httl, hn]
    unfold Duration.secondsInt
    rw [Int.mul_tdiv_cancel _ (by decide)]
  refine ⟨hx2, fun id => ?_⟩
  rw [hx2]
  exact httl.symm

/-- A timeout of 30 seconds: the two conditional writes carry 60 seconds. -/
theorem expiry_sent_whole_seconds_witness :
    (0 : Int) < 30 * Second ∧ 30 * Second < 2 ^ 62 ∧ 2 * (30 * Second) = 60 * Second ∧
    newEvents (St.init (World.quiet ["r1", "r2"]))
        (Acquire memEnv 1 5 "ks" "t" (30 * Second) ["r1", "r2"]
          (St.init (World.quiet ["r1", "r2"]))).2 =
      [Event.mint 1, Event.now 0, Event.lock 60 1 "r1" true none,
       Event.now 0, Event.lock 60 1 "r2" true none] ∧
    ∀ ev ∈ newEvents (St.init (World.quiet ["r1", "r2"]))
        (Acquire memEnv 1 5 "ks" "t" (30 * Second) ["r1", "r2"]
          (St.init (World.quiet ["r1", "r2"]))).2,
      ∀ x, ev.sentTTL = some x →
        x * Second = 2 * (30 * Second) ∧
        ∀ id, x * Second = (newLock id "ks" "t" (30 * Second) ["r1", "r2"]).ttl :=
  ⟨by decide, by decide, by decide, by decide,
    expiry_sent_whole_seconds memEnv 1 5 "ks" "t" (30 * Second) ["r1", "r2"]
      (St.init (World.quiet ["r1", "r2"])) 60 (by decide) (by decide) (by decide)⟩

/-- C13 fails where the `ttl` is not a whole number of seconds and where the
product wraps around: a timeout of 750 milliseconds gives a `ttl` of 1.5
seconds and a TTL sent of 1 second; a timeout of 2^62 nanoseconds gives a TTL
sent of -9223372036 seconds. -/
theorem expiry_sent_differs_from_ttl :
    (newEvents (St.init (World.quiet ["r1"]))
        (Acquire memEnv 1 5 "ks" "t" (750 * Millisecond) ["r1"]
          (St.init (World.quiet ["r1"]))).2 =
      [Event.mint 1, Event.now 0, Event.lock 1 1 "r1" true none] ∧
      (newLock 1 "ks" "t" (750 * Millisecond) ["r1"]).ttl = 1500000000 ∧
      (1 : Int) * Second ≠ 2 * (750 * Millisecond)) ∧
    (newEvents (St.init (World.quiet ["r1"]))
        (Acquire memEnv 1 5 "ks" "t" (2 ^ 62) ["r1"] (St.init (World.quiet ["r1"]))).2 =
      [Event.mint 1, Event.now 0, Event.lock (-9223372036) 1 "r1" true none] ∧
      (-9223372036 : Int) * Second ≠ 2 * 2 ^ 62) := by
  decide

/-! ## The order of the calls of an attempt -/

theorem chain_of_clears (l : Lock) (rel : List Event) (h : ∀ ev ∈ rel, ev.isClear = true) :
    List.Chain' (NextCall l) rel := by
  induction rel with
  | nil => exact List.chain'_nil
  | cons x rel ih =>
    refine (ih (fun ev hev => h ev (by simp [hev]))).cons' ?_
    intro y hy
    have hx := h x (by simp)
    have hy1 : y.isClear = true := by
      cases rel with
      | nil => simp at hy
      | cons z rel =>
        simp at hy
        subst hy
        exact h _ (by simp)
    cases x <;> simp [Event.isClear] at hx
    exact hy1

theorem getLast?_cons_cases {α : Type} (x : α) (rest : List α) :
    ∀ y ∈ (x :: rest).getLast?, (rest = [] ∧ y = x) ∨ y ∈ rest.getLast? := by
  intro y hy
  cases rest with
  | nil =>
    simp at hy
    exact Or.inl ⟨rfl, hy.symm⟩
  | cons z rest =>
    rw [List.getLast?_cons_cons] at hy
    exact Or.inr hy

theorem clears_head (rel : List Event) (h : ∀ ev ∈ rel, ev.isClear = true) :
    ∀ y ∈ rel.head?, y.isClear = true := by
  intro y hy
  exact h y (List.mem_of_mem_head? hy)

theorem clears_last (rel : List Event) (h : ∀ ev ∈ rel, ev.isClear = true) :
    ∀ y ∈ rel.getLast?, y.isClear = true := by
  intro y hy
  exact h y (List.mem_of_mem_getLast? hy)

/-- The calls of a run of `acquireLoop` follow one another as `NextCall` says;
the run starts with a reading of the clock and does not stop on a rejected
conditional write or on a count that equals the number of row keys. -/
theorem acquireRows_chain (env : Env σ) (l : Lock) (fuel i : Nat) (ks : List Row)
    (maxTime : Int) (s : St σ) :
    List.Chain' (NextCall l) (newEvents s (acquireRows env l fuel i ks maxTime s).2) ∧
    (∀ y ∈ (newEvents s (acquireRows env l fuel i ks maxTime s).2).head?,
      ∃ t, y = Event.now t) ∧
    ∀ y ∈ (newEvents s (acquireRows env l fuel i ks maxTime s).2).getLast?,
      y.isRejected = false ∧
      ∀ n, y = Event.count l.rowKeys n none → n ≠ (l.rowKeys.length : Int) := by
  induction fuel generalizing i ks maxTime s with
  | zero =>
    cases ks with
    | nil => rw [acquireRows_nil]; simp [newEvents]
    | cons k ks => rw [acquireRows_zero]; simp [newEvents]
  | succ fuel ih =>
    cases ks with
    | nil => rw [acquireRows_nil]; simp [newEvents]
    | cons k ks =>
      have hclearlast : ∀ y : Event, y.isClear = true → y.isRejected = false ∧
          ∀ n, y = Event.count l.rowKeys n none → n ≠ (l.rowKeys.length : Int) := by
        intro y hy
        cases y <;> simp_all [Event.isClear, Event.isRejected]
      obtain ⟨a, e, n, f, _, _, h⟩ := acquireRows_pass env l fuel i k ks maxTime s
      rcases h with ⟨_, _, _, h⟩ | ⟨_, ⟨e0, he, _, h⟩ | ⟨_, _, _, h⟩ |
        ⟨_, _, ⟨err, herr, _, h⟩ | ⟨_, hn, _, h⟩⟩⟩
      · rw [h]
        have hrel := Release_events env l (timeNow env s).2
        refine ⟨(chain_of_clears l _ hrel).cons' ?_, by simp, ?_⟩
        · intro y hy
          exact Or.inr (clears_head _ hrel y hy)
        · intro y hy
          rcases getLast?_cons_cases _ _ y hy with ⟨_, rfl⟩ | hy
          · simp [Event.isRejected]
          · exact hclearlast y (clears_last _ hrel y hy)
      · rw [h]
        subst he
        have hrel := Release_events env l (lockRow env l k (timeNow env s).2).2
        refine ⟨((chain_of_clears l _ hrel).cons' ?_).cons' ?_, by simp, ?_⟩
        · intro y hy
          simp only [NextCall]
          rw [if_neg (by simp)]
          exact clears_head _ hrel y hy
        · intro y hy
          simp at hy
          subst hy
          exact Or.inl ⟨_, _, _, rfl⟩
        · intro y hy
          rcases getLast?_cons_cases _ _ y hy with ⟨hnil, _⟩ | hy
          · simp at hnil
          · rcases getLast?_cons_cases _ _ y hy with ⟨_, rfl⟩ | hy
            · simp [Event.isRejected]
            · exact hclearlast y (clears_last _ hrel y hy)
      · rw [h]
        obtain ⟨c1, c2, c3⟩ := ih (i + 1) ks
          (if i = 0 then Time.add (timeNow env s).1 l.ttl else maxTime)
          (lockRow env l k (timeNow env s).2).2
        refine ⟨(c1.cons' ?_).cons' ?_, by simp, ?_⟩
        · intro y hy
          simp only [NextCall, if_true]
          exact c2 y hy
        · intro y hy
          simp at hy
          subst hy
          exact Or.inl ⟨_, _, _, rfl⟩
        · intro y hy
          rcases getLast?_cons_cases _ _ y hy with ⟨hnil, _⟩ | hy
          · simp at hnil
          · rcases getLast?_cons_cases _ _ y hy with ⟨_, rfl⟩ | hy
            · simp [Event.isRejected]
            · exact c3 y hy
      · rw [h]
        have hrel := Release_events env l
          (checkRows env l (lockRow env l k (timeNow env s).2).2).2
        have hbad : ¬ (f = none ∧ n = (l.rowKeys.length : Int)) := by
          rintro ⟨hf, hn⟩
          rcases herr with ⟨_, _, hne⟩ | ⟨f0, hf0, _⟩
          · exact hne hn
          · rw [hf] at hf0
            simp at hf0
        refine ⟨(((chain_of_clears l _ hrel).cons' ?_).cons' ?_).cons' ?_, by simp, ?_⟩
        · intro y hy
          simp only [NextCall]
          rw [if_neg hbad]
          exact clears_head _ hrel y hy
        · intro y hy
          simp at hy
          subst hy
          simp only [NextCall, if_true]
          rw [if_neg (by simp)]
          exact ⟨_, _, rfl⟩
        · intro y hy
          simp at hy
          subst hy
          exact Or.inl ⟨_, _, _, rfl⟩
        · intro y hy
          rcases getLast?_cons_cases _ _ y hy with ⟨hnil, _⟩ | hy
          · simp at hnil
          · rcases getLast?_cons_cases _ _ y hy with ⟨hnil, _⟩ | hy
            · simp at hnil
            · rcases getLast?_cons_cases _ _ y hy with ⟨_, rfl⟩ | hy
              · refine ⟨by simp [Event.isRejected], ?_⟩
                intro n1 hn1
                simp at hn1
                intro hlen
                exact hbad ⟨hn1.2, by rw [hn1.1]; exact hlen⟩
              · exact hclearlast y (clears_last _ hrel y hy)
      · rw [h]
        obtain ⟨c1, c2, c3⟩ := ih i (k :: ks)
          (if i = 0 then Time.add (timeNow env s).1 l.ttl else maxTime)
          (timeSleep env RetryTime (checkRows env l (lockRow env l k (timeNow env s).2).2).2)
        refine ⟨(((c1.cons' ?_).cons' ?_).cons' ?_).cons' ?_, by simp, ?_⟩
        · intro y hy
          simp only [NextCall]
          exact c2 y hy
        · intro y hy
          simp at hy
          subst hy
          simp [NextCall, hn]
        · intro y hy
          simp at hy
          subst hy
          simp only [NextCall, if_true]
          rw [if_neg (by simp)]
          exact ⟨_, _, rfl⟩
        · intro y hy
          simp at hy
          subst hy
          exact Or.inl ⟨_, _, _, rfl⟩
        · intro y hy
          rcases getLast?_cons_cases _ _ y hy with ⟨hnil, _⟩ | hy
          · simp at hnil
          · rcases getLast?_cons_cases _ _ y hy with ⟨hnil, _⟩ | hy
            · simp at hnil
            · rcases getLast?_cons_cases _ _ y hy with ⟨hnil, _⟩ | hy
              · simp at hnil
              · rcases getLast?_cons_cases _ _ y hy with ⟨_, rfl⟩ | hy
                · simp [Event.isRejected]
                · exact c3 y hy

theorem chain_pair {α : Type} (R : α → α → Prop) (l pre post : List α) (a b : α)
    (h : List.Chain' R l) (hl : l = pre ++ a :: b :: post) : R a b := by
  have hinf : [a, b] <:+: l := ⟨pre, post, by rw [hl]; simp⟩
  exact List.chain'_pair.1 <| List.Chain'.infix h hinf

theorem NextCall.count_iff (l : Lock) (a b : Event) (h : NextCall l a b) :
    b.isCount = true ↔ a.isRejected = true := by
  cases a with
  | mint id => exact absurd h (by simp [NextCall])
  | now t =>
    simp only [NextCall] at h
    rcases h with ⟨k, ap, e, rfl⟩ | h
    · simp [Event.isCount, Event.isRejected]
    · cases b <;> simp_all [Event.isClear, Event.isCount, Event.isRejected]
  | lock ttl id row ap e =>
    simp only [NextCall] at h
    cases e with
    | none =>
      cases ap with
      | true =>
        simp at h
        obtain ⟨t, rfl⟩ := h
        simp [Event.isCount, Event.isRejected]
      | false =>
        simp at h
        obtain ⟨n, f, rfl⟩ := h
        simp [Event.isCount, Event.isRejected]
    | some e0 =>
      simp at h
      cases b <;> simp_all [Event.isClear, Event.isCount, Event.isRejected]
  | clear row id ap e =>
    simp only [NextCall] at h
    cases b <;> simp_all [Event.isClear, Event.isCount, Event.isRejected]
  | count rows n f =>
    simp only [NextCall] at h
    by_cases hc : f = none ∧ n = (l.rowKeys.length : Int)
    · rw [if_pos hc] at h
      subst h
      simp [Event.isCount, Event.isRejected]
    · rw [if_neg hc] at h
      cases b <;> simp_all [Event.isClear, Event.isCount, Event.isRejected]
  | sleep d =>
    simp only [NextCall] at h
    obtain ⟨t, rfl⟩ := h
    simp [Event.isCount, Event.isRejected]

/-! ## When the existence check is issued -/

/-- C14: in every attempt, whatever the collaborators do, a call is the count
query of the existence check if and only if the call just before it is a
conditional write that returned without error and was not applied: the check
comes once after each such write and never after a write that was applied;
no attempt stops on a rejected write or starts with a check.  In particular,
when the marker of r1 goes from held to absent between two conditional writes
on it, the second write applies and the attempt moves on to r2 without a
further check. -/
theorem check_follows_rejected_write (env : Env σ) (l : Lock) (fuel : Nat) (s : St σ) :
    (∀ pre ev nxt post, newEvents s (acquireLoop env fuel l s).2 = pre ++ ev :: nxt :: post →
      (nxt.isCount = true ↔ ev.isRejected = true)) ∧
    (∀ pre ev, newEvents s (acquireLoop env fuel l s).2 = pre ++ [ev] →
      ev.isRejected = false) ∧
    (∀ ev post, newEvents s (acquireLoop env fuel l s).2 = ev :: post → ev.isCount = false) ∧
    (acquireLoop memEnv 5 (newLock 1 "ks" "t" (30 * Second) ["r1", "r2"])
      (St.init { World.quiet ["r1", "r2"] with
        marker := fun r => if r = "r1" then some 77 else none
        others := [[], [], [OtherOp.clear "r1" 77]] })).2.trace =
      [Event.now 0, Event.lock 60 1 "r1" false none, Event.count ["r1", "r2"] 2 none,
       Event.sleep 500000000, Event.now 500000000, Event.lock 60 1 "r1" true none,
       Event.now 500000000, Event.lock 60 1 "r2" true none] := by
  obtain ⟨c1, c2, c3⟩ := acquireRows_chain env l fuel 0 l.rowKeys 0 s
  have hloop : acquireLoop env fuel l s = acquireRows env l fuel 0 l.rowKeys 0 s := rfl
  rw [← hloop] at c1 c2 c3
  refine ⟨?_, ?_, ?_, by decide⟩
  · intro pre ev nxt post h
    exact NextCall.count_iff l ev nxt (chain_pair _ _ pre post ev nxt c1 h)
  · intro pre ev h
    exact (c3 ev (by rw [h]; simp)).1
  · intro ev post h
    obtain ⟨t, ht⟩ := c2 ev (by rw [h]; simp)
    rw [ht]
    rfl

/-- The run in which r1 is freed between two writes: the check follows the
rejected write and does not follow the applied one. -/
theorem check_follows_rejected_write_witness :
    ((Event.count ["r1", "r2"] 2 none).isCount = true ↔
      (Event.lock 60 1 "r1" false none).isRejected = true) ∧
    ((Event.now 500000000).isCount = true ↔
      (Event.lock 60 1 "r1" true none).isRejected = true) :=
  ⟨(check_follows_rejected_write memEnv (newLock 1 "ks" "t" (30 * Second) ["r1", "r2"]) 5
      (St.init { World.quiet ["r1", "r2"] with
        marker := fun r => if r = "r1" then some 77 else none
        others := [[], [], [OtherOp.clear "r1" 77]] })).1
      [Event.now 0] (Event.lock 60 1 "r1" false none) (Event.count ["r1", "r2"] 2 none)
      [Event.sleep 500000000, Event.now 500000000, Event.lock 60 1 "r1" true none,
       Event.now 500000000, Event.lock 60 1 "r2" true none] (by decide),
    (check_follows_rejected_write memEnv (newLock 1 "ks" "t" (30 * Second) ["r1", "r2"]) 5
      (St.init { World.quiet ["r1", "r2"] with
        marker := fun r => if r = "r1" then some 77 else none
        others := [[], [], [OtherOp.clear "r1" 77]] })).1
      [Event.now 0, Event.lock 60 1 "r1" false none, Event.count ["r1", "r2"] 2 none,
       Event.sleep 500000000, Event.now 500000000]
      (Event.lock 60 1 "r1" true none) (Event.now 500000000)
      [Event.lock 60 1 "r2" true none] (by decide)⟩

/-! ## The order in which rows are claimed -/

theorem split_head {α : Type} (x ev : α) (c pre post : List α) (h : x :: c = pre ++ ev :: post) :
    (pre = [] ∧ ev = x ∧ post = c) ∨ ∃ pre1, pre = x :: pre1 ∧ c = pre1 ++ ev :: post := by
  rcases List.cons_eq_append_iff.1 h with ⟨h1, h2⟩ | ⟨a, h1, h2⟩
  · simp at h2
    exact Or.inl ⟨h1, h2.1, h2.2⟩
  · exact Or.inr ⟨a, h1, h2⟩

theorem InOrder.of_no_lock (ks : List Row) (T : List Event)
    (h : ∀ ev ∈ T, ev.lockedRow = none) : InOrder ks T := by
  intro pre ev post hT k hk
  have := h ev (by rw [hT]; simp)
  rw [this] at hk
  simp at hk

theorem InOrder.of_clears (ks : List Row) (T : List Event)
    (h : ∀ ev ∈ T, ev.isClear = true) : InOrder ks T := by
  apply InOrder.of_no_lock
  intro ev hev
  have := h ev hev
  cases ev <;> simp_all [Event.isClear, Event.lockedRow]

theorem InOrder.cons_skip (ks : List Row) (T : List Event) (x : Event)
    (h1 : x.isApplied = false) (h2 : x.lockedRow = none) (h : InOrder ks T) :
    InOrder ks (x :: T) := by
  intro pre ev post hT k hk
  rcases split_head x ev T pre post hT with ⟨_, h4, _⟩ | ⟨pre1, h3, h4⟩
  · rw [h4, h2] at hk
    simp at hk
  · subst h3
    have := h pre1 ev post h4 k hk
    simpa [List.countP_cons_of_neg, List.filter_cons, h1] using this

theorem InOrder.cons_rejected (k : Row) (ks : List Row) (T : List Event) (x : Event)
    (h1 : x.isApplied = false) (h2 : x.lockedRow = some k) (h : InOrder (k :: ks) T) :
    InOrder (k :: ks) (x :: T) := by
  intro pre ev post hT k1 hk
  rcases split_head x ev T pre post hT with ⟨h3, h4, _⟩ | ⟨pre1, h3, h4⟩
  · subst h3
    rw [h4, h2] at hk
    simp at hk
    simp [hk]
  · subst h3
    have := h pre1 ev post h4 k1 hk
    simpa [List.countP_cons_of_neg, List.filter_cons, h1] using this

theorem InOrder.cons_applied (k : Row) (ks : List Row) (T : List Event) (x : Event)
    (h1 : x.isApplied = true) (h2 : x.lockedRow = some k) (h : InOrder ks T) :
    InOrder (k :: ks) (x :: T) := by
  intro pre ev post hT k1 hk
  rcases split_head x ev T pre post hT with ⟨h3, h4, _⟩ | ⟨pre1, h3, h4⟩
  · subst h3
    rw [h4, h2] at hk
    simp at hk
    simp [hk]
  · subst h3
    obtain ⟨a, b⟩ := h pre1 ev post h4 k1 hk
    rw [List.countP_cons_of_pos _ _ h1]
    constructor
    · simpa using a
    · simp [List.filter_cons, h1, h2, b]

/-- The conditional writes of a run of `acquireLoop` go through the rows in
order. -/
theorem acquireRows_inOrder (env : Env σ) (l : Lock) (fuel i : Nat) (ks : List Row)
    (maxTime : Int) (s : St σ) :
    InOrder ks (newEvents s (acquireRows env l fuel i ks maxTime s).2) := by
  induction fuel generalizing i ks maxTime s with
  | zero =>
    cases ks with
    | nil =>
      rw [acquireRows_nil]
      exact InOrder.of_no_lock _ _ (by simp [newEvents])
    | cons k ks =>
      rw [acquireRows_zero]
      exact InOrder.of_no_lock _ _ (by simp [newEvents])
  | succ fuel ih =>
    cases ks with
    | nil =>
      rw [acquireRows_nil]
      exact InOrder.of_no_lock _ _ (by simp [newEvents])
    | cons k ks =>
      obtain ⟨a, e, n, f, _, _, h⟩ := acquireRows_pass env l fuel i k ks maxTime s
      rcases h with ⟨_, _, _, h⟩ | ⟨_, ⟨e0, he, _, h⟩ | ⟨_, _, _, h⟩ |
        ⟨_, _, ⟨_, _, _, h⟩ | ⟨_, _, _, h⟩⟩⟩
      · rw [h]
        exact InOrder.cons_skip _ _ _ rfl rfl (InOrder.of_clears _ _ (Release_events env l _))
      · rw [h]
        subst he
        refine InOrder.cons_skip _ _ _ rfl rfl (InOrder.cons_rejected k ks _ _ ?_ rfl
          (InOrder.of_clears _ _ (Release_events env l _)))
        cases a <;> rfl
      · rw [h]
        exact InOrder.cons_skip _ _ _ rfl rfl (InOrder.cons_applied k ks _ _ rfl rfl
          (ih _ _ _ _))
      · rw [h]
        exact InOrder.cons_skip _ _ _ rfl rfl (InOrder.cons_rejected k ks _ _ rfl rfl
          (InOrder.cons_skip _ _ _ rfl rfl (InOrder.of_clears _ _ (Release_events env l _))))
      · rw [h]
        exact InOrder.cons_skip _ _ _ rfl rfl (InOrder.cons_rejected k ks _ _ rfl rfl
          (InOrder.cons_skip _ _ _ rfl rfl (InOrder.cons_skip _ _ _ rfl rfl (ih _ _ _ _))))

/-- C16: within one attempt, whatever the collaborators do, every conditional
write is on the row of `rowKeys` whose index is the number of writes applied
so far in the attempt, and those applied writes are on the rows before it, in
order: the rows are written in the order given, each one again until its write
applies, and a row only after the write on the row before it has applied.
After a rejected write whose check counts as many rows as there are row keys,
the next call is a sleep of exactly `RetryTime`, the call after it the next
reading of the clock, and the conditional write that follows is on the same
row. -/
theorem rows_claimed_in_order (env : Env σ) (l : Lock) (fuel : Nat) (s : St σ) :
    (∀ pre ev post, newEvents s (acquireLoop env fuel l s).2 = pre ++ ev :: post →
      ∀ k, ev.lockedRow = some k →
        l.rowKeys[pre.countP Event.isApplied]? = some k ∧
        (pre.filter Event.isApplied).filterMap Event.lockedRow =
          l.rowKeys.take (pre.countP Event.isApplied)) ∧
    ∀ pre ttl id k n post,
      newEvents s (acquireLoop env fuel l s).2 =
        pre ++ Event.lock ttl id k false none :: Event.count l.rowKeys n none :: post →
      n = (l.rowKeys.length : Int) →
      ∃ rest, post = Event.sleep RetryTime :: rest ∧
        (∀ nxt rest1, rest = nxt :: rest1 → ∃ t, nxt = Event.now t) ∧
        ∀ t ev rest1, rest = Event.now t :: ev :: rest1 →
          ∀ k1, ev.lockedRow = some k1 → k1 = k := by
  have hord := acquireRows_inOrder env l fuel 0 l.rowKeys 0 s
  obtain ⟨c1, _, c3⟩ := acquireRows_chain env l fuel 0 l.rowKeys 0 s
  have hloop : acquireLoop env fuel l s = acquireRows env l fuel 0 l.rowKeys 0 s := rfl
  rw [← hloop] at hord c1 c3
  refine ⟨hord, ?_⟩
  intro pre ttl id k n post h hn
  cases post with
  | nil =>
    exfalso
    exact (c3 (Event.count l.rowKeys n none) (by rw [h]; simp)).2 n rfl hn
  | cons nxt rest =>
    have h1 : NextCall l (Event.count l.rowKeys n none) nxt :=
      chain_pair _ _ (pre ++ [Event.lock ttl id k false none]) rest _ _ c1 (by rw [h]; simp)
    simp [NextCall, hn] at h1
    subst h1
    refine ⟨rest, rfl, ?_, ?_⟩
    · intro nxt rest1 hr
      subst hr
      have h2 : NextCall l (Event.sleep RetryTime) nxt :=
        chain_pair _ _
          (pre ++ [Event.lock ttl id k false none, Event.count l.rowKeys n none]) rest1 _ _ c1
          (by rw [h]; simp)
      exact h2
    · intro t ev rest1 hr k1 hk1
      subst hr
      have a1 := (hord pre (Event.lock ttl id k false none) _ h k rfl).1
      have a2 := (hord
        (pre ++ [Event.lock ttl id k false none, Event.count l.rowKeys n none,
          Event.sleep RetryTime, Event.now t]) ev rest1 (by rw [h]; simp) k1 hk1).1
      have hc : (pre ++ [Event.lock ttl id k false none, Event.count l.rowKeys n none,
          Event.sleep RetryTime, Event.now t]).countP Event.isApplied =
          pre.countP Event.isApplied := by
        simp [List.countP_append, List.countP_cons, Event.isApplied]
      rw [hc, a1] at a2
      simp at a2
      exact a2.symm

/-- The run in which r1 is freed between two writes: the second write is on r1
again, after a sleep of `RetryTime`, and the third on r2. -/
theorem rows_claimed_in_order_witness :
    (["r1", "r2"] : List Row)[([Event.now 0, Event.lock 60 1 "r1" false none,
        Event.count ["r1", "r2"] 2 none, Event.sleep 500000000, Event.now 500000000,
        Event.lock 60 1 "r1" true none, Event.now 500000000].countP Event.isApplied)]? =
      some "r2" ∧
    ∃ rest, [Event.sleep 500000000, Event.now 500000000, Event.lock 60 1 "r1" true none,
        Event.now 500000000, Event.lock 60 1 "r2" true none] = Event.sleep RetryTime :: rest ∧
      (∀ nxt rest1, rest = nxt :: rest1 → ∃ t, nxt = Event.now t) ∧
      ∀ t ev rest1, rest = Event.now t :: ev :: rest1 →
        ∀ k1, ev.lockedRow = some k1 → k1 = "r1" :=
  ⟨((rows_claimed_in_order memEnv (newLock 1 "ks" "t" (30 * Second) ["r1", "r2"]) 5
      (St.init { World.quiet ["r1", "r2"] with
        marker := fun r => if r = "r1" then some 77 else none
        others := [[], [], [OtherOp.clear "r1" 77]] })).1
      [Event.now 0, Event.lock 60 1 "r1" false none, Event.count ["r1", "r2"] 2 none,
        Event.sleep 500000000, Event.now 500000000, Event.lock 60 1 "r1" true none,
        Event.now 500000000]
      (Event.lock 60 1 "r2" true none) [] (by decide) "r2" rfl).1,
    (rows_claimed_in_order memEnv (newLock 1 "ks" "t" (30 * Second) ["r1", "r2"]) 5
      (St.init { World.quiet ["r1", "r2"] with
        marker := fun r => if r = "r1" then some 77 else none
        others := [[], [], [OtherOp.clear "r1" 77]] })).2
      [Event.now 0] 60 1 "r1" 2
      [Event.sleep 500000000, Event.now 500000000, Event.lock 60 1 "r1" true none,
        Event.now 500000000, Event.lock 60 1 "r2" true none] (by decide) (by decide)⟩

/-! ## The time-budget rule -/

theorem split_skip (x : Event) (t : Int) (c p post : List Event) (hx : ∀ t1, x ≠ Event.now t1)
    (h : x :: c = p ++ Event.now t :: post) :
    ∃ p1, p = x :: p1 ∧ c = p1 ++ Event.now t :: post := by
  rcases split_head x (Event.now t) c p post h with ⟨_, h1, _⟩ | h1
  · exact absurd h1.symm (hx t)
  · exact h1

theorem clears_no_now (rel p post : List Event) (t : Int)
    (h : ∀ ev ∈ rel, ev.isClear = true) (hs : rel = p ++ Event.now t :: post) : False := by
  have := h (Event.now t) (by rw [hs]; simp)
  simp [Event.isClear] at this

theorem firstRowReading_applied (pre : List Event) (t secs : Int) (id : UUID) (k : Row) :
    firstRowReading (pre ++ [Event.now t, Event.lock secs id k true none]) =
      if firstRowReading pre = none then some t else firstRowReading pre := by
  unfold firstRowReading
  simp only [List.foldl_append, List.foldl_cons, List.foldl_nil, deadlineStep]
  by_cases h : (List.foldl deadlineStep (none, none) pre).2 = none <;> simp [h]

theorem firstRowReading_retry (pre : List Event) (t secs n d : Int) (id : UUID) (k : Row)
    (rows : List Row) (f : Option StoreFailure) :
    firstRowReading (pre ++ [Event.now t, Event.lock secs id k false none,
      Event.count rows n f, Event.sleep d]) = firstRowReading pre := by
  unfold firstRowReading
  simp [List.foldl_append, deadlineStep]

/-- The time-budget rule along a run of `acquireLoop` from any point of it:
`pre0` are the calls made so far in the attempt. -/
theorem acquireRows_budget (env : Env σ) (l : Lock) (fuel i : Nat) (ks : List Row)
    (maxTime : Int) (s : St σ) (pre0 : List Event)
    (inv0 : i = 0 → firstRowReading pre0 = none)
    (inv1 : i ≠ 0 → ∃ t0, firstRowReading pre0 = some t0 ∧ maxTime = Time.add t0 l.ttl) :
    ∀ p t post, newEvents s (acquireRows env l fuel i ks maxTime s).2 =
        p ++ Event.now t :: post →
      ∀ t0, firstRowReading (pre0 ++ p) = some t0 →
        (Time.sub (Time.add t0 l.ttl) t < l.timeout →
          (∀ ev ∈ post, ev.isClear = true) ∧
          (acquireRows env l fuel i ks maxTime s).1 = some (some Error.errTimeout)) ∧
        (l.timeout ≤ Time.sub (Time.add t0 l.ttl) t →
          ∃ k a e rest, post = Event.lock (Duration.secondsInt l.ttl) l.lockID k a e :: rest) := by
  induction fuel generalizing i ks maxTime s pre0 with
  | zero =>
    cases ks with
    | nil =>
      rw [acquireRows_nil]
      intro p t post h
      simp [newEvents] at h
    | cons k ks =>
      rw [acquireRows_zero]
      intro p t post h
      simp [newEvents] at h
  | succ fuel ih =>
    cases ks with
    | nil =>
      rw [acquireRows_nil]
      intro p t post h
      simp [newEvents] at h
    | cons k ks =>
      have hnl : ∀ (secs : Int) (id : UUID) (k : Row) (a : Bool) (e : Option StoreFailure)
          (t1 : Int), Event.lock secs id k a e ≠ Event.now t1 := by
        intros; simp
      have hnc : ∀ (rows : List Row) (n : Int) (f : Option StoreFailure) (t1 : Int),
          Event.count rows n f ≠ Event.now t1 := by
        intros; simp
      have hns : ∀ (d t1 : Int), Event.sleep d ≠ Event.now t1 := by
        intros; simp
      -- the split at the reading of this pass
      have hfirst : ∀ t0, firstRowReading (pre0 ++ []) = some t0 →
          i ≠ 0 ∧ maxTime = Time.add t0 l.ttl := by
        intro t0 ht0
        rw [List.append_nil] at ht0
        have hi : i ≠ 0 := by
          intro hi
          rw [inv0 hi] at ht0
          simp at ht0
        obtain ⟨t1, h1, h2⟩ := inv1 hi
        rw [h1] at ht0
        simp at ht0
        subst ht0
        exact ⟨hi, h2⟩
      obtain ⟨a, e, n, f, _, _, h⟩ := acquireRows_pass env l fuel i k ks maxTime s
      intro p t post hsplit t0 ht0
      rcases h with ⟨hi, hlt, hres, h⟩ | ⟨hto, ⟨e0, he, _, h⟩ | ⟨_, _, heq, h⟩ |
        ⟨_, _, ⟨_, _, _, h⟩ | ⟨_, _, heq, h⟩⟩⟩
      · rw [h] at hsplit
        have hrel := Release_events env l (timeNow env s).2
        rcases split_head _ _ _ _ _ hsplit with ⟨hp, hev, hpost⟩ | ⟨p1, _, hrest⟩
        · subst hp
          obtain ⟨_, hm⟩ := hfirst t0 ht0
          simp at hev
          subst hev hm
          rw [hpost]
          refine ⟨fun _ => ⟨hrel, hres⟩, fun hge => ?_⟩
          exfalso
          omega
        · exact absurd hrest (fun hr => clears_no_now _ _ _ _ hrel hr)
      · rw [h] at hsplit
        have hrel := Release_events env l (lockRow env l k (timeNow env s).2).2
        rcases split_head _ _ _ _ _ hsplit with ⟨hp, hev, hpost⟩ | ⟨p1, _, hrest⟩
        · subst hp
          obtain ⟨hi, hm⟩ := hfirst t0 ht0
          simp at hev
          subst hev hm
          rw [hpost]
          refine ⟨fun hlt => ?_, fun _ => ⟨_, _, _, _, rfl⟩⟩
          exact absurd ⟨hi, hlt⟩ hto
        · obtain ⟨p2, _, hrest2⟩ := split_skip _ _ _ _ _ (hnl _ _ _ _ _) hrest
          exact absurd hrest2 (fun hr => clears_no_now _ _ _ _ hrel hr)
      · rw [h] at hsplit
        rcases split_head _ _ _ _ _ hsplit with ⟨hp, hev, hpost⟩ | ⟨p1, hp1, hrest⟩
        · subst hp
          obtain ⟨hi, hm⟩ := hfirst t0 ht0
          simp at hev
          subst hev hm
          rw [hpost]
          refine ⟨fun hlt => ?_, fun _ => ⟨_, _, _, _, rfl⟩⟩
          exact absurd ⟨hi, hlt⟩ hto
        · obtain ⟨p2, hp2, hrest2⟩ := split_skip _ _ _ _ _ (hnl _ _ _ _ _) hrest
          subst hp1 hp2
          rw [heq]
          refine ih (i + 1) ks _ _
            (pre0 ++ [Event.now (timeNow env s).1,
              Event.lock (Duration.secondsInt l.ttl) l.lockID k true none])
            (by simp) ?_ p2 t post hrest2 t0 (by simpa using ht0)
          intro _
          rw [firstRowReading_applied]
          by_cases hi : i = 0
          · rw [if_pos (inv0 hi), if_pos hi]
            exact ⟨_, rfl, rfl⟩
          · obtain ⟨t1, h1, h2⟩ := inv1 hi
            rw [if_neg (by rw [h1]; simp), if_neg hi]
            exact ⟨t1, h1, h2⟩
      · rw [h] at hsplit
        have hrel := Release_events env l
          (checkRows env l (lockRow env l k (timeNow env s).2).2).2
        rcases split_head _ _ _ _ _ hsplit with ⟨hp, hev, hpost⟩ | ⟨p1, _, hrest⟩
        · subst hp
          obtain ⟨hi, hm⟩ := hfirst t0 ht0
          simp at hev
          subst hev hm
          rw [hpost]
          refine ⟨fun hlt => ?_, fun _ => ⟨_, _, _, _, rfl⟩⟩
          exact absurd ⟨hi, hlt⟩ hto
        · obtain ⟨p2, _, hrest2⟩ := split_skip _ _ _ _ _ (hnl _ _ _ _ _) hrest
          obtain ⟨p3, _, hrest3⟩ := split_skip _ _ _ _ _ (hnc _ _ _) hrest2
          exact absurd hrest3 (fun hr => clears_no_now _ _ _ _ hrel hr)
      · rw [h] at hsplit
        rcases split_head _ _ _ _ _ hsplit with ⟨hp, hev, hpost⟩ | ⟨p1, hp1, hrest⟩
        · subst hp
          obtain ⟨hi, hm⟩ := hfirst t0 ht0
          simp at hev
          subst hev hm
          rw [hpost]
          refine ⟨fun hlt => ?_, fun _ => ⟨_, _, _, _, rfl⟩⟩
          exact absurd ⟨hi, hlt⟩ hto
        · obtain ⟨p2, hp2, hrest2⟩ := split_skip _ _ _ _ _ (hnl _ _ _ _ _) hrest
          obtain ⟨p3, hp3, hrest3⟩ := split_skip _ _ _ _ _ (hnc _ _ _) hrest2
          obtain ⟨p4, hp4, hrest4⟩ := split_skip _ _ _ _ _ (hns _) hrest3
          subst hp1 hp2 hp3 hp4
          rw [heq]
          refine ih i (k :: ks) _ _
            (pre0 ++ [Event.now (timeNow env s).1,
              Event.lock (Duration.secondsInt l.ttl) l.lockID k false none,
              Event.count l.rowKeys n none, Event.sleep RetryTime])
            ?_ ?_ p4 t post hrest4 t0 (by simpa using ht0)
          · intro hi
            rw [firstRowReading_retry]
            exact inv0 hi
          · intro hi
            rw [firstRowReading_retry, if_neg hi]
            exact inv1 hi

theorem Time.sub_lt_iff (d t timeout : Int) (h0 : 0 < timeout) (hmax : timeout ≤ maxDuration) :
    Time.sub d t < timeout ↔ d - t < timeout := by
  unfold Time.sub
  unfold minDuration maxDuration at *
  split_ifs <;> constructor <;> intro h <;> omega

/-- A list splits in one way only around the last of its elements that
satisfy `P`. -/
theorem split_last_unique {α : Type} (P : α → Prop) (A B pre post : List α) (x ev : α)
    (hB : ∀ b ∈ B, ¬ P b) (hpost : ∀ b ∈ post, ¬ P b) (hx : P x) (hev : P ev)
    (h : A ++ x :: B = pre ++ ev :: post) : pre = A ∧ ev = x ∧ post = B := by
  induction A generalizing pre with
  | nil =>
    cases pre with
    | nil =>
      simp at h
      exact ⟨rfl, h.1.symm, h.2.symm⟩
    | cons y pre =>
      simp at h
      exact absurd hev (hB ev (by rw [h.2]; simp))
  | cons a A ih =>
    cases pre with
    | nil =>
      simp at h
      exact absurd hx (hpost x (by rw [← h.2]; simp))
    | cons y pre =>
      simp at h
      obtain ⟨h1, h2, h3⟩ := ih pre h.2
      exact ⟨by rw [h.1, h1], h2, h3⟩

/-- The calls of `Release`: one conditional clear under the lock id for each
row of `rowKeys`, in order, up to the last row or to the first clear that
reports a failure. -/
theorem Release_calls (env : Env σ) (l : Lock) (s : St σ) :
    (newEvents s (Release env l s).2).map Event.cleared =
      (l.rowKeys.take (newEvents s (Release env l s).2).length).map
        (fun k => some (k, l.lockID)) ∧
    ((newEvents s (Release env l s).2).length = l.rowKeys.length ∨
      ∃ ev e, (newEvents s (Release env l s).2).getLast? = some ev ∧
        ev.clearFailure = some e) := by
  by_cases h : ∀ ev ∈ newEvents s (Release env l s).2, ev.clearFailure = none
  · obtain ⟨_, h2⟩ := releaseRows_no_failure env l l.rowKeys s h
    have h3 : (newEvents s (Release env l s).2).map Event.cleared =
        l.rowKeys.map (fun k => some (k, l.lockID)) := h2
    have hlen : (newEvents s (Release env l s).2).length = l.rowKeys.length := by
      have := congrArg List.length h3
      simpa using this
    refine ⟨?_, Or.inl hlen⟩
    rw [hlen, List.take_length]
    exact h3
  · have h1 : ∃ ev, ev ∈ newEvents s (Release env l s).2 ∧ ev.clearFailure ≠ none := by
      by_contra hc
      apply h
      intro ev hev
      by_contra hne
      exact hc ⟨ev, hev, hne⟩
    obtain ⟨ev, hev, hne⟩ := h1
    obtain ⟨i, hi⟩ := List.getElem?_of_mem hev
    obtain ⟨e, he⟩ : ∃ e, ev.clearFailure = some e := by
      cases hc : ev.clearFailure with
      | none => exact absurd hc hne
      | some e => exact ⟨e, rfl⟩
    obtain ⟨_, a2, a3, _⟩ := releaseRows_failure_at env l l.rowKeys s i ev e hi he
    have b2 : (newEvents s (Release env l s).2).length = i + 1 := a2
    have b3 : (newEvents s (Release env l s).2).map Event.cleared =
        (l.rowKeys.take (i + 1)).map (fun k => some (k, l.lockID)) := a3
    refine ⟨by rw [b2]; exact b3, Or.inr ⟨ev, e, ?_, he⟩⟩
    rw [List.getLast?_eq_getElem?, b2]
    exact hi

/-- An attempt that ends with `errTimeout` ends with a reading of the clock
followed by a run of `Release` from the state that the reading leaves: the
state of the attempt is the state `Release` ends in. -/
theorem acquireRows_errTimeout_state (env : Env σ) (l : Lock) (fuel i : Nat) (ks : List Row)
    (maxTime : Int) (s : St σ)
    (h : (acquireRows env l fuel i ks maxTime s).1 = some (some Error.errTimeout)) :
    ∃ (p : List Event) (t : Int) (s1 : St σ),
      s1.trace = s.trace ++ (p ++ [Event.now t]) ∧
      (acquireRows env l fuel i ks maxTime s).2 = (Release env l s1).2 ∧
      newEvents s (acquireRows env l fuel i ks maxTime s).2 =
        p ++ Event.now t :: newEvents s1 (Release env l s1).2 := by
  induction fuel generalizing i ks maxTime s with
  | zero =>
    cases ks with
    | nil => rw [acquireRows_nil] at h; simp at h
    | cons k ks => rw [acquireRows_zero] at h; simp at h
  | succ fuel ih =>
    cases ks with
    | nil => rw [acquireRows_nil] at h; simp at h
    | cons k ks =>
      obtain ⟨a, e, hlt, _⟩ := lockRow_trace env l k (timeNow env s).2
      obtain ⟨n, f, hct, _⟩ := checkRows_trace env l (lockRow env l k (timeNow env s).2).2
      rcases acquireRows_cases env l fuel i k ks maxTime s with
        ⟨_, _, hh⟩ | ⟨_, ⟨err, he, hh⟩ | ⟨_, _, hh⟩ | ⟨_, _, ⟨err, he, hh⟩ | ⟨_, hh⟩⟩⟩
      · rw [hh]
        refine ⟨[], (timeNow env s).1, (timeNow env s).2, rfl, rfl, ?_⟩
        obtain ⟨T, hT⟩ := Release_trace env l (timeNow env s).2
        exact newEvents_step s (timeNow env s).2 _ _ T (timeNow_trace env s) hT
      · rw [hh] at h
        simp at h
        rw [h] at he
        exact absurd he (lockRow_ne_errTimeout env l k _)
      · rw [hh] at h ⊢
        obtain ⟨p, t, s1, h1, h2, h3⟩ := ih _ _ _ _ h
        have hs2 : (lockRow env l k (timeNow env s).2).2.trace = s.trace ++
            [Event.now (timeNow env s).1,
              Event.lock (Duration.secondsInt l.ttl) l.lockID k a e] := by
          rw [hlt, timeNow_trace]
          simp
        refine ⟨[Event.now (timeNow env s).1,
            Event.lock (Duration.secondsInt l.ttl) l.lockID k a e] ++ p, t, s1, ?_, h2, ?_⟩
        · rw [h1, hs2]
          simp
        · rw [newEvents_append_left s _ _ _ hs2 (acquireRows_trace env l _ _ _ _ _), h3]
          simp
      · rw [hh] at h
        simp at h
        rw [h] at he
        exact absurd he (checkRows_ne_errTimeout env l _)
      · rw [hh] at h ⊢
        obtain ⟨p, t, s1, h1, h2, h3⟩ := ih _ _ _ _ h
        have hs2 : (timeSleep env RetryTime
            (checkRows env l (lockRow env l k (timeNow env s).2).2).2).trace = s.trace ++
            [Event.now (timeNow env s).1,
              Event.lock (Duration.secondsInt l.ttl) l.lockID k a e,
              Event.count l.rowKeys n f, Event.sleep RetryTime] := by
          rw [timeSleep_trace, hct, hlt, timeNow_trace]
          simp
        refine ⟨[Event.now (timeNow env s).1,
            Event.lock (Duration.secondsInt l.ttl) l.lockID k a e,
            Event.count l.rowKeys n f, Event.sleep RetryTime] ++ p, t, s1, ?_, h2, ?_⟩
        · rw [h1, hs2]
          simp
        · rw [newEvents_append_left s _ _ _ hs2 (acquireRows_trace env l _ _ _ _ _), h3]
          simp

/-- C15: in every pass of an attempt for a row other than the first, whatever
the collaborators do, with the deadline the reading of the clock of the last
pass on the first row plus the `ttl`.  When the deadline minus the reading of
this pass is below the timeout, no conditional write follows: `Release` is run
from the state that the reading leaves, the calls after the reading are the
calls of that run, one conditional clear under the lock id for each row of
`rowKeys` in order, up to the last row or to the first clear that fails, the
attempt ends in the state `Release` ends in, and its result is `errTimeout`.
When the difference is the timeout or more, the next call is the conditional
write.  The difference is the one of `Time.Sub`, which is the plain difference
compared with a timeout that is positive. -/
theorem time_budget_rule (env : Env σ) (l : Lock) (fuel : Nat) (s : St σ) :
    (∀ pre t post, newEvents s (acquireLoop env fuel l s).2 = pre ++ Event.now t :: post →
      ∀ t0, firstRowReading pre = some t0 →
        (Time.sub (Time.add t0 l.ttl) t < l.timeout →
          (∀ ev ∈ post, ev.isClear = true) ∧
          (acquireLoop env fuel l s).1 = some (some Error.errTimeout) ∧
          (∃ s1 : St σ, s1.trace = s.trace ++ (pre ++ [Event.now t]) ∧
            (acquireLoop env fuel l s).2 = (Release env l s1).2 ∧
            post = newEvents s1 (Release env l s1).2) ∧
          post.map Event.cleared =
            (l.rowKeys.take post.length).map (fun k => some (k, l.lockID)) ∧
          (post.length = l.rowKeys.length ∨
            ∃ ev e, post.getLast? = some ev ∧ ev.clearFailure = some e)) ∧
        (l.timeout ≤ Time.sub (Time.add t0 l.ttl) t →
          ∃ k a e rest,
            post = Event.lock (Duration.secondsInt l.ttl) l.lockID k a e :: rest)) ∧
    (0 < l.timeout → l.timeout ≤ maxDuration → ∀ t0 t,
      (Time.sub (Time.add t0 l.ttl) t < l.timeout ↔ t0 + l.ttl - t < l.timeout)) := by
  refine ⟨?_, fun h0 hmax t0 t => Time.sub_lt_iff _ _ _ h0 hmax⟩
  intro pre t post h t0 ht0
  obtain ⟨b1, b2⟩ := acquireRows_budget env l fuel 0 l.rowKeys 0 s [] (fun _ => rfl)
    (fun hi => absurd rfl hi) pre t post h t0 (by simpa using ht0)
  refine ⟨fun hlt => ?_, b2⟩
  obtain ⟨c1, c2⟩ := b1 hlt
  obtain ⟨p, t1, s1, d1, d2, d3⟩ := acquireRows_errTimeout_state env l fuel 0 l.rowKeys 0 s c2
  have hnow : ∀ rel : List Event, (∀ ev ∈ rel, ev.isClear = true) →
      ∀ b ∈ rel, ¬ ∃ x, b = Event.now x := by
    intro rel hrel b hb hx
    obtain ⟨x, rfl⟩ := hx
    have := hrel _ hb
    simp [Event.isClear] at this
  have hsp : p ++ Event.now t1 :: newEvents s1 (Release env l s1).2 =
      pre ++ Event.now t :: post := d3.symm.trans h
  obtain ⟨e1, e2, e3⟩ := split_last_unique (fun ev => ∃ x, ev = Event.now x) _ _ _ _ _ _
    (hnow _ (Release_events env l s1)) (hnow _ c1) ⟨_, rfl⟩ ⟨_, rfl⟩ hsp
  obtain ⟨r1, r2⟩ := Release_calls env l s1
  rw [← e3] at r1 r2
  refine ⟨c1, c2, ⟨s1, ?_, d2, e3⟩, r1, r2⟩
  rw [d1, e1]
  simp at e2
  rw [e2]

/-- A timeout of one second and a `ttl` of two over r1 and r2.  When the second
reading comes two seconds after the first, the attempt ends with `errTimeout`:
after the reading come the clears of r1 and r2 and no write on r2, and r1 is
left without marker.  When it comes one second after, the write on r2 is
made. -/
theorem time_budget_rule_witness :
    ((acquireLoop memEnv 5 (newLock 1 "ks" "t" (1 * Second) ["r1", "r2"])
        (St.init { World.quiet ["r1", "r2"] with ticks := [0, 2 * Second] })).1 =
        some (some Error.errTimeout) ∧
      [Event.clear "r1" 1 true none, Event.clear "r2" 1 false none].map Event.cleared =
        ((newLock 1 "ks" "t" (1 * Second) ["r1", "r2"]).rowKeys.take
          [Event.clear "r1" 1 true none, Event.clear "r2" 1 false none].length).map
          (fun k => some (k, (newLock 1 "ks" "t" (1 * Second) ["r1", "r2"]).lockID))) ∧
    (∃ k a e rest, [Event.lock 2 1 "r2" true none] =
      Event.lock (Duration.secondsInt (newLock 1 "ks" "t" (1 * Second) ["r1", "r2"]).ttl)
        (newLock 1 "ks" "t" (1 * Second) ["r1", "r2"]).lockID k a e :: rest) ∧
    (acquireLoop memEnv 5 (newLock 1 "ks" "t" (1 * Second) ["r1", "r2"])
      (St.init { World.quiet ["r1", "r2"] with ticks := [0, 2 * Second] })).2.trace =
      [Event.now 0, Event.lock 2 1 "r1" true none, Event.now 2000000000,
        Event.clear "r1" 1 true none, Event.clear "r2" 1 false none] ∧
    (acquireLoop memEnv 5 (newLock 1 "ks" "t" (1 * Second) ["r1", "r2"])
      (St.init { World.quiet ["r1", "r2"] with
        ticks := [0, 2 * Second] })).2.world.marker "r1" = none ∧
    (acquireLoop memEnv 5 (newLock 1 "ks" "t" (1 * Second) ["r1", "r2"])
      (St.init { World.quiet ["r1", "r2"] with ticks := [0, 1 * Second] })).2.trace =
      [Event.now 0, Event.lock 2 1 "r1" true none, Event.now 1000000000,
        Event.lock 2 1 "r2" true none] :=
  ⟨⟨(((time_budget_rule memEnv (newLock 1 "ks" "t" (1 * Second) ["r1", "r2"]) 5
      (St.init { World.quiet ["r1", "r2"] with ticks := [0, 2 * Second] })).1
      [Event.now 0, Event.lock 2 1 "r1" true none] 2000000000
      [Event.clear "r1" 1 true none, Event.clear "r2" 1 false none] (by decide) 0
      (by decide)).1 (by decide)).2.1,
    (((time_budget_rule memEnv (newLock 1 "ks" "t" (1 * Second) ["r1", "r2"]) 5
      (St.init { World.quiet ["r1", "r2"] with ticks := [0, 2 * Second] })).1
      [Event.now 0, Event.lock 2 1 "r1" true none] 2000000000
      [Event.clear "r1" 1 true none, Event.clear "r2" 1 false none] (by decide) 0
      (by decide)).1 (by decide)).2.2.2.1⟩,
    ((time_budget_rule memEnv (newLock 1 "ks" "t" (1 * Second) ["r1", "r2"]) 5
      (St.init { World.quiet ["r1", "r2"] with ticks := [0, 1 * Second] })).1
      [Event.now 0, Event.lock 2 1 "r1" true none] 1000000000
      [Event.lock 2 1 "r2" true none] (by decide) 0 (by decide)).2 (by decide),
    by decide, by decide, by decide⟩


/-! ## A lock that is alone on the store -/

theorem countPresent_lt_of_dup ( present : Row → Bool) (rows : List Row) (h : ¬ rows.Nodup) :
    countPresent present rows < rows.length := by
  induction rows with
  | nil => simp at h
  | cons r rs ih =>
    rw [List.nodup_cons] at h
    simp only [countPresent, List.length_cons]
    have hle := countPresent_le present rs
    by_cases hr : r ∈ rs
    · rw [if_neg (fun hc => hc.2 hr)]
      omega
    · have h2 : ¬ rs.Nodup := fun hn => h ⟨hr, hn⟩
      have := ih h2
      split_ifs <;> omega

/-- The conditional write on a store with no other client and no failure: it
is applied exactly when the row is in the table and carries no marker, and then
it sets the marker of that row only. -/
theorem lockRow_quiet (l : Lock) (k : Row) (s : St World) (hf : s.world.NoFaults)
    (ho : s.world.others = []) :
    (lockRow memEnv l k s).1 =
      (decide (s.world.present k = true ∧ s.world.marker k = none), none) ∧
    (lockRow memEnv l k s).2.world.others = [] ∧
    ∀ r, (lockRow memEnv l k s).2.world.marker r =
      if r = k ∧ s.world.present k = true ∧ s.world.marker k = none then some l.lockID
      else s.world.marker r := by
  have ha := s.world.arrive_noFaults hf
  obtain ⟨h1, h2⟩ := s.world.arrive_quiet ho
  have e1 : (lockRow memEnv l k s).1 = ((s.world.lockQuery l.lockID k).1.1,
      ((s.world.lockQuery l.lockID k).1.2).map Error.store) := rfl
  have e2 : (lockRow memEnv l k s).2.world = (s.world.lockQuery l.lockID k).2 := rfl
  rw [e1, e2]
  by_cases hc : s.world.arrive.2.present k = true ∧ s.world.arrive.2.marker k = none
  · rw [s.world.lockQuery_applied l.lockID k ha hc.1 hc.2]
    rw [World.arrive_present, h1] at hc
    refine ⟨?_, h2, fun r => ?_⟩
    · rw [decide_eq_true hc]
      rfl
    · show (if r = k then some l.lockID else s.world.arrive.2.marker r) = _
      rw [h1]
      by_cases hr : r = k
      · rw [if_pos hr, if_pos ⟨hr, hc⟩]
      · rw [if_neg hr, if_neg (fun h => hr h.1)]
  · rw [s.world.lockQuery_rejected l.lockID k ha hc]
    rw [World.arrive_present, h1] at hc
    refine ⟨?_, h2, fun r => ?_⟩
    · rw [decide_eq_false hc]
      rfl
    · rw [h1, if_neg (fun h => hc h.2)]

/-- The existence check on a store with no other client and no failure: it
fails exactly when the count of distinct rows in the table differs from the
length of `rowKeys`, and it changes no marker. -/
theorem checkRows_quiet (l : Lock) (s : St World) (hf : s.world.NoFaults)
    (ho : s.world.others = []) :
    (checkRows memEnv l s).1 =
      (if countPresent s.world.present l.rowKeys ≠ l.rowKeys.length
        then some Error.keyNotFound else none) ∧
    (checkRows memEnv l s).2.world.others = [] ∧
    (checkRows memEnv l s).2.world.marker = s.world.marker := by
  have ha := s.world.arrive_noFaults hf
  obtain ⟨h1, h2⟩ := s.world.arrive_quiet ho
  have hq : memEnv.countQuery l.keyspace l.table l.rowKeys s.world =
      ((((countPresent s.world.arrive.2.present l.rowKeys : Nat) : Int), none),
        s.world.arrive.2) := s.world.countQuery_ok l.rowKeys ha
  rw [checkRows_fst, checkRows_world, hq, World.arrive_present]
  refine ⟨?_, h2, h1⟩
  simp only []
  by_cases hc : countPresent s.world.present l.rowKeys = l.rowKeys.length
  · rw [if_neg (by simp [hc]), if_neg (by simp [hc])]
  · rw [if_pos hc, if_pos]
    intro heq
    exact hc (by exact_mod_cast heq)

theorem Alone.mono {l : Lock} {w : World} {pre pre1 : List Event} (h : Alone l w pre)
    (hsub : ∀ ev ∈ pre, ev ∈ pre1) : Alone l w pre1 :=
  ⟨h.others, h.faults, h.rows, fun r hr hm => hsub _ (h.written r hr hm)⟩

/-- A store on which no row of the lock carries its marker. -/
theorem Alone.of_unmarked {l : Lock} {w : World} (pre : List Event) (ho : w.others = [])
    (hf : w.NoFaults) (hp : ∀ r ∈ l.rowKeys, w.present r = true ∧ w.marker r = none) :
    Alone l w pre :=
  ⟨ho, hf, fun r hr => ⟨(hp r hr).1, Or.inl (hp r hr).2⟩, fun r hr hm => by
    rw [(hp r hr).2] at hm
    simp at hm⟩

theorem Alone.unmarked {l : Lock} {w : World} (h : Alone l w []) :
    ∀ r ∈ l.rowKeys, w.present r = true ∧ w.marker r = none := by
  intro r hr
  refine ⟨(h.rows r hr).1, ?_⟩
  rcases (h.rows r hr).2 with hm | hm
  · exact hm
  · have := h.written r hr hm
    simp at this

theorem timeNow_alone {l : Lock} {s : St World} {pre : List Event} (h : Alone l s.world pre) :
    Alone l (timeNow memEnv s).2.world pre :=
  ⟨h.others, h.faults, h.rows, h.written⟩

theorem timeSleep_alone {l : Lock} {s : St World} {pre : List Event} (d : Int)
    (h : Alone l s.world pre) : Alone l (timeSleep memEnv d s).world pre :=
  ⟨h.others, h.faults, h.rows, h.written⟩

theorem checkRows_alone {l : Lock} {s : St World} {pre : List Event} (h : Alone l s.world pre) :
    Alone l (checkRows memEnv l s).2.world pre := by
  obtain ⟨_, h2, h3⟩ := checkRows_quiet l s h.faults h.others
  have hl := checkRows_later l s
  refine ⟨h2, hl.noFaults h.faults, fun r hr => ?_, fun r hr hm => ?_⟩
  · rw [hl.present, h3]
    exact h.rows r hr
  · rw [h3] at hm
    exact h.written r hr hm

/-- After the conditional write on a row of the lock the store is as the lock
expects it, the applied write being among the calls made. -/
theorem lockRow_alone {l : Lock} {s : St World} {pre : List Event} (k : Row)
    (h : Alone l s.world pre) (pre1 : List Event) (hsub : ∀ ev ∈ pre, ev ∈ pre1)
    (hk : (lockRow memEnv l k s).1.1 = true →
      Event.lock (Duration.secondsInt l.ttl) l.lockID k true none ∈ pre1) :
    Alone l (lockRow memEnv l k s).2.world pre1 := by
  obtain ⟨h1, h2, h3⟩ := lockRow_quiet l k s h.faults h.others
  have hl := lockRow_later l k s
  refine ⟨h2, hl.noFaults h.faults, fun r hr => ?_, fun r hr hm => ?_⟩
  · rw [hl.present, h3]
    refine ⟨(h.rows r hr).1, ?_⟩
    split_ifs
    · exact Or.inr rfl
    · exact (h.rows r hr).2
  · rw [h3] at hm
    by_cases hc : r = k ∧ s.world.present k = true ∧ s.world.marker k = none
    · rw [hc.1]
      apply hk
      rw [h1]
      exact decide_eq_true hc.2
    · rw [if_neg hc] at hm
      exact hsub _ (h.written r hr hm)

/-- The method `Release` of a lock that is alone on the store takes its marker off every
row of `rowKeys` and changes no other marker. -/
theorem Release_alone {l : Lock} {s : St World} {pre : List Event} (h : Alone l s.world pre)
    (pre1 : List Event) :
    Alone l (Release memEnv l s).2.world pre1 ∧
    (∀ r, r ∉ l.rowKeys → (Release memEnv l s).2.world.marker r = s.world.marker r) ∧
    ∀ r ∈ l.rowKeys, (Release memEnv l s).2.world.marker r = none := by
  obtain ⟨_, h2, h3⟩ := releaseRows_quiet l l.rowKeys s h.faults h.others
  have hl := Release_later l s
  have hnone : ∀ r ∈ l.rowKeys, (Release memEnv l s).2.world.marker r = none := by
    intro r hr
    have := h3 r
    rcases (h.rows r hr).2 with hm | hm
    · rw [hm] at this
      simpa using this
    · rw [if_pos ⟨hr, hm⟩] at this
      exact this
  refine ⟨Alone.of_unmarked pre1 h2 (hl.noFaults h.faults) (fun r hr => ⟨?_, hnone r hr⟩),
    fun r hr => ?_, hnone⟩
  · rw [hl.present]
    exact (h.rows r hr).1
  · have := h3 r
    rw [if_neg (fun hc => hr hc.1)] at this
    exact this

/-- The state in which an attempt ends after a failed existence check. -/
theorem acquireRows_check_abort (env : Env σ) (l : Lock) (fuel i : Nat) (k : Row)
    (ks : List Row) (maxTime : Int) (s : St σ) (err : Error)
    (hno : ¬ (i ≠ 0 ∧ Time.sub maxTime (timeNow env s).1 < l.timeout))
    (hl : (lockRow env l k (timeNow env s).2).1 = (false, none))
    (hc : (checkRows env l (lockRow env l k (timeNow env s).2).2).1 = some err) :
    acquireRows env l (fuel + 1) i (k :: ks) maxTime s =
      (some (some err),
        (Release env l (checkRows env l (lockRow env l k (timeNow env s).2).2).2).2) := by
  rcases acquireRows_cases env l fuel i k ks maxTime s with
    ⟨hi, hlt, _⟩ | ⟨_, ⟨e1, he, _⟩ | ⟨_, ha, _⟩ | ⟨_, _, ⟨e1, he, h⟩ | ⟨he, _⟩⟩⟩
  · exact absurd ⟨hi, hlt⟩ hno
  · rw [hl] at he
    simp at he
  · rw [hl] at ha
    simp at ha
  · rw [hc] at he
    simp at he
    rw [h, he]
  · rw [hc] at he
    simp at he

theorem clears_not_rejected (rel : List Event) (h : ∀ ev ∈ rel, ev.isClear = true) :
    ∀ ev ∈ rel, ev.isRejected = false := by
  intro ev hev
  have := h ev hev
  cases ev <;> simp_all [Event.isClear, Event.isRejected]

/-- An attempt of a lock that is alone on the store: the store stays as the lock
expects it, no marker of a row outside `rowKeys` changes, an attempt that ends
with an error leaves no marker on the rows of `rowKeys`, and every conditional
write that is not applied is on a row that an earlier write of the lock
claimed. -/
theorem acquireRows_alone (l : Lock) (fuel i : Nat) (ks : List Row) (maxTime : Int)
    (s : St World) (pre0 : List Event) (h : Alone l s.world pre0)
    (hsub : ∀ r ∈ ks, r ∈ l.rowKeys) :
    Alone l (acquireRows memEnv l fuel i ks maxTime s).2.world
      (pre0 ++ newEvents s (acquireRows memEnv l fuel i ks maxTime s).2) ∧
    (∀ r, r ∉ l.rowKeys →
      (acquireRows memEnv l fuel i ks maxTime s).2.world.marker r = s.world.marker r) ∧
    (∀ err, (acquireRows memEnv l fuel i ks maxTime s).1 = some (some err) →
      ∀ r ∈ l.rowKeys, (acquireRows memEnv l fuel i ks maxTime s).2.world.marker r = none) ∧
    ∀ p ev post, newEvents s (acquireRows memEnv l fuel i ks maxTime s).2 = p ++ ev :: post →
      ev.isRejected = true → ∀ k, ev.lockedRow = some k →
      Event.lock (Duration.secondsInt l.ttl) l.lockID k true none ∈ pre0 ++ p := by
  induction fuel generalizing i ks maxTime s pre0 with
  | zero =>
    cases ks with
    | nil =>
      rw [acquireRows_nil]
      have hn : newEvents s s = [] := newEvents_of_append s s [] (by simp)
      refine ⟨by rw [hn]; simpa using h, fun _ _ => rfl, by simp, ?_⟩
      intro p ev post hsp
      rw [hn] at hsp
      simp at hsp
    | cons k ks =>
      rw [acquireRows_zero]
      have hn : newEvents s s = [] := newEvents_of_append s s [] (by simp)
      refine ⟨by rw [hn]; simpa using h, fun _ _ => rfl, by simp, ?_⟩
      intro p ev post hsp
      rw [hn] at hsp
      simp at hsp
  | succ fuel ih =>
    cases ks with
    | nil =>
      rw [acquireRows_nil]
      have hn : newEvents s s = [] := newEvents_of_append s s [] (by simp)
      refine ⟨by rw [hn]; simpa using h, fun _ _ => rfl, by simp, ?_⟩
      intro p ev post hsp
      rw [hn] at hsp
      simp at hsp
    | cons k ks =>
      have hkr : k ∈ l.rowKeys := hsub k (List.mem_cons_self _ _)
      have a1 : Alone l (timeNow memEnv s).2.world pre0 := timeNow_alone h
      obtain ⟨q1, q2, q3⟩ := lockRow_quiet l k (timeNow memEnv s).2 a1.faults a1.others
      have m1 : ∀ r, (timeNow memEnv s).2.world.marker r = s.world.marker r := fun _ => rfl
      have hrej : (lockRow memEnv l k (timeNow memEnv s).2).1.1 = false →
          Event.lock (Duration.secondsInt l.ttl) l.lockID k true none ∈ pre0 := by
        intro hf
        rw [q1] at hf
        have hc : ¬ (s.world.present k = true ∧ s.world.marker k = none) := by
          simpa using hf
        rcases (h.rows k hkr).2 with hm | hm
        · exact absurd ⟨(h.rows k hkr).1, hm⟩ hc
        · exact h.written k hkr hm
      have hframe2 : ∀ r, r ∉ l.rowKeys →
          (lockRow memEnv l k (timeNow memEnv s).2).2.world.marker r = s.world.marker r := by
        intro r hr
        have hrk : r ≠ k := fun hc => hr (hc ▸ hkr)
        rw [q3 r, if_neg (fun hc => hrk hc.1)]
        rfl
      obtain ⟨a, e, n, f, hA, hC, hp⟩ := acquireRows_pass memEnv l fuel i k ks maxTime s
      have he : e = none := by
        have : e.map Error.store = none := by
          have := congrArg Prod.snd hA
          rw [q1] at this
          exact this.symm
        cases e with
        | none => rfl
        | some e0 => simp at this
      have ha : (lockRow memEnv l k (timeNow memEnv s).2).1.1 = a := by rw [hA]
      rcases hp with ⟨hi, hlt, hres, hT⟩ | ⟨hno, ⟨e0, he0, _⟩ | ⟨_, hat, hres, hT⟩ |
        ⟨_, haf, ⟨err, hcase, hres, hT⟩ | ⟨_, _, hres, hT⟩⟩⟩
      · -- the budget is used up
        have hst : (acquireRows memEnv l (fuel + 1) i (k :: ks) maxTime s).2 =
            (Release memEnv l (timeNow memEnv s).2).2 := by
          rcases acquireRows_cases memEnv l fuel i k ks maxTime s with
            ⟨_, _, hh⟩ | ⟨hno, _⟩
          · rw [hh]
          · exact absurd ⟨hi, hlt⟩ hno
        have hrel := clears_not_rejected _ (Release_events memEnv l (timeNow memEnv s).2)
        rw [hst] at hT
        rw [hst, hT]
        obtain ⟨r1, r2, r3⟩ := Release_alone a1
          (pre0 ++ Event.now (timeNow memEnv s).1 ::
            newEvents (timeNow memEnv s).2 (Release memEnv l (timeNow memEnv s).2).2)
        refine ⟨r1, fun r hr => (r2 r hr).trans (m1 r), fun _ _ => r3, ?_⟩
        intro p ev post hsp hrj kk _
        rcases split_head _ _ _ _ _ hsp with ⟨_, hev, _⟩ | ⟨p1, _, hc⟩
        · rw [hev] at hrj
          simp [Event.isRejected] at hrj
        · have := hrel ev (by rw [hc]; simp)
          rw [this] at hrj
          simp at hrj
      · rw [he] at he0
        simp at he0
      · -- the write is applied
        rw [hres] at hT
        rw [hres, hT]
        have a2 : Alone l (lockRow memEnv l k (timeNow memEnv s).2).2.world
            (pre0 ++ [Event.now (timeNow memEnv s).1,
              Event.lock (Duration.secondsInt l.ttl) l.lockID k true none]) :=
          lockRow_alone k a1 _ (fun ev hev => List.mem_append_left _ hev) (fun _ => by simp)
        obtain ⟨b1, b2, b3, b4⟩ := ih (i + 1) ks
          (if i = 0 then Time.add (timeNow memEnv s).1 l.ttl else maxTime)
          (lockRow memEnv l k (timeNow memEnv s).2).2 _ a2
          (fun r hr => hsub r (List.mem_cons_of_mem _ hr))
        refine ⟨?_, fun r hr => (b2 r hr).trans (hframe2 r hr), b3, ?_⟩
        · rw [List.append_assoc] at b1
          exact b1
        · intro p ev post hsp hrj kk hkk
          rcases split_head _ _ _ _ _ hsp with ⟨_, hev, _⟩ | ⟨p1, hp1, hc⟩
          · rw [hev] at hrj
            simp [Event.isRejected] at hrj
          · rcases split_head _ _ _ _ _ hc with ⟨_, hev, _⟩ | ⟨p2, hp2, hc2⟩
            · rw [hev] at hrj
              simp [Event.isRejected] at hrj
            · have := b4 p2 ev post hc2 hrj kk hkk
              rw [hp1, hp2]
              simpa using this
      · -- the write is not applied and the existence check fails
        have hl0 : (lockRow memEnv l k (timeNow memEnv s).2).1 = (false, none) := by
          rw [hA, he, haf]
          rfl
        have hst := acquireRows_check_abort memEnv l fuel i k ks maxTime s err hno hl0
          (by
            have := acquireRows_cases memEnv l fuel i k ks maxTime s
            rcases this with ⟨hi, hlt, _⟩ | ⟨_, ⟨e1, he1, _⟩ | ⟨_, ha1, _⟩ |
              ⟨_, _, ⟨e1, he1, h1⟩ | ⟨he1, h1⟩⟩⟩
            · exact absurd ⟨hi, hlt⟩ hno
            · rw [hl0] at he1
              simp at he1
            · rw [hl0] at ha1
              simp at ha1
            · rw [h1] at hres
              simp at hres
              rw [he1, hres]
            · rw [hC] at he1
              rcases hcase with ⟨_, hf0, hn0⟩ | ⟨f0, hf0, _⟩
              · rw [hf0] at he1
                simp only [] at he1
                rw [if_pos hn0] at he1
                simp at he1
              · rw [hf0] at he1
                simp at he1)
        have hst2 := congrArg Prod.snd hst
        simp only [] at hst2
        rw [hst2] at hT
        rw [hst2, hT]
        have a2 : Alone l (lockRow memEnv l k (timeNow memEnv s).2).2.world pre0 :=
          lockRow_alone k a1 _ (fun ev hev => hev) (fun ht => by rw [hl0] at ht; simp at ht)
        have a3 := checkRows_alone a2
        obtain ⟨_, _, c3⟩ := checkRows_quiet l (lockRow memEnv l k (timeNow memEnv s).2).2
          a2.faults a2.others
        obtain ⟨r1, r2, r3⟩ := Release_alone a3
          (pre0 ++ Event.now (timeNow memEnv s).1 ::
            Event.lock (Duration.secondsInt l.ttl) l.lockID k false none ::
            Event.count l.rowKeys n f ::
            newEvents (checkRows memEnv l (lockRow memEnv l k (timeNow memEnv s).2).2).2
              (Release memEnv l
                (checkRows memEnv l (lockRow memEnv l k (timeNow memEnv s).2).2).2).2)
        have hrel := clears_not_rejected _ (Release_events memEnv l
          (checkRows memEnv l (lockRow memEnv l k (timeNow memEnv s).2).2).2)
        refine ⟨r1, fun r hr => ?_, fun _ _ => r3, ?_⟩
        · rw [r2 r hr, c3]
          exact hframe2 r hr
        · intro p ev post hsp hrj kk hkk
          rcases split_head _ _ _ _ _ hsp with ⟨_, hev, _⟩ | ⟨p1, hp1, hc⟩
          · rw [hev] at hrj
            simp [Event.isRejected] at hrj
          · rcases split_head _ _ _ _ _ hc with ⟨_, hev, _⟩ | ⟨p2, hp2, hc2⟩
            · rw [hev] at hkk
              simp [Event.lockedRow] at hkk
              rw [← hkk]
              exact List.mem_append_left _ (hrej (by rw [hl0]))
            · rcases split_head _ _ _ _ _ hc2 with ⟨_, hev, _⟩ | ⟨p3, hp3, hc3⟩
              · rw [hev] at hrj
                simp [Event.isRejected] at hrj
              · have := hrel ev (by rw [hc3]; simp)
                rw [this] at hrj
                simp at hrj
      · -- the write is not applied and the loop polls again
        have hl0 : (lockRow memEnv l k (timeNow memEnv s).2).1 = (false, none) := by
          rw [hA, he, haf]
          rfl
        rw [hres] at hT
        rw [hres, hT]
        have a2 : Alone l (lockRow memEnv l k (timeNow memEnv s).2).2.world
            (pre0 ++ [Event.now (timeNow memEnv s).1,
              Event.lock (Duration.secondsInt l.ttl) l.lockID k false none,
              Event.count l.rowKeys n none, Event.sleep RetryTime]) :=
          lockRow_alone k a1 _ (fun ev hev => List.mem_append_left _ hev)
            (fun ht => by rw [hl0] at ht; simp at ht)
        have a3 := timeSleep_alone RetryTime (checkRows_alone a2)
        obtain ⟨_, _, c3⟩ := checkRows_quiet l (lockRow memEnv l k (timeNow memEnv s).2).2
          a2.faults a2.others
        obtain ⟨b1, b2, b3, b4⟩ := ih i (k :: ks)
          (if i = 0 then Time.add (timeNow memEnv s).1 l.ttl else maxTime)
          (timeSleep memEnv RetryTime
            (checkRows memEnv l (lockRow memEnv l k (timeNow memEnv s).2).2).2) _ a3 hsub
        refine ⟨?_, fun r hr => ?_, b3, ?_⟩
        · rw [List.append_assoc] at b1
          exact b1
        · rw [b2 r hr]
          show (checkRows memEnv l (lockRow memEnv l k (timeNow memEnv s).2).2).2.world.marker r
            = _
          rw [c3]
          exact hframe2 r hr
        · intro p ev post hsp hrj kk hkk
          rcases split_head _ _ _ _ _ hsp with ⟨_, hev, _⟩ | ⟨p1, hp1, hc⟩
          · rw [hev] at hrj
            simp [Event.isRejected] at hrj
          · rcases split_head _ _ _ _ _ hc with ⟨_, hev, _⟩ | ⟨p2, hp2, hc2⟩
            · rw [hev] at hkk
              simp [Event.lockedRow] at hkk
              rw [← hkk]
              exact List.mem_append_left _ (hrej (by rw [hl0]))
            · rcases split_head _ _ _ _ _ hc2 with ⟨_, hev, _⟩ | ⟨p3, hp3, hc3⟩
              · rw [hev] at hrj
                simp [Event.isRejected] at hrj
              · rcases split_head _ _ _ _ _ hc3 with ⟨_, hev, _⟩ | ⟨p4, hp4, hc4⟩
                · rw [hev] at hrj
                  simp [Event.isRejected] at hrj
                · have := b4 p4 ev post hc4 hrj kk hkk
                  rw [hp1, hp2, hp3, hp4]
                  simpa using this

/-- The calls of an attempt that ends with "key not found": it ends with a
conditional write that is not applied, the existence check that counts another
number of rows than `rowKeys` has entries, and the clears of `Release`. -/
theorem acquireRows_keyNotFound (env : Env σ) (l : Lock) (fuel i : Nat) (ks : List Row)
    (maxTime : Int) (s : St σ)
    (h : (acquireRows env l fuel i ks maxTime s).1 = some (some Error.keyNotFound)) :
    ∃ p k n rel, newEvents s (acquireRows env l fuel i ks maxTime s).2 =
        p ++ Event.lock (Duration.secondsInt l.ttl) l.lockID k false none ::
          Event.count l.rowKeys n none :: rel ∧
      n ≠ (l.rowKeys.length : Int) ∧ ∀ ev ∈ rel, ev.isClear = true := by
  induction fuel generalizing i ks maxTime s with
  | zero =>
    cases ks with
    | nil => rw [acquireRows_nil] at h; simp at h
    | cons k ks => rw [acquireRows_zero] at h; simp at h
  | succ fuel ih =>
    cases ks with
    | nil => rw [acquireRows_nil] at h; simp at h
    | cons k ks =>
      obtain ⟨a, e, n, f, _, _, hp⟩ := acquireRows_pass env l fuel i k ks maxTime s
      rcases hp with ⟨_, _, hres, _⟩ | ⟨_, ⟨e0, _, hres, _⟩ | ⟨_, _, hres, hT⟩ |
        ⟨_, _, ⟨err, hcase, hres, hT⟩ | ⟨_, _, hres, hT⟩⟩⟩
      · rw [hres] at h
        simp at h
      · rw [hres] at h
        simp at h
      · rw [hres] at h hT
        obtain ⟨p, k1, n1, rel, h1, h2, h3⟩ := ih _ _ _ _ h
        refine ⟨Event.now (timeNow env s).1 ::
          Event.lock (Duration.secondsInt l.ttl) l.lockID k true none :: p, k1, n1, rel, ?_,
          h2, h3⟩
        rw [hres, hT, h1]
        rfl
      · rw [hres] at h
        simp at h
        subst h
        rcases hcase with ⟨_, hf0, hn0⟩ | ⟨f0, _, hc⟩
        · refine ⟨[Event.now (timeNow env s).1], k, n,
            newEvents (checkRows env l (lockRow env l k (timeNow env s).2).2).2
              (Release env l (checkRows env l (lockRow env l k (timeNow env s).2).2).2).2,
            ?_, hn0, Release_events env l _⟩
          rw [hT, hf0]
          rfl
        · simp at hc
      · rw [hres] at h hT
        obtain ⟨p, k1, n1, rel, h1, h2, h3⟩ := ih _ _ _ _ h
        refine ⟨Event.now (timeNow env s).1 ::
          Event.lock (Duration.secondsInt l.ttl) l.lockID k false none ::
          Event.count l.rowKeys n none :: Event.sleep RetryTime :: p, k1, n1, rel, ?_,
          h2, h3⟩
        rw [hres, hT, h1]
        rfl

/-- An attempt of a lock that is alone on the store, whose `rowKeys` name a row twice, a
row still to claim carrying the lock's marker or being named twice among the
rows to claim: it ends with "key not found" or with `errTimeout`, in no more
than one pass per row, and not with `errTimeout` when the clock script is used
up. -/
theorem acquireRows_dup (l : Lock) (fuel i : Nat) (ks : List Row) (maxTime : Int)
    (s : St World) (pre0 : List Event) (h : Alone l s.world pre0)
    (hsub : ∀ r ∈ ks, r ∈ l.rowKeys) (hdup : ¬ l.rowKeys.Nodup)
    (hD : (∃ r ∈ ks, s.world.marker r = some l.lockID) ∨ ¬ ks.Nodup) :
    ((acquireRows memEnv l fuel i ks maxTime s).1 = some (some Error.keyNotFound) ∨
      (acquireRows memEnv l fuel i ks maxTime s).1 = some (some Error.errTimeout) ∨
      ((acquireRows memEnv l fuel i ks maxTime s).1 = none ∧ fuel < ks.length)) ∧
    (l.ttl = 2 * l.timeout → 0 < l.timeout → l.timeout < 2 ^ 62 →
      s.world.ticks = [] → (i ≠ 0 → maxTime = s.world.clock + l.ttl) →
      (acquireRows memEnv l fuel i ks maxTime s).1 ≠ some (some Error.errTimeout)) := by
  have hne : ks ≠ [] := by
    rintro rfl
    rcases hD with ⟨r, hr, _⟩ | hn
    · simp at hr
    · simp at hn
  induction fuel generalizing i ks maxTime s pre0 with
  | zero =>
    cases ks with
    | nil => exact absurd rfl hne
    | cons k ks =>
      rw [acquireRows_zero]
      exact ⟨Or.inr (Or.inr ⟨rfl, by simp⟩), by simp⟩
  | succ fuel ih =>
    cases ks with
    | nil => exact absurd rfl hne
    | cons k ks =>
      have hkr : k ∈ l.rowKeys := hsub k (List.mem_cons_self _ _)
      have a1 : Alone l (timeNow memEnv s).2.world pre0 := timeNow_alone h
      obtain ⟨q1, q2, q3⟩ := lockRow_quiet l k (timeNow memEnv s).2 a1.faults a1.others
      have hnow : s.world.ticks = [] → (timeNow memEnv s).1 = s.world.clock + 0 := by
        intro ht
        show s.world.clock + s.world.ticks.headD 0 = s.world.clock + 0
        rw [ht]
        rfl
      rcases acquireRows_cases memEnv l fuel i k ks maxTime s with
        ⟨hi, hlt, hh⟩ | ⟨_, ⟨err, he, hh⟩ | ⟨_, ha, hh⟩ | ⟨_, haf, ⟨err, he, hh⟩ | ⟨he, hh⟩⟩⟩
      · rw [hh]
        refine ⟨Or.inr (Or.inl rfl), ?_⟩
        intro httl h0 h1 ht hmax
        exfalso
        rw [hnow ht, hmax hi, httl] at hlt
        exact Time.sub_ttl _ _ h0 h1 hlt
      · rw [q1] at he
        simp at he
      · rw [hh]
        rw [q1] at ha
        have hc : s.world.present k = true ∧ s.world.marker k = none := by
          simpa using ha
        have a2 : Alone l (lockRow memEnv l k (timeNow memEnv s).2).2.world
            (Event.lock (Duration.secondsInt l.ttl) l.lockID k true none :: pre0) :=
          lockRow_alone k a1 _ (fun ev hev => List.mem_cons_of_mem _ hev)
            (fun _ => List.mem_cons_self _ _)
        have hD2 : (∃ r ∈ ks, (lockRow memEnv l k (timeNow memEnv s).2).2.world.marker r =
            some l.lockID) ∨ ¬ ks.Nodup := by
          rcases hD with ⟨r, hr, hm⟩ | hn
          · rcases List.mem_cons.1 hr with rfl | hr2
            · rw [hc.2] at hm
              simp at hm
            · refine Or.inl ⟨r, hr2, ?_⟩
              rw [q3 r]
              split_ifs
              · rfl
              · exact hm
          · rw [List.nodup_cons] at hn
            by_cases hk : k ∈ ks
            · refine Or.inl ⟨k, hk, ?_⟩
              rw [q3 k, if_pos ⟨rfl, hc⟩]
            · exact Or.inr (fun hn2 => hn ⟨hk, hn2⟩)
        have hne2 : ks ≠ [] := by
          rintro rfl
          rcases hD2 with ⟨r, hr, _⟩ | hn
          · simp at hr
          · simp at hn
        obtain ⟨a, c⟩ := ih (i + 1) ks
          (if i = 0 then Time.add (timeNow memEnv s).1 l.ttl else maxTime)
          (lockRow memEnv l k (timeNow memEnv s).2).2 _ a2
          (fun r hr => hsub r (List.mem_cons_of_mem _ hr)) hD2 hne2
        refine ⟨?_, ?_⟩
        · rcases a with a | a | ⟨a, hlt⟩
          · exact Or.inl a
          · exact Or.inr (Or.inl a)
          · exact Or.inr (Or.inr ⟨a, by simpa using hlt⟩)
        intro httl h0 h1 ht hmax
        have hq := World.lockQuery_clock (timeNow memEnv s).2.world l.lockID k
        have ht2 : (lockRow memEnv l k (timeNow memEnv s).2).2.world.ticks = [] := by
          have : (timeNow memEnv s).2.world.ticks = [] := by
            show s.world.ticks.tail = []
            rw [ht]
            rfl
          exact hq.1.trans this
        have hc2 : (lockRow memEnv l k (timeNow memEnv s).2).2.world.clock = s.world.clock := by
          have : (timeNow memEnv s).2.world.clock = s.world.clock := by
            show s.world.clock + s.world.ticks.headD 0 = s.world.clock
            rw [ht]
            show s.world.clock + 0 = s.world.clock
            omega
          exact hq.2.trans this
        apply c httl h0 h1 ht2
        intro _
        rw [hc2]
        by_cases hi : i = 0
        · rw [if_pos hi, hnow ht]
          show s.world.clock + 0 + l.ttl = s.world.clock + l.ttl
          omega
        · rw [if_neg hi]
          exact hmax hi
      · have a2 : Alone l (lockRow memEnv l k (timeNow memEnv s).2).2.world pre0 :=
          lockRow_alone k a1 _ (fun ev hev => hev) (fun ht => by rw [ht] at haf; simp at haf)
        obtain ⟨c1, _, _⟩ := checkRows_quiet l (lockRow memEnv l k (timeNow memEnv s).2).2
          a2.faults a2.others
        rw [c1, if_pos (Nat.ne_of_lt (countPresent_lt_of_dup _ _ hdup))] at he
        simp at he
        subst he
        rw [hh]
        exact ⟨Or.inl rfl, by simp⟩
      · have a2 : Alone l (lockRow memEnv l k (timeNow memEnv s).2).2.world pre0 :=
          lockRow_alone k a1 _ (fun ev hev => hev) (fun ht => by rw [ht] at haf; simp at haf)
        obtain ⟨c1, _, _⟩ := checkRows_quiet l (lockRow memEnv l k (timeNow memEnv s).2).2
          a2.faults a2.others
        rw [c1, if_pos (Nat.ne_of_lt (countPresent_lt_of_dup _ _ hdup))] at he
        simp at he

/-- An attempt over at least one row reads the clock: it uses up an entry of a
clock script that has one left. -/
theorem acquireLoop_ticks (l : Lock) (fuel : Nat) (s : St World) (hr : l.rowKeys ≠ [])
    (hfuel : 0 < fuel) (ht : s.world.ticks ≠ []) :
    (acquireLoop memEnv fuel l s).2.world.ticks.length < s.world.ticks.length := by
  cases hrk : l.rowKeys with
  | nil => exact absurd hrk hr
  | cons k ks =>
    cases fuel with
    | zero => simp at hfuel
    | succ fuel =>
      cases htk : s.world.ticks with
      | nil => exact absurd htk ht
      | cons d ds =>
        have hl := acquireRows_later_now l fuel 0 k ks 0 s
        obtain ⟨j, hj⟩ := hl.ticks
        have h2 : (acquireLoop memEnv (fuel + 1) l s).2.world.ticks = ds.drop j := by
          have h3 : (timeNow memEnv s).2.world.ticks = ds := by
            show s.world.ticks.tail = ds
            rw [htk]
            rfl
          rw [← h3, ← hj]
          unfold acquireLoop
          rw [hrk]
        rw [h2]
        simp only [List.length_drop, List.length_cons]
        omega

/-- One attempt of a lock that is alone on the store and whose `rowKeys` name a row
twice, no row carrying its marker. -/
theorem acquireLoop_dup (l : Lock) (fuel : Nat) (s : St World) (h : Alone l s.world [])
    (hdup : ¬ l.rowKeys.Nodup) :
    ((acquireLoop memEnv fuel l s).1 = some (some Error.keyNotFound) ∨
      (acquireLoop memEnv fuel l s).1 = some (some Error.errTimeout) ∨
      ((acquireLoop memEnv fuel l s).1 = none ∧ fuel < l.rowKeys.length)) ∧
    ((acquireLoop memEnv fuel l s).1 ≠ none →
      Alone l (acquireLoop memEnv fuel l s).2.world []) ∧
    (l.ttl = 2 * l.timeout → 0 < l.timeout → l.timeout < 2 ^ 62 → s.world.ticks = [] →
      (acquireLoop memEnv fuel l s).1 ≠ some (some Error.errTimeout)) := by
  obtain ⟨a, c⟩ := acquireRows_dup l fuel 0 l.rowKeys 0 s [] h (fun _ hr => hr) hdup
    (Or.inr hdup)
  obtain ⟨b1, _, b3, _⟩ := acquireRows_alone l fuel 0 l.rowKeys 0 s [] h (fun _ hr => hr)
  refine ⟨a, ?_, fun httl h0 h1 ht => c httl h0 h1 ht (by simp)⟩
  intro hne
  have herr : ∃ err, (acquireLoop memEnv fuel l s).1 = some (some err) := by
    rcases a with a | a | ⟨a, _⟩
    · exact ⟨_, a⟩
    · exact ⟨_, a⟩
    · exact absurd a hne
  obtain ⟨err, herr⟩ := herr
  exact Alone.of_unmarked [] b1.others b1.faults
    (fun r hr => ⟨(b1.rows r hr).1, b3 err herr r hr⟩)

/-- The loop of `Acquire` of a lock that is alone on the store and whose `rowKeys` name a
row twice: when it returns, it returns "key not found" and no row of `rowKeys`
carries a marker. -/
theorem acquireAttempts_dup (l : Lock) (fuel n : Nat) (s : St World) (h : Alone l s.world [])
    (hdup : ¬ l.rowKeys.Nodup) :
    (acquireAttempts memEnv fuel l n s).1 = none ∨
      ((acquireAttempts memEnv fuel l n s).1 = some (none, some Error.keyNotFound) ∧
        ∀ r ∈ l.rowKeys, (acquireAttempts memEnv fuel l n s).2.world.marker r = none) := by
  induction n generalizing s with
  | zero => exact Or.inl rfl
  | succ n ih =>
    obtain ⟨a, b, _⟩ := acquireLoop_dup l fuel s h hdup
    rw [acquireAttempts_succ]
    rcases a with a | a | ⟨a, _⟩
    · have b2 := b (by rw [a]; simp)
      rw [a]
      simp only []
      rw [if_neg (by simp)]
      exact Or.inr ⟨rfl, fun r hr => (b2.unmarked r hr).2⟩
    · have b2 := b (by rw [a]; simp)
      rw [a]
      simp only [if_true]
      exact ih _ b2
    · rw [a]
      exact Or.inl rfl

/-- The loop of `Acquire` of a lock that is alone on the store and whose `rowKeys` name a
row twice returns, given more attempts than the clock script has entries and
one pass per row. -/
theorem acquireAttempts_dup_returns (l : Lock) (fuel n : Nat) (s : St World)
    (h : Alone l s.world []) (hdup : ¬ l.rowKeys.Nodup) (hfuel : l.rowKeys.length ≤ fuel)
    (httl : l.ttl = 2 * l.timeout) (h0 : 0 < l.timeout) (h1 : l.timeout < 2 ^ 62)
    (hn : s.world.ticks.length < n) :
    (acquireAttempts memEnv fuel l n s).1 ≠ none := by
  have hr : l.rowKeys ≠ [] := by
    intro hnil
    rw [hnil] at hdup
    simp at hdup
  have hlen : 0 < l.rowKeys.length := List.length_pos.2 hr
  induction n generalizing s with
  | zero => simp at hn
  | succ n ih =>
    obtain ⟨a, b, c⟩ := acquireLoop_dup l fuel s h hdup
    rw [acquireAttempts_succ]
    rcases a with a | a | ⟨_, hlt⟩
    · rw [a]
      simp only []
      rw [if_neg (by simp)]
      simp
    · have b2 := b (by rw [a]; simp)
      rw [a]
      simp only [if_true]
      apply ih _ b2
      by_cases ht : s.world.ticks = []
      · exact absurd a (c httl h0 h1 ht)
      · have := acquireLoop_ticks l fuel s hr (by omega) ht
        omega
    · omega

/-- C19: over the scripted store with no other client and no store failure,
when `rowKeys` names a row twice and its rows are in the table and carry no
marker: every run of `Acquire` that returns gives no lock and the "key not
found" error and leaves every marker of `rowKeys` absent; `Acquire` does
return, for a timeout that is positive and below 2^62 nanoseconds, given more
attempts than the clock script has entries and one pass of the loop per row;
and under a clock that stands still between the readings, so that the time
budget is never used up, the calls of the run are the mint and then calls that
end with a conditional write that is not applied, on a row that an earlier
applied write of the run claimed under the same lock id, the existence check
that counts another number of rows than `rowKeys` has entries, and the clears
of `Release`. -/
theorem Acquire_duplicate_row_key (w : World) (tr : List Event) (keyspace table : String)
    (timeout : Int) (rowKeys : List Row) (hdup : ¬ rowKeys.Nodup)
    (hrows : ∀ r ∈ rowKeys, w.present r = true ∧ w.marker r = none)
    (ho : w.others = []) (hf : w.NoFaults) :
    (∀ attempts fuel res,
      (Acquire memEnv attempts fuel keyspace table timeout rowKeys ⟨w, tr⟩).1 = some res →
      res = (none, some Error.keyNotFound) ∧
      ∀ r ∈ rowKeys,
        (Acquire memEnv attempts fuel keyspace table timeout rowKeys ⟨w, tr⟩).2.world.marker r =
          none) ∧
    (0 < timeout → timeout < 2 ^ 62 → ∀ attempts fuel,
      w.ticks.length < attempts → rowKeys.length ≤ fuel →
      (Acquire memEnv attempts fuel keyspace table timeout rowKeys ⟨w, tr⟩).1 =
        some (none, some Error.keyNotFound)) ∧
    (0 < timeout → timeout < 2 ^ 62 → w.ticks = [] → ∀ attempts fuel,
      0 < attempts → rowKeys.length ≤ fuel →
      ∃ p k n rel,
        newEvents ⟨w, tr⟩
            (Acquire memEnv attempts fuel keyspace table timeout rowKeys ⟨w, tr⟩).2 =
          Event.mint w.nextID ::
            (p ++ Event.lock (Duration.secondsInt (Duration.mul timeout 2)) w.nextID k false none ::
              Event.count rowKeys n none :: rel) ∧
        n ≠ (rowKeys.length : Int) ∧ (∀ ev ∈ rel, ev.isClear = true) ∧
        Event.lock (Duration.secondsInt (Duration.mul timeout 2)) w.nextID k true none ∈ p) := by
  have hal : Alone (newLock w.nextID keyspace table timeout rowKeys)
      (memEnv.timeUUID w).2 [] := Alone.of_unmarked [] ho hf hrows
  have key : ∀ attempts fuel,
      (Acquire memEnv attempts fuel keyspace table timeout rowKeys ⟨w, tr⟩).1 = none ∨
      ((Acquire memEnv attempts fuel keyspace table timeout rowKeys ⟨w, tr⟩).1 =
          some (none, some Error.keyNotFound) ∧
        ∀ r ∈ rowKeys,
          (Acquire memEnv attempts fuel keyspace table timeout rowKeys
            ⟨w, tr⟩).2.world.marker r = none) := by
    intro attempts fuel
    rw [Acquire_eq]
    exact acquireAttempts_dup (newLock w.nextID keyspace table timeout rowKeys) fuel
      attempts ⟨_, _⟩ hal hdup
  refine ⟨?_, ?_, ?_⟩
  · intro attempts fuel res hres
    rcases key attempts fuel with h | ⟨h, h2⟩
    · rw [h] at hres
      simp at hres
    · rw [h] at hres
      simp at hres
      exact ⟨hres.symm, h2⟩
  · intro h0 h1 attempts fuel hn hfuel
    rcases key attempts fuel with h | ⟨h, _⟩
    · exfalso
      rw [Acquire_eq] at h
      exact acquireAttempts_dup_returns (newLock w.nextID keyspace table timeout rowKeys)
        fuel attempts ⟨_, _⟩ hal hdup hfuel (ttl_of_range timeout h0 h1) h0 h1 hn h
    · exact h
  · intro h0 h1 ht attempts fuel hn hfuel
    obtain ⟨n, rfl⟩ : ∃ n, attempts = n + 1 := ⟨attempts - 1, by omega⟩
    obtain ⟨a, _, c⟩ := acquireLoop_dup (newLock w.nextID keyspace table timeout rowKeys) fuel
      ⟨(memEnv.timeUUID w).2, tr ++ [Event.mint w.nextID]⟩ hal hdup
    have hk : (acquireLoop memEnv fuel (newLock w.nextID keyspace table timeout rowKeys)
        ⟨(memEnv.timeUUID w).2, tr ++ [Event.mint w.nextID]⟩).1 =
        some (some Error.keyNotFound) := by
      rcases a with a | a | ⟨_, hlt⟩
      · exact a
      · exact absurd a (c (ttl_of_range timeout h0 h1) h0 h1 ht)
      · exact absurd hlt (by
          show ¬ fuel < rowKeys.length
          omega)
    have hst : (Acquire memEnv (n + 1) fuel keyspace table timeout rowKeys ⟨w, tr⟩).2 =
        (acquireLoop memEnv fuel (newLock w.nextID keyspace table timeout rowKeys)
          ⟨(memEnv.timeUUID w).2, tr ++ [Event.mint w.nextID]⟩).2 := by
      rw [Acquire_eq]
      show (acquireAttempts memEnv fuel (newLock w.nextID keyspace table timeout rowKeys)
        (n + 1) ⟨(memEnv.timeUUID w).2, tr ++ [Event.mint w.nextID]⟩).2 = _
      rw [acquireAttempts_succ, hk]
      simp only []
      rw [if_neg (by simp)]
    obtain ⟨p, k, m, rel, e1, e2, e3⟩ := acquireRows_keyNotFound memEnv
      (newLock w.nextID keyspace table timeout rowKeys) fuel 0 rowKeys 0
      ⟨(memEnv.timeUUID w).2, tr ++ [Event.mint w.nextID]⟩ hk
    obtain ⟨_, _, _, b4⟩ := acquireRows_alone
      (newLock w.nextID keyspace table timeout rowKeys) fuel 0 rowKeys 0
      ⟨(memEnv.timeUUID w).2, tr ++ [Event.mint w.nextID]⟩ [] hal (fun _ hr => hr)
    have hmem := b4 p _ _ e1 rfl k rfl
    obtain ⟨T, hT⟩ := acquireRows_trace memEnv
      (newLock w.nextID keyspace table timeout rowKeys) fuel 0 rowKeys 0
      ⟨(memEnv.timeUUID w).2, tr ++ [Event.mint w.nextID]⟩
    refine ⟨p, k, m, rel, ?_, e2, e3, by simpa using hmem⟩
    have e4 : newEvents ⟨(memEnv.timeUUID w).2, tr ++ [Event.mint w.nextID]⟩
        (acquireLoop memEnv fuel (newLock w.nextID keyspace table timeout rowKeys)
          ⟨(memEnv.timeUUID w).2, tr ++ [Event.mint w.nextID]⟩).2 = _ := e1
    rw [hst, newEvents_step ⟨w, tr⟩ ⟨(memEnv.timeUUID w).2, tr ++ [Event.mint w.nextID]⟩
      (acquireLoop memEnv fuel (newLock w.nextID keyspace table timeout rowKeys)
        ⟨(memEnv.timeUUID w).2, tr ++ [Event.mint w.nextID]⟩).2
      (Event.mint w.nextID) T rfl hT, e4]
    rfl

/-- The rows r1, r2 and r1 again over a table that holds r1 and r2: `Acquire`
returns "key not found" and leaves both markers absent. -/
theorem Acquire_duplicate_row_key_witness :
    (¬ (["r1", "r2", "r1"] : List Row).Nodup ∧
      (∀ r ∈ (["r1", "r2", "r1"] : List Row),
        (World.quiet ["r1", "r2"]).present r = true ∧
          (World.quiet ["r1", "r2"]).marker r = none) ∧
      (World.quiet ["r1", "r2"]).others = [] ∧ (World.quiet ["r1", "r2"]).NoFaults ∧
      (0 : Int) < 30 * Second ∧ 30 * Second < 2 ^ 62) ∧
    (Acquire memEnv 1 3 "ks" "t" (30 * Second) ["r1", "r2", "r1"]
      ⟨World.quiet ["r1", "r2"], []⟩).1 = some (none, some Error.keyNotFound) ∧
    (∀ r ∈ (["r1", "r2", "r1"] : List Row),
      (Acquire memEnv 1 3 "ks" "t" (30 * Second) ["r1", "r2", "r1"]
        ⟨World.quiet ["r1", "r2"], []⟩).2.world.marker r = none) ∧
    newEvents ⟨World.quiet ["r1", "r2"], []⟩
      (Acquire memEnv 1 3 "ks" "t" (30 * Second) ["r1", "r2", "r1"]
        ⟨World.quiet ["r1", "r2"], []⟩).2 =
      [Event.mint 1, Event.now 0, Event.lock 60 1 "r1" true none,
        Event.now 0, Event.lock 60 1 "r2" true none,
        Event.now 0, Event.lock 60 1 "r1" false none,
        Event.count ["r1", "r2", "r1"] 2 none,
        Event.clear "r1" 1 true none, Event.clear "r2" 1 true none,
        Event.clear "r1" 1 false none] :=
  ⟨by decide,
    (Acquire_duplicate_row_key (World.quiet ["r1", "r2"]) [] "ks" "t" (30 * Second)
      ["r1", "r2", "r1"] (by decide) (by decide) (by decide) (by decide)).2.1
      (by decide) (by decide) 1 3 (by decide) (by decide),
    ((Acquire_duplicate_row_key (World.quiet ["r1", "r2"]) [] "ks" "t" (30 * Second)
      ["r1", "r2", "r1"] (by decide) (by decide) (by decide) (by decide)).1
      1 3 (none, some Error.keyNotFound) (by decide)).2,
    by decide⟩

/-! ## Locks over disjoint rows -/

/-- The two ways through one round of the loop of `Acquire`: the attempt ends
with `errTimeout` and the loop goes on from the state it left, or the run ends
in the state the attempt left. -/
theorem acquireAttempts_succ_cases (env : Env σ) (fuel : Nat) (l : Lock) (n : Nat) (s : St σ) :
    ((acquireLoop env fuel l s).1 = some (some Error.errTimeout) ∧
      acquireAttempts env fuel l (n + 1) s =
        acquireAttempts env fuel l n (acquireLoop env fuel l s).2) ∨
    ((acquireLoop env fuel l s).1 ≠ some (some Error.errTimeout) ∧
      (acquireAttempts env fuel l (n + 1) s).2 = (acquireLoop env fuel l s).2) := by
  rw [acquireAttempts_succ]
  rcases hr : (acquireLoop env fuel l s).1 with _ | _ | err
  · exact Or.inr ⟨by simp, rfl⟩
  · exact Or.inr ⟨by simp, rfl⟩
  · by_cases he : err = Error.errTimeout
    · subst he
      exact Or.inl ⟨rfl, by simp⟩
    · refine Or.inr ⟨by simpa using he, ?_⟩
      simp only []
      rw [if_neg he]

/-- A run of the loop of `Acquire` of a lock that is alone on the store: the store stays
as the lock expects it, no marker of a row outside `rowKeys` changes, and every
conditional write that is not applied is on a row that an earlier write of the
lock claimed. -/
theorem acquireAttempts_alone (l : Lock) (fuel n : Nat) (s : St World) (pre0 : List Event)
    (h : Alone l s.world pre0) :
    Alone l (acquireAttempts memEnv fuel l n s).2.world
      (pre0 ++ newEvents s (acquireAttempts memEnv fuel l n s).2) ∧
    (∀ r, r ∉ l.rowKeys →
      (acquireAttempts memEnv fuel l n s).2.world.marker r = s.world.marker r) ∧
    ∀ p ev post, newEvents s (acquireAttempts memEnv fuel l n s).2 = p ++ ev :: post →
      ev.isRejected = true → ∀ k, ev.lockedRow = some k →
      Event.lock (Duration.secondsInt l.ttl) l.lockID k true none ∈ pre0 ++ p := by
  induction n generalizing s pre0 with
  | zero =>
    rw [acquireAttempts_zero]
    have hn : newEvents s s = [] := newEvents_of_append s s [] (by simp)
    refine ⟨by rw [hn]; simpa using h, fun _ _ => rfl, ?_⟩
    intro p ev post hsp
    rw [hn] at hsp
    simp at hsp
  | succ n ih =>
    obtain ⟨b1, b2, _, b4⟩ := acquireRows_alone l fuel 0 l.rowKeys 0 s pre0 h (fun _ hr => hr)
    rcases acquireAttempts_succ_cases memEnv fuel l n s with ⟨_, hh⟩ | ⟨_, hh⟩
    · rw [hh]
      obtain ⟨T1, hT1⟩ := acquireRows_trace memEnv l fuel 0 l.rowKeys 0 s
      have hT1a : (acquireLoop memEnv fuel l s).2.trace = s.trace ++ T1 := hT1
      have hn1 : newEvents s (acquireLoop memEnv fuel l s).2 = T1 :=
        newEvents_of_append _ _ _ hT1a
      have b1a : Alone l (acquireLoop memEnv fuel l s).2.world (pre0 ++ T1) := by
        rw [← hn1]
        exact b1
      have b4a : ∀ p ev post, T1 = p ++ ev :: post → ev.isRejected = true →
          ∀ k, ev.lockedRow = some k →
          Event.lock (Duration.secondsInt l.ttl) l.lockID k true none ∈ pre0 ++ p := by
        intro p ev post hsp
        exact b4 p ev post (hn1.trans hsp)
      obtain ⟨c1, c2, c4⟩ := ih (acquireLoop memEnv fuel l s).2 (pre0 ++ T1) b1a
      rw [newEvents_append_left s (acquireLoop memEnv fuel l s).2 _ T1 hT1a
        (acquireAttempts_trace memEnv fuel l n _)]
      refine ⟨?_, fun r hr => (c2 r hr).trans (b2 r hr), ?_⟩
      · rw [← List.append_assoc]
        exact c1
      · intro p ev post hsp hrj k hk
        rcases List.append_eq_append_iff.1 hsp with ⟨a1, ha1, ha2⟩ | ⟨c, hc1, hc2⟩
        · have := c4 a1 ev post ha2 hrj k hk
          rw [ha1, ← List.append_assoc]
          exact this
        · cases c with
          | nil =>
            have h2 : newEvents (acquireLoop memEnv fuel l s).2
                (acquireAttempts memEnv fuel l n (acquireLoop memEnv fuel l s).2).2 =
                [] ++ ev :: post := by
              simpa using hc2.symm
            have := c4 [] ev post h2 hrj k hk
            have hp : p = T1 := by simpa using hc1.symm
            rw [hp]
            simpa using this
          | cons x c =>
            have hx : x = ev := by
              have := hc2
              simp at this
              exact this.1.symm
            rw [hx] at hc1
            exact b4a p ev c hc1 hrj k hk
    · rw [hh]
      exact ⟨b1, b2, b4⟩

theorem clears_plain (rel : List Event) (h : ∀ ev ∈ rel, ev.isClear = true) :
    ∀ ev ∈ rel, ev.isRejected = false ∧ ev.isCount = false ∧ ∀ d, ev ≠ Event.sleep d := by
  intro ev hev
  have := h ev hev
  cases ev <;> simp_all [Event.isClear, Event.isRejected, Event.isCount]

/-- An attempt of a lock that is alone on the store, over rows to claim that are pairwise
distinct and carry no marker: every conditional write is applied, and there is
no existence check and no sleep. -/
theorem acquireRows_fresh (l : Lock) (fuel i : Nat) (ks : List Row) (maxTime : Int)
    (s : St World) (pre0 : List Event) (h : Alone l s.world pre0) (hnd : ks.Nodup)
    (hsub : ∀ r ∈ ks, r ∈ l.rowKeys ∧ s.world.marker r = none) :
    ∀ ev ∈ newEvents s (acquireRows memEnv l fuel i ks maxTime s).2,
      ev.isRejected = false ∧ ev.isCount = false ∧ ∀ d, ev ≠ Event.sleep d := by
  induction fuel generalizing i ks maxTime s pre0 with
  | zero =>
    have hn : newEvents s s = [] := newEvents_of_append s s [] (by simp)
    cases ks with
    | nil => rw [acquireRows_nil, hn]; simp
    | cons k ks => rw [acquireRows_zero, hn]; simp
  | succ fuel ih =>
    cases ks with
    | nil =>
      have hn : newEvents s s = [] := newEvents_of_append s s [] (by simp)
      rw [acquireRows_nil, hn]
      simp
    | cons k ks =>
      have hkr := hsub k (List.mem_cons_self _ _)
      have a1 : Alone l (timeNow memEnv s).2.world pre0 := timeNow_alone h
      obtain ⟨q1, q2, q3⟩ := lockRow_quiet l k (timeNow memEnv s).2 a1.faults a1.others
      have hap : (lockRow memEnv l k (timeNow memEnv s).2).1 = (true, none) := by
        rw [q1]
        have : (timeNow memEnv s).2.world.present k = true ∧
            (timeNow memEnv s).2.world.marker k = none := ⟨(h.rows k hkr.1).1, hkr.2⟩
        rw [decide_eq_true this]
      obtain ⟨a, e, n, f, hA, _, hp⟩ := acquireRows_pass memEnv l fuel i k ks maxTime s
      rw [hap] at hA
      have ha : a = true := (congrArg Prod.fst hA).symm
      rcases hp with ⟨_, _, _, hT⟩ | ⟨_, ⟨e0, he0, _⟩ | ⟨_, _, hres, hT⟩ |
        ⟨_, haf, _⟩⟩
      · rw [hT]
        intro ev hev
        rcases List.mem_cons.1 hev with rfl | hev
        · simp [Event.isRejected, Event.isCount]
        · exact clears_plain _ (Release_events memEnv l _) ev hev
      · rw [he0] at hA
        simp at hA
      · rw [hres] at hT
        rw [hres, hT]
        have a2 : Alone l (lockRow memEnv l k (timeNow memEnv s).2).2.world
            (Event.lock (Duration.secondsInt l.ttl) l.lockID k true none :: pre0) :=
          lockRow_alone k a1 _ (fun ev hev => List.mem_cons_of_mem _ hev)
            (fun _ => List.mem_cons_self _ _)
        rw [List.nodup_cons] at hnd
        have hsub2 : ∀ r ∈ ks, r ∈ l.rowKeys ∧
            (lockRow memEnv l k (timeNow memEnv s).2).2.world.marker r = none := by
          intro r hr
          have hrk : r ≠ k := fun hc => hnd.1 (hc ▸ hr)
          refine ⟨(hsub r (List.mem_cons_of_mem _ hr)).1, ?_⟩
          rw [q3 r, if_neg (fun hc => hrk hc.1)]
          exact (hsub r (List.mem_cons_of_mem _ hr)).2
        have := ih (i + 1) ks
          (if i = 0 then Time.add (timeNow memEnv s).1 l.ttl else maxTime)
          (lockRow memEnv l k (timeNow memEnv s).2).2 _ a2 hnd.2 hsub2
        intro ev hev
        rcases List.mem_cons.1 hev with rfl | hev
        · simp [Event.isRejected, Event.isCount]
        · rcases List.mem_cons.1 hev with rfl | hev
          · simp [Event.isRejected, Event.isCount]
          · exact this ev hev
      · rw [ha] at haf
        simp at haf

/-- A run of the loop of `Acquire` of a lock that is alone on the store, over pairwise
distinct rows that carry no marker: every conditional write is applied, and
there is no existence check and no sleep. -/
theorem acquireAttempts_fresh (l : Lock) (fuel n : Nat) (s : St World)
    (h : Alone l s.world []) (hnd : l.rowKeys.Nodup) :
    ∀ ev ∈ newEvents s (acquireAttempts memEnv fuel l n s).2,
      ev.isRejected = false ∧ ev.isCount = false ∧ ∀ d, ev ≠ Event.sleep d := by
  induction n generalizing s with
  | zero =>
    rw [acquireAttempts_zero, newEvents_of_append s s [] (by simp)]
    simp
  | succ n ih =>
    have hf := acquireRows_fresh l fuel 0 l.rowKeys 0 s [] h hnd
      (fun r hr => ⟨hr, (h.unmarked r hr).2⟩)
    obtain ⟨b1, _, b3, _⟩ := acquireRows_alone l fuel 0 l.rowKeys 0 s [] h (fun _ hr => hr)
    rcases acquireAttempts_succ_cases memEnv fuel l n s with ⟨hto, hh⟩ | ⟨_, hh⟩
    · rw [hh]
      obtain ⟨T1, hT1⟩ := acquireRows_trace memEnv l fuel 0 l.rowKeys 0 s
      have hT1a : (acquireLoop memEnv fuel l s).2.trace = s.trace ++ T1 := hT1
      have hn1 : newEvents s (acquireLoop memEnv fuel l s).2 = T1 :=
        newEvents_of_append _ _ _ hT1a
      have b2 : Alone l (acquireLoop memEnv fuel l s).2.world [] :=
        Alone.of_unmarked [] b1.others b1.faults
          (fun r hr => ⟨(b1.rows r hr).1, b3 _ hto r hr⟩)
      rw [newEvents_append_left s (acquireLoop memEnv fuel l s).2 _ T1 hT1a
        (acquireAttempts_trace memEnv fuel l n _)]
      intro ev hev
      rcases List.mem_append.1 hev with hev | hev
      · exact hf ev (by
          show ev ∈ newEvents s (acquireLoop memEnv fuel l s).2
          rw [hn1]
          exact hev)
      · exact ih _ b2 ev hev
    · rw [hh]
      exact hf

/-- A run of `Acquire` over rows that are in the table and carry no marker, on
a store with no other client and no failure: the store stays so, one UUID is
used, no marker of a row outside `rowKeys` changes, every conditional write
that is not applied is on a row that an earlier write of the run claimed, and
when the rows are pairwise distinct every write is applied and there is no
existence check and no sleep. -/
theorem Acquire_alone (w : World) (tr : List Event) (attempts fuel : Nat)
    (keyspace table : String) (timeout : Int) (rowKeys : List Row)
    (ho : w.others = []) (hf : w.NoFaults)
    (hrows : ∀ r ∈ rowKeys, w.present r = true ∧ w.marker r = none) :
    (Acquire memEnv attempts fuel keyspace table timeout rowKeys ⟨w, tr⟩).2.world.others = [] ∧
    (Acquire memEnv attempts fuel keyspace table timeout rowKeys ⟨w, tr⟩).2.world.NoFaults ∧
    (Acquire memEnv attempts fuel keyspace table timeout rowKeys ⟨w, tr⟩).2.world.present =
      w.present ∧
    (Acquire memEnv attempts fuel keyspace table timeout rowKeys ⟨w, tr⟩).2.world.nextID =
      w.nextID + 1 ∧
    (∀ r, r ∉ rowKeys →
      (Acquire memEnv attempts fuel keyspace table timeout rowKeys ⟨w, tr⟩).2.world.marker r =
        w.marker r) ∧
    (∀ p ev post,
      newEvents ⟨w, tr⟩
        (Acquire memEnv attempts fuel keyspace table timeout rowKeys ⟨w, tr⟩).2 =
        p ++ ev :: post →
      ev.isRejected = true → ∀ k, ev.lockedRow = some k →
      Event.lock (Duration.secondsInt (Duration.mul timeout 2)) w.nextID k true none ∈ p) ∧
    (rowKeys.Nodup →
      ∀ ev ∈ newEvents ⟨w, tr⟩
        (Acquire memEnv attempts fuel keyspace table timeout rowKeys ⟨w, tr⟩).2,
      ev.isRejected = false ∧ ev.isCount = false ∧ ∀ d, ev ≠ Event.sleep d) := by
  have hal : Alone (newLock w.nextID keyspace table timeout rowKeys)
      (memEnv.timeUUID w).2 [] := Alone.of_unmarked [] ho hf hrows
  obtain ⟨b1, b2, b4⟩ := acquireAttempts_alone
    (newLock w.nextID keyspace table timeout rowKeys) fuel attempts
    ⟨(memEnv.timeUUID w).2, tr ++ [Event.mint w.nextID]⟩ [] hal
  have hl := acquireAttempts_later (newLock w.nextID keyspace table timeout rowKeys) fuel
    attempts ⟨(memEnv.timeUUID w).2, tr ++ [Event.mint w.nextID]⟩
  obtain ⟨T, hT⟩ := acquireAttempts_trace memEnv fuel
    (newLock w.nextID keyspace table timeout rowKeys) attempts
    ⟨(memEnv.timeUUID w).2, tr ++ [Event.mint w.nextID]⟩
  have hnew : newEvents ⟨w, tr⟩
      (Acquire memEnv attempts fuel keyspace table timeout rowKeys ⟨w, tr⟩).2 =
      Event.mint w.nextID ::
        newEvents ⟨(memEnv.timeUUID w).2, tr ++ [Event.mint w.nextID]⟩
          (acquireAttempts memEnv fuel (newLock w.nextID keyspace table timeout rowKeys)
            attempts ⟨(memEnv.timeUUID w).2, tr ++ [Event.mint w.nextID]⟩).2 :=
    newEvents_step ⟨w, tr⟩ ⟨(memEnv.timeUUID w).2, tr ++ [Event.mint w.nextID]⟩ _
      (Event.mint w.nextID) T rfl hT
  refine ⟨b1.others, b1.faults, hl.present, hl.nextID, b2, ?_, ?_⟩
  · intro p ev post hsp hrj k hk
    rw [hnew] at hsp
    rcases split_head _ _ _ _ _ hsp with ⟨_, hev, _⟩ | ⟨p1, hp1, hc⟩
    · rw [hev] at hrj
      simp [Event.isRejected] at hrj
    · have := b4 p1 ev post hc hrj k hk
      rw [hp1]
      exact List.mem_cons_of_mem _ (by simpa using this)
  · intro hnd ev hev
    rw [hnew] at hev
    rcases List.mem_cons.1 hev with rfl | hev
    · simp [Event.isRejected, Event.isCount]
    · exact acquireAttempts_fresh (newLock w.nextID keyspace table timeout rowKeys) fuel
        attempts _ hal hnd ev hev

/-- C12: two locks with disjoint `rowKeys` over rows that are in the table and
carry no marker, on the scripted store with no other client and no store
failure.  A conditional write or a `Release` of a lock changes no marker of a
row outside its `rowKeys`.  The run of `Acquire` of the first lock leaves the
rows of the second without marker.  In the run of `Acquire` of the second lock
that follows, every conditional write that is not applied is on a row that an
earlier applied write of the same run claimed under the second lock's id, so
none is rejected on account of the first lock; when the rows of the second
lock are pairwise distinct every conditional write is applied and there is no
existence check and no sleep; and the markers of the rows of the first lock
are as the first run left them. -/
theorem disjoint_locks_do_not_interfere (w : World) (tr : List Event)
    (attempts1 fuel1 attempts2 fuel2 : Nat) (keyspace1 table1 keyspace2 table2 : String)
    (timeout1 timeout2 : Int) (rows1 rows2 : List Row)
    (hdisj : ∀ r ∈ rows1, r ∉ rows2)
    (hrows : ∀ r ∈ rows1 ++ rows2, w.present r = true ∧ w.marker r = none)
    (ho : w.others = []) (hf : w.NoFaults) :
    (∀ (l : Lock) (s : St World), s.world.others = [] → s.world.NoFaults →
      ∀ r, r ∉ l.rowKeys →
        (∀ k ∈ l.rowKeys, (lockRow memEnv l k s).2.world.marker r = s.world.marker r) ∧
        (Release memEnv l s).2.world.marker r = s.world.marker r) ∧
    (∀ r ∈ rows2,
      (Acquire memEnv attempts1 fuel1 keyspace1 table1 timeout1 rows1
        ⟨w, tr⟩).2.world.marker r = none) ∧
    (∀ p ev post,
      newEvents (Acquire memEnv attempts1 fuel1 keyspace1 table1 timeout1 rows1 ⟨w, tr⟩).2
        (Acquire memEnv attempts2 fuel2 keyspace2 table2 timeout2 rows2
          (Acquire memEnv attempts1 fuel1 keyspace1 table1 timeout1 rows1 ⟨w, tr⟩).2).2 =
        p ++ ev :: post →
      ev.isRejected = true → ∀ k, ev.lockedRow = some k →
      Event.lock (Duration.secondsInt (Duration.mul timeout2 2)) (w.nextID + 1) k true none
        ∈ p) ∧
    (rows2.Nodup →
      ∀ ev ∈ newEvents
        (Acquire memEnv attempts1 fuel1 keyspace1 table1 timeout1 rows1 ⟨w, tr⟩).2
        (Acquire memEnv attempts2 fuel2 keyspace2 table2 timeout2 rows2
          (Acquire memEnv attempts1 fuel1 keyspace1 table1 timeout1 rows1 ⟨w, tr⟩).2).2,
      ev.isRejected = false ∧ ev.isCount = false ∧ ∀ d, ev ≠ Event.sleep d) ∧
    ∀ r ∈ rows1,
      (Acquire memEnv attempts2 fuel2 keyspace2 table2 timeout2 rows2
        (Acquire memEnv attempts1 fuel1 keyspace1 table1 timeout1 rows1
          ⟨w, tr⟩).2).2.world.marker r =
      (Acquire memEnv attempts1 fuel1 keyspace1 table1 timeout1 rows1
        ⟨w, tr⟩).2.world.marker r := by
  obtain ⟨a1, a2, a3, a4, a5, _, _⟩ := Acquire_alone w tr attempts1 fuel1 keyspace1 table1
    timeout1 rows1 ho hf (fun r hr => hrows r (List.mem_append_left _ hr))
  have hfree : ∀ r ∈ rows2,
      (Acquire memEnv attempts1 fuel1 keyspace1 table1 timeout1 rows1
        ⟨w, tr⟩).2.world.marker r = none := by
    intro r hr
    rw [a5 r (fun h1 => hdisj r h1 hr)]
    exact (hrows r (List.mem_append_right _ hr)).2
  obtain ⟨_, _, _, _, c5, c6, c7⟩ := Acquire_alone
    (Acquire memEnv attempts1 fuel1 keyspace1 table1 timeout1 rows1 ⟨w, tr⟩).2.world
    (Acquire memEnv attempts1 fuel1 keyspace1 table1 timeout1 rows1 ⟨w, tr⟩).2.trace
    attempts2 fuel2 keyspace2 table2 timeout2 rows2 a1 a2
    (fun r hr => ⟨by rw [a3]; exact (hrows r (List.mem_append_right _ hr)).1, hfree r hr⟩)
  rw [a4] at c6
  refine ⟨?_, hfree, c6, c7, fun r hr => c5 r (hdisj r hr)⟩
  intro l s hso hsf r hr
  constructor
  · intro k hk
    have hrk : r ≠ k := fun hc => hr (hc ▸ hk)
    rw [(lockRow_quiet l k s hsf hso).2.2 r, if_neg (fun hc => hrk hc.1)]
  · have := (releaseRows_quiet l l.rowKeys s hsf hso).2.2 r
    rw [if_neg (fun hc => hr hc.1)] at this
    exact this

/-- The locks over r1, r2 and over r3, r4 on a table that holds the four rows:
both runs of `Acquire` succeed, the second with two applied writes and nothing
else, and r1 and r2 keep the first lock's marker. -/
theorem disjoint_locks_do_not_interfere_witness :
    ((∀ r ∈ (["r1", "r2"] : List Row), r ∉ (["r3", "r4"] : List Row)) ∧
      (∀ r ∈ (["r1", "r2"] : List Row) ++ ["r3", "r4"],
        (World.quiet ["r1", "r2", "r3", "r4"]).present r = true ∧
          (World.quiet ["r1", "r2", "r3", "r4"]).marker r = none) ∧
      (World.quiet ["r1", "r2", "r3", "r4"]).others = [] ∧
      (World.quiet ["r1", "r2", "r3", "r4"]).NoFaults) ∧
    (∀ r ∈ (["r1", "r2"] : List Row),
      (Acquire memEnv 1 2 "ks" "t" (30 * Second) ["r3", "r4"]
        (Acquire memEnv 1 2 "ks" "t" (30 * Second) ["r1", "r2"]
          ⟨World.quiet ["r1", "r2", "r3", "r4"], []⟩).2).2.world.marker r =
      (Acquire memEnv 1 2 "ks" "t" (30 * Second) ["r1", "r2"]
        ⟨World.quiet ["r1", "r2", "r3", "r4"], []⟩).2.world.marker r) ∧
    (Acquire memEnv 1 2 "ks" "t" (30 * Second) ["r1", "r2"]
      ⟨World.quiet ["r1", "r2", "r3", "r4"], []⟩).1 =
      some (some (newLock 1 "ks" "t" (30 * Second) ["r1", "r2"]), none) ∧
    (Acquire memEnv 1 2 "ks" "t" (30 * Second) ["r3", "r4"]
      (Acquire memEnv 1 2 "ks" "t" (30 * Second) ["r1", "r2"]
        ⟨World.quiet ["r1", "r2", "r3", "r4"], []⟩).2).1 =
      some (some (newLock 2 "ks" "t" (30 * Second) ["r3", "r4"]), none) ∧
    newEvents
      (Acquire memEnv 1 2 "ks" "t" (30 * Second) ["r1", "r2"]
        ⟨World.quiet ["r1", "r2", "r3", "r4"], []⟩).2
      (Acquire memEnv 1 2 "ks" "t" (30 * Second) ["r3", "r4"]
        (Acquire memEnv 1 2 "ks" "t" (30 * Second) ["r1", "r2"]
          ⟨World.quiet ["r1", "r2", "r3", "r4"], []⟩).2).2 =
      [Event.mint 2, Event.now 0, Event.lock 60 2 "r3" true none,
        Event.now 0, Event.lock 60 2 "r4" true none] ∧
    (Acquire memEnv 1 2 "ks" "t" (30 * Second) ["r3", "r4"]
      (Acquire memEnv 1 2 "ks" "t" (30 * Second) ["r1", "r2"]
        ⟨World.quiet ["r1", "r2", "r3", "r4"], []⟩).2).2.world.marker "r1" = some 1 :=
  ⟨by decide,
    (disjoint_locks_do_not_interfere (World.quiet ["r1", "r2", "r3", "r4"]) [] 1 2 1 2
      "ks" "t" "ks" "t" (30 * Second) (30 * Second) ["r1", "r2"] ["r3", "r4"]
      (by decide) (by decide) (by decide) (by decide)).2.2.2.2,
    by decide, by decide, by decide, by decide⟩
end Caslock
